import Mathlib

/-!
# Verification development for the CW2 scene viewer

Shallow embedding of the animation controller (`task7`), the tracking camera
(`task8`), the particle system and the split-screen viewport computation of
`main/main.cpp`.

Conventions of the embedding:

* C++ `float` values are elements of an arbitrary linearly ordered field `F`
  (exact arithmetic; rounding is not modelled).  Every definition is
  computable, e.g. at `F = ℚ`.
* `<cmath>` functions (`std::sqrt`, `std::cos`, `std::sin`) and the constant
  `kPi` are collected in the record `Libm`, passed explicitly.
* `std::array<T,3>` is `Fin 3 → T`; `std::vector<Particle>` is `List Particle`.
* In/out reference parameters become explicit results.
-/

namespace CW2

/-! ## Vector / matrix layer (`vmlib`, not part of the sources at hand) -/

/-- Functions of the C maths library used by the program, over the number type `F`. -/
structure Libm (F : Type) where
  /-- Stands for `std::sqrt`. -/
  sqrt : F → F
  /-- Stands for `std::cos`. -/
  cos : F → F
  /-- Stands for `std::sin`. -/
  sin : F → F
  /-- Stands for `std::numbers::pi_v<float>`. -/
  kPi : F

/-- Modelled from the spec: `Vec3f` of `vmlib/vec3.hpp` (header missing), a 3D vector
with components `x`, `y`, `z`. -/
@[ext]
structure Vec3f (F : Type) where
  x : F
  y : F
  z : F
deriving DecidableEq, Repr

/-- Modelled from the spec: `Vec4f` of `vmlib/vec4.hpp` (header missing). -/
structure Vec4f (F : Type) where
  x : F
  y : F
  z : F
  w : F
deriving DecidableEq, Repr

/-- Modelled from the spec: `Mat44f` of `vmlib/mat44.hpp` (header missing), a 4x4
matrix indexed `m[i,j]` by row `i` and column `j`. -/
abbrev Mat44f (F : Type) := Fin 4 → Fin 4 → F

section Math

variable {F : Type} [LinearOrderedField F]

namespace Vec3f

/-- Modelled from the spec: component-wise `operator+` of `vmlib/vec3.hpp`. -/
def add (a b : Vec3f F) : Vec3f F := ⟨a.x + b.x, a.y + b.y, a.z + b.z⟩

/-- Modelled from the spec: component-wise `operator-` of `vmlib/vec3.hpp`. -/
def sub (a b : Vec3f F) : Vec3f F := ⟨a.x - b.x, a.y - b.y, a.z - b.z⟩

/-- Modelled from the spec: unary `operator-` of `vmlib/vec3.hpp`. -/
def neg (a : Vec3f F) : Vec3f F := ⟨-a.x, -a.y, -a.z⟩

/-- Modelled from the spec: `operator*( Vec3f, float )` of `vmlib/vec3.hpp`. -/
def scale (a : Vec3f F) (s : F) : Vec3f F := ⟨a.x * s, a.y * s, a.z * s⟩

/-- Modelled from the spec: `operator/( Vec3f, float )` of `vmlib/vec3.hpp`. -/
def divide (a : Vec3f F) (s : F) : Vec3f F := ⟨a.x / s, a.y / s, a.z / s⟩

instance : Add (Vec3f F) := ⟨add⟩
instance : Sub (Vec3f F) := ⟨sub⟩
instance : Neg (Vec3f F) := ⟨neg⟩

end Vec3f

/-- Modelled from the spec: `dot` of `vmlib/vec3.hpp`, the Euclidean inner product. -/
def dot (a b : Vec3f F) : F := a.x * b.x + a.y * b.y + a.z * b.z

/-- Modelled from the spec: `length` of `vmlib/vec3.hpp`, the square root of `dot(v,v)`. -/
def length (m : Libm F) (v : Vec3f F) : F := m.sqrt (dot v v)

/-- Modelled from the spec: `kIdentity44f` of `vmlib/mat44.hpp`. -/
def kIdentity44f : Mat44f F := fun i j => if i = j then 1 else 0

/-- Assignment `m[i,j] = v` to one matrix entry. -/
def Mat44f.set (m : Mat44f F) (i j : Fin 4) (v : F) : Mat44f F :=
  fun a b => if a = i ∧ b = j then v else m a b

/-- Modelled from the spec: `operator*( Mat44f, Mat44f )` of `vmlib/mat44.hpp`, the
row-by-column product checked by `vmlib-test/mult.cpp`. -/
def Mat44f.mul (l r : Mat44f F) : Mat44f F :=
  fun i j => l i 0 * r 0 j + l i 1 * r 1 j + l i 2 * r 2 j + l i 3 * r 3 j

/-- Modelled from the spec: `operator*( Mat44f, Vec4f )` of `vmlib/mat44.hpp`, checked by
`vmlib-test/mult.cpp`. -/
def Mat44f.mulVec (l : Mat44f F) (v : Vec4f F) : Vec4f F :=
  ⟨l 0 0 * v.x + l 0 1 * v.y + l 0 2 * v.z + l 0 3 * v.w,
   l 1 0 * v.x + l 1 1 * v.y + l 1 2 * v.z + l 1 3 * v.w,
   l 2 0 * v.x + l 2 1 * v.y + l 2 2 * v.z + l 2 3 * v.w,
   l 3 0 * v.x + l 3 1 * v.y + l 3 2 * v.z + l 3 3 * v.w⟩

/-- Modelled from the spec: `make_translation` of `vmlib/mat44.hpp`: the identity with the
offset in the last column, checked by `vmlib-test/translation.cpp`. -/
def make_translation (t : Vec3f F) : Mat44f F :=
  ((kIdentity44f.set 0 3 t.x).set 1 3 t.y).set 2 3 t.z

/-- The `std::clamp( v, lo, hi )` of `<algorithm>`. -/
def clamp (v lo hi : F) : F := if v < lo then lo else if hi < v then hi else v

/-- The inline helper `cross` of `main.cpp`. -/
def cross (a b : Vec3f F) : Vec3f F :=
  ⟨a.y * b.z - a.z * b.y, a.z * b.x - a.x * b.z, a.x * b.y - a.y * b.x⟩

/-- The inline helper `safe_normalize` of `main.cpp`; the C++ default argument
`fallback = Vec3f{ 0, 1, 0 }` is passed explicitly by the callers. -/
def safe_normalize (m : Libm F) (vec : Vec3f F) (fallback : Vec3f F) : Vec3f F :=
  let len := length m vec
  if len ≤ 1 / 1000000 then fallback else vec.divide len

/-- Modelled from the spec: `make_rotation_x` of `vmlib/mat44.hpp` (header missing), the
right-handed rotation about the X axis by `angle`, as checked by
`vmlib-test/rotation.cpp` (a quarter turn takes `+Y` to `+Z`). -/
def make_rotation_x (m : Libm F) (angle : F) : Mat44f F :=
  (((kIdentity44f.set 1 1 (m.cos angle)).set 1 2 (-m.sin angle)).set
    2 1 (m.sin angle)).set 2 2 (m.cos angle)

/-- Modelled from the spec: `make_rotation_y` of `vmlib/mat44.hpp` (header missing), the
right-handed rotation about the Y axis by `angle`, as checked by
`vmlib-test/rotation.cpp` (a quarter turn takes `+Z` to `+X`). -/
def make_rotation_y (m : Libm F) (angle : F) : Mat44f F :=
  (((kIdentity44f.set 0 0 (m.cos angle)).set 0 2 (m.sin angle)).set
    2 0 (-m.sin angle)).set 2 2 (m.cos angle)

/-- Modelled from the spec: `make_rotation_z` of `vmlib/mat44.hpp` (header missing), the
right-handed rotation about the Z axis by `angle`, as checked by
`vmlib-test/rotation.cpp` (a quarter turn takes `+X` to `+Y`). -/
def make_rotation_z (m : Libm F) (angle : F) : Mat44f F :=
  (((kIdentity44f.set 0 0 (m.cos angle)).set 0 1 (-m.sin angle)).set
    1 0 (m.sin angle)).set 1 1 (m.cos angle)

/-- Determinant of the 3x3 matrix with rows `a`, `b`, `c`. -/
def det_rows (a b c : Vec3f F) : F :=
  a.x * (b.y * c.z - b.z * c.y) - a.y * (b.x * c.z - b.z * c.x) +
    a.z * (b.x * c.y - b.y * c.x)

end Math

/-! ## Animation controller (`namespace task7`) -/

namespace task6

/-- The `task6::PointLight` record. -/
structure PointLight (F : Type) where
  position : Vec3f F
  color : Vec3f F
  enabled : Bool

end task6

namespace task7

/-- The `task7::AnimationState` record. -/
structure AnimationState (F : Type) where
  active : Bool
  paused : Bool
  time : F
  startPos : Vec3f F
  lastPos : Vec3f F
  baseModel : Mat44f F
  currentModel : Mat44f F
  lightOffsets : Fin 3 → Vec3f F

/-- Result of `task7::update`: the new state and the two reference parameters
`vehicleModelMatrix` and `lights` as written by the call. -/
structure Frame (F : Type) where
  anim : AnimationState F
  vehicleModelMatrix : Mat44f F
  lights : Fin 3 → task6.PointLight F

section Controller

variable {F : Type} [LinearOrderedField F]

/-- The file-local `extract_translation`: the last column of the first three rows. -/
def extract_translation (m : Mat44f F) : Vec3f F := ⟨m 0 3, m 1 3, m 2 3⟩

/-- The loop `for i < 3: lights[i].position = pos + anim.lightOffsets[i]` shared by the
three branches of `update`. -/
def place_lights (lights : Fin 3 → task6.PointLight F) (pos : Vec3f F)
    (lightOffsets : Fin 3 → Vec3f F) : Fin 3 → task6.PointLight F :=
  fun i => { lights i with position := pos + lightOffsets i }

/-- The `task7::initialise`: every field of `anim` is overwritten, so the previous state is
not an argument. -/
def initialise (baseModel : Mat44f F) (lights : Fin 3 → task6.PointLight F) :
    AnimationState F :=
  let startPos := extract_translation baseModel
  { baseModel := baseModel
    currentModel := baseModel
    startPos := startPos
    lastPos := startPos
    lightOffsets := fun i => (lights i).position - startPos
    active := false
    paused := false
    time := 0 }

/-- The `task7::toggle_play`. -/
def toggle_play (anim : AnimationState F) : AnimationState F :=
  if !anim.active then
    { anim with active := true, paused := false, time := 0, lastPos := anim.startPos }
  else
    { anim with paused := !anim.paused }

/-- The `task7::reset`. -/
def reset (anim : AnimationState F) : AnimationState F :=
  { anim with
    active := false
    paused := false
    time := 0
    currentModel := anim.baseModel
    lastPos := anim.startPos }

/-- The constant `totalDuration = 8.f` of `update`. -/
def totalDuration : F := 8

/-- The normalised time `u = std::clamp( anim.time / totalDuration, 0.f, 1.f )` computed by
an advancing `update`, where `anim.time` has already been advanced by `deltaSeconds`. -/
def advance_u (anim : AnimationState F) (deltaSeconds : F) : F :=
  clamp ((anim.time + deltaSeconds) / totalDuration) 0 1

/-- The `offset{ xRange * s3, yRange * s2, zRange * s3 }` of `update`, with `s2 = u * u`,
`s3 = s2 * u` and ranges `60`, `40`, `20`. -/
def trajectory_offset (u : F) : Vec3f F :=
  let s2 := u * u
  let s3 := s2 * u
  let xRange : F := 60
  let yRange : F := 40
  let zRange : F := 20
  ⟨xRange * s3, yRange * s2, zRange * s3⟩

/-- The `forward` vector of `update`: the normalised velocity, or world-up when the speed
is below `1e-4`. -/
def frame_forward (m : Libm F) (velocity : Vec3f F) : Vec3f F :=
  if length m velocity < 1 / 10000 then ⟨0, 1, 0⟩
  else velocity.divide (length m velocity)

/-- The reference axis `worldSide` of `update`: `(0,0,1)`, replaced by `(1,0,0)` when
`std::abs( dot( worldSide, forward ) ) > 0.9f`. -/
def frame_worldSide (forward : Vec3f F) : Vec3f F :=
  if |dot (⟨0, 0, 1⟩ : Vec3f F) forward| > 9 / 10 then ⟨1, 0, 0⟩ else ⟨0, 0, 1⟩

/-- The `right` vector of `update`. -/
def frame_right (m : Libm F) (forward : Vec3f F) : Vec3f F :=
  safe_normalize m (cross (frame_worldSide forward) forward) ⟨1, 0, 0⟩

/-- The matrix `R` of `update`: the identity with rows `right`, `forward`, `up` written
into its upper-left 3x3 block. -/
def frame_matrix (right forward up : Vec3f F) : Mat44f F :=
  ((((((((kIdentity44f.set 0 0 right.x).set 0 1 right.y).set 0 2 right.z).set
    1 0 forward.x).set 1 1 forward.y).set 1 2 forward.z).set
    2 0 up.x).set 2 1 up.y).set 2 2 up.z

/-- The advancing part of `task7::update` (from `anim.time += deltaSeconds` to the end),
reached when the controller is active, not paused and `deltaSeconds > 0`. -/
def advance (m : Libm F) (anim : AnimationState F) (deltaSeconds : F)
    (lights : Fin 3 → task6.PointLight F) : Frame F :=
  let time := anim.time + deltaSeconds
  let u := advance_u anim deltaSeconds
  let offset := trajectory_offset u
  let currentPos := anim.startPos + offset
  let velocity := (currentPos - anim.lastPos).divide deltaSeconds
  let forward := frame_forward m velocity
  let right := frame_right m forward
  let up := cross forward right
  let R := frame_matrix right forward up
  let T := make_translation currentPos
  let currentModel := T.mul R
  let anim1 : AnimationState F :=
    { anim with time := time, lastPos := currentPos, currentModel := currentModel }
  let anim2 : AnimationState F :=
    if u ≥ 1 then { anim1 with active := false, paused := false } else anim1
  ⟨anim2, currentModel, place_lights lights currentPos anim.lightOffsets⟩

/-- The `task7::update`.  The result carries the state and the values written to the
reference parameters `vehicleModelMatrix` and `lights`. -/
def update (m : Libm F) (anim : AnimationState F) (deltaSeconds : F)
    (lights : Fin 3 → task6.PointLight F) : Frame F :=
  if !anim.active || decide (deltaSeconds ≤ 0) then
    let anim1 := { anim with currentModel := anim.baseModel }
    let vehicleModelMatrix := anim1.currentModel
    let pos := extract_translation vehicleModelMatrix
    ⟨anim1, vehicleModelMatrix, place_lights lights pos anim1.lightOffsets⟩
  else if anim.paused then
    let vehicleModelMatrix := anim.currentModel
    let pos := extract_translation vehicleModelMatrix
    ⟨anim, vehicleModelMatrix, place_lights lights pos anim.lightOffsets⟩
  else
    advance m anim deltaSeconds lights

/-- One externally triggered step of the controller: a key press (`toggle_play`, `reset`)
or a frame (`update` with that frame's `deltaSeconds`). -/
inductive Op (F : Type) where
  | toggle_play : Op F
  | reset : Op F
  | update (deltaSeconds : F) : Op F

/-- Apply one step to a controller state together with the caller's `lights` array. -/
def step (m : Libm F) (st : AnimationState F × (Fin 3 → task6.PointLight F)) :
    Op F → AnimationState F × (Fin 3 → task6.PointLight F)
  | .toggle_play => (toggle_play st.1, st.2)
  | .reset => (reset st.1, st.2)
  | .update dt => ((update m st.1 dt st.2).anim, (update m st.1 dt st.2).lights)

/-- Run a sequence of steps, oldest first. -/
def run (m : Libm F) (st : AnimationState F × (Fin 3 → task6.PointLight F))
    (ops : List (Op F)) : AnimationState F × (Fin 3 → task6.PointLight F) :=
  ops.foldl (step m) st

/-- The states the program can be in after `initialise( baseModel, lights )`. -/
def Reachable (m : Libm F) (baseModel : Mat44f F) (lights : Fin 3 → task6.PointLight F)
    (st : AnimationState F × (Fin 3 → task6.PointLight F)) : Prop :=
  ∃ ops : List (Op F), st = run m (initialise baseModel lights, lights) ops

/-- The `velocity = (currentPos - anim.lastPos) / deltaSeconds` computed by an advancing
`update`. -/
def advance_velocity (anim : AnimationState F) (deltaSeconds : F) : Vec3f F :=
  ((anim.startPos + trajectory_offset (advance_u anim deltaSeconds)) - anim.lastPos).divide
    deltaSeconds

/-- Row `i` of the upper-left 3x3 block of a transform, as a vector. -/
def upper_row (M : Mat44f F) (i : Fin 4) : Vec3f F := ⟨M i 0, M i 1, M i 2⟩

/-- Determinant of the upper-left 3x3 block of a transform. -/
def det3 (M : Mat44f F) : F := det_rows (upper_row M 0) (upper_row M 1) (upper_row M 2)

/-- The frames produced by calling `update` once per element of a list of
`deltaSeconds`, oldest first, each call starting from the state and lights left by the
previous one. -/
def frames (m : Libm F) (st : AnimationState F × (Fin 3 → task6.PointLight F)) :
    List F → List (Frame F)
  | [] => []
  | dt :: dts =>
    update m st.1 dt st.2 ::
      frames m ((update m st.1 dt st.2).anim, (update m st.1 dt st.2).lights) dts

end Controller

end task7

/-! ## Tracking camera (`namespace task8`) -/

namespace task8

/-- The `task8::CameraMode` enumeration. -/
inductive CameraMode where
  | Free
  | Follow
  | Ground
deriving DecidableEq, Repr

/-- The `task8::next_mode`.  The trailing `return CameraMode::Free` after the `switch` is
unreachable for the three enumerators. -/
def next_mode : CameraMode → CameraMode
  | .Free => .Follow
  | .Follow => .Ground
  | .Ground => .Free

/-- The file-local `Camera` record: the free-fly camera. -/
structure Camera (F : Type) where
  position : Vec3f F
  yaw : F
  pitch : F

/-- The `task8::TrackingCamera` record. -/
structure TrackingCamera (F : Type) where
  mode : CameraMode
  groundPos : Vec3f F
  followOffset : Vec3f F

section Views

variable {F : Type} [LinearOrderedField F]

/-- A `TrackingCamera` with its default member initialisers. -/
def TrackingCamera.fresh : TrackingCamera F :=
  { mode := CameraMode.Free, groundPos := ⟨-30, 0, 20⟩, followOffset := ⟨0, 5, -15⟩ }

/-- The `compute_forward_vector` of `main.cpp`; `safe_normalize` is called with its default
fallback `(0, 1, 0)`. -/
def compute_forward_vector (m : Libm F) (camera : Camera F) : Vec3f F :=
  let cosPitch := m.cos camera.pitch
  safe_normalize m
    ⟨m.cos camera.yaw * cosPitch, m.sin camera.pitch, m.sin camera.yaw * cosPitch⟩ ⟨0, 1, 0⟩

/-- The twelve assignments common to `make_view_matrix`, `make_follow_camera` and
`make_ground_camera`: the identity with rows `right`, `up`, `-forward` and the translation
column `-dot(right, camPos)`, `-dot(up, camPos)`, `dot(forward, camPos)`. -/
def view_of_basis (right up forward camPos : Vec3f F) : Mat44f F :=
  (((((((((((kIdentity44f.set 0 0 right.x).set 0 1 right.y).set 0 2 right.z).set
    0 3 (-dot right camPos)).set
    1 0 up.x).set 1 1 up.y).set 1 2 up.z).set 1 3 (-dot up camPos)).set
    2 0 (-forward.x)).set 2 1 (-forward.y)).set 2 2 (-forward.z)).set
    2 3 (dot forward camPos)

/-- The `make_view_matrix` of `main.cpp`. -/
def make_view_matrix (m : Libm F) (camera : Camera F) (worldUp : Vec3f F) : Mat44f F :=
  let forward := compute_forward_vector m camera
  let right := safe_normalize m (cross forward worldUp) ⟨1, 0, 0⟩
  let up := cross right forward
  view_of_basis right up forward camera.position

/-- The file-local `rocket_world_pos`. -/
def rocket_world_pos (model : Mat44f F) : Vec3f F := ⟨model 0 3, model 1 3, model 2 3⟩

/-- The `worldOffset` of `make_follow_camera`: the upper-left 3x3 block of the vehicle
transform applied to the local offset. -/
def follow_worldOffset (rocketModel : Mat44f F) (offset : Vec3f F) : Vec3f F :=
  ⟨rocketModel 0 0 * offset.x + rocketModel 0 1 * offset.y + rocketModel 0 2 * offset.z,
   rocketModel 1 0 * offset.x + rocketModel 1 1 * offset.y + rocketModel 1 2 * offset.z,
   rocketModel 2 0 * offset.x + rocketModel 2 1 * offset.y + rocketModel 2 2 * offset.z⟩

/-- The `task8::make_follow_camera`. -/
def make_follow_camera (m : Libm F) (rocketPos : Vec3f F) (rocketModel : Mat44f F)
    (offset : Vec3f F) : Mat44f F :=
  let worldOffset := follow_worldOffset rocketModel offset
  let camPos := rocketPos + worldOffset
  let forward := safe_normalize m (rocketPos - camPos) ⟨0, 1, 0⟩
  let right := safe_normalize m (cross forward ⟨0, 1, 0⟩) ⟨1, 0, 0⟩
  let up := cross right forward
  view_of_basis right up forward camPos

/-- The `task8::make_ground_camera`. -/
def make_ground_camera (m : Libm F) (rocketPos groundPos : Vec3f F) : Mat44f F :=
  let camPos := groundPos
  let forward := safe_normalize m (rocketPos - camPos) ⟨0, 1, 0⟩
  let right := safe_normalize m (cross forward ⟨0, 1, 0⟩) ⟨1, 0, 0⟩
  let up := cross right forward
  view_of_basis right up forward camPos

/-- The `task8::compute_camera_view`.  The `return` after the `switch` is unreachable for
the three enumerators. -/
def compute_camera_view (m : Libm F) (cam : TrackingCamera F) (freeCam : Camera F)
    (rocketModel : Mat44f F) : Mat44f F :=
  let rocketPos := rocket_world_pos rocketModel
  match cam.mode with
  | .Free => make_view_matrix m freeCam ⟨0, 1, 0⟩
  | .Follow => make_follow_camera m rocketPos rocketModel cam.followOffset
  | .Ground => make_ground_camera m rocketPos cam.groundPos

/-- The camera position used by `compute_camera_view` in each mode: `camera.position`
(Free), `rocketPos + worldOffset` (Follow), `groundPos` (Ground). -/
def camera_position (cam : TrackingCamera F) (freeCam : Camera F) (rocketModel : Mat44f F) :
    Vec3f F :=
  match cam.mode with
  | .Free => freeCam.position
  | .Follow => rocket_world_pos rocketModel + follow_worldOffset rocketModel cam.followOffset
  | .Ground => cam.groundPos

/-- The `forward` vector computed by `compute_camera_view` in each mode. -/
def camera_forward (m : Libm F) (cam : TrackingCamera F) (freeCam : Camera F)
    (rocketModel : Mat44f F) : Vec3f F :=
  match cam.mode with
  | .Free => compute_forward_vector m freeCam
  | .Follow =>
    safe_normalize m (rocket_world_pos rocketModel - camera_position cam freeCam rocketModel)
      ⟨0, 1, 0⟩
  | .Ground =>
    safe_normalize m (rocket_world_pos rocketModel - camera_position cam freeCam rocketModel)
      ⟨0, 1, 0⟩

end Views

end task8

/-! ## Split-screen viewports (frame assembly in `main`) -/

/-- The `app->framebufferWidth = std::max( 1, aWidth )` of `glfw_callback_framebuffer_`. -/
def framebuffer_width (aWidth : Int) : Int := max 1 aWidth

/-- The `leftWidth = std::max<GLsizei>( 1, app.framebufferWidth / 2 )` of `main`; `/` is
the truncating division of C++ `int`. -/
def leftWidth (framebufferWidth : Int) : Int := max 1 (framebufferWidth.tdiv 2)

/-- The `rightWidth = std::max<GLsizei>( 1, app.framebufferWidth - leftWidth )` of `main`. -/
def rightWidth (framebufferWidth : Int) : Int :=
  max 1 (framebufferWidth - leftWidth framebufferWidth)

/-! ## Particle system -/

/-- The `Particle` record. -/
structure Particle (F : Type) where
  position : Vec3f F
  velocity : Vec3f F
  age : F
  lifetime : F
  size : F
  alive : Bool

/-- The `ParticleGpu` record sent to the vertex buffer. -/
structure ParticleGpu (F : Type) where
  position : Vec3f F
  size : F
  alpha : F

/-- The `ParticleSystem` record; GL object names are natural numbers. -/
structure ParticleSystem (F : Type) where
  vao : Nat
  vbo : Nat
  textureId : Nat
  pool : List (Particle F)
  head : Nat
  aliveCount : Nat
  emitAccumulator : F

section Particles

variable {F : Type} [LinearOrderedField F] [FloorRing F]

/-- A value-initialised `Particle{}` as created by `pool.resize`, from the default member
initialisers of the record. -/
def Particle.fresh : Particle F :=
  { position := ⟨0, 0, 0⟩, velocity := ⟨0, 0, 0⟩, age := 0, lifetime := 0, size := 1,
    alive := false }

/-- The constant `kMaxParticles` of `init_particle_system`. -/
def kMaxParticles : Nat := 4000

/-- The `init_particle_system`, with the pool capacity (`kMaxParticles` in the source) and
the object names returned by `glGenVertexArrays` / `glGenBuffers` as arguments. -/
def init_particle_system (system : ParticleSystem F) (capacity vao vbo : Nat) :
    ParticleSystem F :=
  { system with
    pool := List.replicate capacity Particle.fresh
    head := 0
    aliveCount := 0
    emitAccumulator := 0
    vao := vao
    vbo := vbo }

/-- The `ParticleSystem particles` member of a value-initialised `AppState{}`. -/
def ParticleSystem.fresh : ParticleSystem F :=
  { vao := 0, vbo := 0, textureId := 0, pool := [], head := 0, aliveCount := 0,
    emitAccumulator := 0 }

/-- The `toEmit = static_cast<int>( std::floor( system.emitAccumulator ) )` of
`emit_particles`, after `system.emitAccumulator += rate * dt`.  The conversion to `int` is
taken on values inside the range of `int`. -/
def toEmit (system : ParticleSystem F) (rate dt : F) : Int :=
  ⌊system.emitAccumulator + rate * dt⌋

/-- Number of iterations of the `for( int i = 0; i < toEmit; ++i )` loop of
`emit_particles`, each of which writes one pool slot. -/
def emitted_count (system : ParticleSystem F) (rate dt : F) : Nat :=
  if toEmit system rate dt ≤ 0 then 0 else (toEmit system rate dt).toNat

/-- One iteration of the emission loop; `r0 .. r4` are the five results of `rand01()` in
call order (lifetime, size, angle, radius, speed).  When `head` is not an index of the pool
(in particular when the pool is empty, where `% system.pool.size()` also divides by zero)
the source accesses `system.pool[idx]` out of bounds; that undefined behaviour is the
result `none`. -/
def emit_one (m : Libm F) (system : ParticleSystem F) (emitterPos dir : Vec3f F)
    (r0 r1 r2 r3 r4 : F) : Option (ParticleSystem F) :=
  if system.head < system.pool.length then
    let idx := system.head
    let head := (system.head + 1) % system.pool.length
    let lifetime := 6 / 10 + r0 * (6 / 10)
    let size := 8 / 10 + r1 * (6 / 10)
    let tangent := safe_normalize m (cross dir ⟨0, 1, 0⟩) ⟨1, 0, 0⟩
    let bitangent := cross tangent dir
    let spread : F := 4 / 10
    let u := r2 * 2 * m.kPi
    let r := r3 * spread
    let jitter := tangent.scale (m.cos u * r) + bitangent.scale (m.sin u * r)
    let speed := 25 + r4 * 10
    let p : Particle F :=
      { alive := true
        age := 0
        lifetime := lifetime
        size := size
        velocity := (dir + jitter.scale (2 / 10)).scale speed
        position := emitterPos + dir.scale (2 / 10) }
    some { system with head := head, pool := system.pool.set idx p }
  else none

/-- The emission loop run for `n` iterations; `rand k` is the `k`-th result of `rand01()`
from the start of the loop. -/
def emit_loop (m : Libm F) (emitterPos dir : Vec3f F) :
    Nat → ParticleSystem F → (Nat → F) → Option (ParticleSystem F)
  | 0, system, _ => some system
  | n + 1, system, rand =>
    match emit_one m system emitterPos dir (rand 0) (rand 1) (rand 2) (rand 3) (rand 4) with
    | none => none
    | some system1 => emit_loop m emitterPos dir n system1 (fun k => rand (k + 5))

/-- The `emit_particles`; `none` is undefined behaviour in the emission loop (see
`emit_one`). -/
def emit_particles (m : Libm F) (system : ParticleSystem F) (emitterPos emitterDir : Vec3f F)
    (rate dt : F) (rand : Nat → F) : Option (ParticleSystem F) :=
  let accumulated := system.emitAccumulator + rate * dt
  let count := toEmit system rate dt
  let system1 := { system with emitAccumulator := accumulated - (count : F) }
  if count ≤ 0 then some system1
  else
    let dir := safe_normalize m emitterDir ⟨0, 0, -1⟩
    emit_loop m emitterPos dir count.toNat system1 rand

/-- Body of the `for( auto& p : system.pool )` loop of `update_particles`: the updated
pool and the local counter `alive`. -/
def update_loop (dt : F) : List (Particle F) → List (Particle F) × Nat
  | [] => ([], 0)
  | p :: ps =>
    let rest := update_loop dt ps
    if !p.alive then (p :: rest.1, rest.2)
    else
      let age := p.age + dt
      if age ≥ p.lifetime then ({ p with age := age, alive := false } :: rest.1, rest.2)
      else
        ({ p with age := age, position := p.position + p.velocity.scale dt } :: rest.1,
          rest.2 + 1)

/-- The `update_particles`. -/
def update_particles (system : ParticleSystem F) (dt : F) : ParticleSystem F :=
  if decide (dt ≤ 0) || system.pool.isEmpty then system
  else
    let r := update_loop dt system.pool
    { system with pool := r.1, aliveCount := r.2 }

/-- The vector `gpuData` built by `upload_particles`. -/
def gpu_snapshot : List (Particle F) → List (ParticleGpu F)
  | [] => []
  | p :: ps =>
    if !p.alive then gpu_snapshot ps
    else
      { position := p.position, size := p.size, alpha := 1 - p.age / p.lifetime } ::
        gpu_snapshot ps

/-- The `upload_particles`: the new system and the data passed to `glBufferSubData`
(`none` when the call returns early because no buffer exists). -/
def upload_particles (system : ParticleSystem F) :
    ParticleSystem F × Option (List (ParticleGpu F)) :=
  if system.vbo = 0 then (system, none)
  else
    let gpuData := gpu_snapshot system.pool
    ({ system with aliveCount := gpuData.length }, some gpuData)

/-- One call on the particle system made by the frame loop. -/
inductive ParticleOp (F : Type) where
  | emit (emitterPos emitterDir : Vec3f F) (rate dt : F) (rand : Nat → F) : ParticleOp F
  | update (dt : F) : ParticleOp F
  | upload : ParticleOp F

/-- Apply one particle-system call; `none` is undefined behaviour in `emit_particles`. -/
def particle_step (m : Libm F) (system : ParticleSystem F) :
    ParticleOp F → Option (ParticleSystem F)
  | .emit emitterPos emitterDir rate dt rand =>
    emit_particles m system emitterPos emitterDir rate dt rand
  | .update dt => some (update_particles system dt)
  | .upload => some (upload_particles system).1

/-- Run a sequence of particle-system calls, oldest first. -/
def particle_run (m : Libm F) : ParticleSystem F → List (ParticleOp F) →
    Option (ParticleSystem F)
  | system, [] => some system
  | system, op :: ops =>
    match particle_step m system op with
    | none => none
    | some system1 => particle_run m system1 ops

/-- Every result of `rand01()` consumed by the call lies in `[0,1]`. -/
def ParticleOp.drawsInUnit : ParticleOp F → Prop
  | .emit _ _ _ _ rand => ∀ k, 0 ≤ rand k ∧ rand k ≤ 1
  | .update _ => True
  | .upload => True

/-- The slot invariant `alive == (0 <= age < lifetime)`. -/
def Particle.wellFormed (p : Particle F) : Prop :=
  p.alive = true ↔ (0 ≤ p.age ∧ p.age < p.lifetime)

/-- Number of pool slots with `alive` set. -/
def alive_slots (system : ParticleSystem F) : Nat :=
  system.pool.countP (fun p => p.alive)

/-- Repeat `emit_particles` with constant `rate` and `dt` for `n` calls (call `i` drawing
from `rand i`), adding up the iterations of the emission loop of each call, each of which
writes one slot and advances the cursor by one. -/
def emit_repeat (m : Libm F) (emitterPos emitterDir : Vec3f F) (rate dt : F)
    (rand : Nat → Nat → F) : Nat → ParticleSystem F → Option (ParticleSystem F × Nat)
  | 0, system => some (system, 0)
  | n + 1, system =>
    match emit_particles m system emitterPos emitterDir rate dt (rand 0) with
    | none => none
    | some system1 =>
      match emit_repeat m emitterPos emitterDir rate dt (fun i => rand (i + 1)) n system1 with
      | none => none
      | some (system2, total) => some (system2, emitted_count system rate dt + total)

/-- The particle `p` written into the pool by one iteration of the emission loop (the
record built in `emit_one`), as a function of the emitter and the five draws. -/
def emitted_particle (m : Libm F) (emitterPos dir : Vec3f F) (r0 r1 r2 r3 r4 : F) :
    Particle F :=
  let lifetime := 6 / 10 + r0 * (6 / 10)
  let size := 8 / 10 + r1 * (6 / 10)
  let tangent := safe_normalize m (cross dir ⟨0, 1, 0⟩) ⟨1, 0, 0⟩
  let bitangent := cross tangent dir
  let spread : F := 4 / 10
  let u := r2 * 2 * m.kPi
  let r := r3 * spread
  let jitter := tangent.scale (m.cos u * r) + bitangent.scale (m.sin u * r)
  let speed := 25 + r4 * 10
  { alive := true
    age := 0
    lifetime := lifetime
    size := size
    velocity := (dir + jitter.scale (2 / 10)).scale speed
    position := emitterPos + dir.scale (2 / 10) }

/-- The `jitter` vector of one iteration of the emission loop, from the angle draw `r2`
and the radius draw `r3`. -/
def emit_jitter (m : Libm F) (dir : Vec3f F) (r2 r3 : F) : Vec3f F :=
  let tangent := safe_normalize m (cross dir ⟨0, 1, 0⟩) ⟨1, 0, 0⟩
  let bitangent := cross tangent dir
  let spread : F := 4 / 10
  let u := r2 * 2 * m.kPi
  let r := r3 * spread
  tangent.scale (m.cos u * r) + bitangent.scale (m.sin u * r)

/-- What the specification says `update(dt)` does to one slot for `dt > 0`: a dead slot is
untouched; an alive slot gets `age + dt` and is marked dead, without moving, when the new
age reaches the lifetime, and is otherwise moved by `velocity * dt`. -/
def spec_update_slot (dt : F) (p : Particle F) : Particle F :=
  if p.alive = true then
    if p.age + dt ≥ p.lifetime then { p with age := p.age + dt, alive := false }
    else { p with age := p.age + dt, position := p.position + p.velocity.scale dt }
  else p

/-- The slots `h, h+1, ..., h+k-1 (mod N)` visited by `k` iterations of the emission loop
starting with the cursor at `h`. -/
def ring_slots (N h k : Nat) (j : Nat) : Prop := ∃ i, i < k ∧ (h + i) % N = j

instance (N h k j : Nat) : Decidable (ring_slots N h k j) :=
  inferInstanceAs (Decidable (∃ i, i < k ∧ (h + i) % N = j))

/-- The entry for pool slot `j` in the data that `upload_particles` passes to
`glBufferSubData`: the loop of `upload_particles` appends one entry per alive slot, in pool
order, so the entry of slot `j` sits at the position given by the number of alive slots
before `j`.  It is `none` when slot `j` is dead or outside the pool, or when nothing is
uploaded. -/
def uploaded_entry (system : ParticleSystem F) (j : Nat) : Option (ParticleGpu F) :=
  match system.pool[j]? with
  | none => none
  | some p =>
    if p.alive = true then
      match (upload_particles system).2 with
      | none => none
      | some gpuData => gpuData[(system.pool.take j).countP (fun q => q.alive)]?
    else none

end Particles

/-! ## Concrete instances used in examples -/

/-- The maths library over the real numbers. -/
noncomputable def realLibm : Libm ℝ :=
  { sqrt := Real.sqrt, cos := Real.cos, sin := Real.sin, kPi := Real.pi }

/-- Three white lights, all at `(1, 2, 3)`. -/
def sampleLights (F : Type) [LinearOrderedField F] : Fin 3 → task6.PointLight F :=
  fun _ => { position := ⟨1, 2, 3⟩, color := ⟨1, 1, 1⟩, enabled := true }

/-- A frame's worth of particle calls: an emit of `floor(10000 * 1/2) = 5000` particles
(more than the `kMaxParticles = 4000` slots of the pool) with every draw equal to `1/2`,
an update by half a second, and an upload. -/
def sampleParticleOps (F : Type) [LinearOrderedField F] : List (ParticleOp F) :=
  [ParticleOp.emit ⟨0, 0, 0⟩ ⟨0, 0, -1⟩ 10000 (1 / 2) (fun _ => 1 / 2),
    ParticleOp.update (1 / 2), ParticleOp.upload]

/-- The particle system of the program after `init_particle_system`: `kMaxParticles`
fresh slots, buffer names 1. -/
def sampleSystem (F : Type) [LinearOrderedField F] : ParticleSystem F :=
  init_particle_system ParticleSystem.fresh kMaxParticles 1 1

/-- A small system with a buffer: slot 0 young (age 0 of 1), slot 1 old (age 9/10 of 1),
slot 2 dead; cursor at slot 2. -/
def sampleBusySystem (F : Type) [LinearOrderedField F] : ParticleSystem F :=
  { vao := 1, vbo := 1, textureId := 1,
    pool := [
      { position := ⟨0, 0, 0⟩, velocity := ⟨0, -30, 0⟩, age := 0, lifetime := 1, size := 1,
        alive := true },
      { position := ⟨0, -27, 0⟩, velocity := ⟨0, -30, 0⟩, age := 9 / 10, lifetime := 1,
        size := 1, alive := true },
      { position := ⟨0, -30, 0⟩, velocity := ⟨0, -30, 0⟩, age := 1, lifetime := 1, size := 1,
        alive := false }],
    head := 2, aliveCount := 2, emitAccumulator := 0 }

/-- A unit direction within `1e-6` of vertical but not vertical:
`(4000000, 3999999999999, 0) / 4000000000001`. -/
def nearVertical (F : Type) [LinearOrderedField F] : Vec3f F :=
  ⟨4000000 / 4000000000001, 3999999999999 / 4000000000001, 0⟩

/-- Draws with the largest radius and speed: 1 for the radius and speed draws of the first
particle (calls 3 and 4 of `rand01()`), 0 for every other call. -/
def sampleDraws (F : Type) [LinearOrderedField F] : Nat → F :=
  fun k => if k = 3 ∨ k = 4 then 1 else 0

/-- The tracking camera with its default positions, switched to Ground mode: it stands at
`(-30, 0, 20)`. -/
def sampleGroundCamera (F : Type) [LinearOrderedField F] : task8.TrackingCamera F :=
  { task8.TrackingCamera.fresh with mode := task8.CameraMode.Ground }

/-- The free camera with its default member initialisers. -/
def sampleFreeCamera (F : Type) [LinearOrderedField F] : task8.Camera F :=
  { position := ⟨0, 0, 5⟩, yaw := 0, pitch := 0 }

/-- The controller initialised on the identity transform with `sampleLights`, after one
`toggle_play`: playback has just started. -/
def sampleStart (F : Type) [LinearOrderedField F] :
    task7.AnimationState F × (Fin 3 → task6.PointLight F) :=
  (task7.toggle_play (task7.initialise kIdentity44f (sampleLights F)), sampleLights F)

/-! # Theorems -/

section MathLemmas

variable {F : Type} [LinearOrderedField F]

theorem Vec3f.add_sub_cancel_left (p o : Vec3f F) : (p + o) - p = o := by
  cases p; cases o
  show Vec3f.sub (Vec3f.add _ _) _ = _
  simp [Vec3f.add, Vec3f.sub]

end MathLemmas

namespace task7

section ControllerLemmas

variable {F : Type} [LinearOrderedField F]

theorem translation_mul_frame (p right forward up : Vec3f F) :
    extract_translation ((make_translation p).mul (frame_matrix right forward up)) = p := by
  simp [extract_translation, make_translation, frame_matrix, Mat44f.mul, Mat44f.set,
    kIdentity44f]

/-- The first branch of `update`: inactive controller or non-positive time step. -/
theorem update_frozen (m : Libm F) (anim : AnimationState F) (dt : F)
    (lights : Fin 3 → task6.PointLight F) (h : anim.active = false ∨ dt ≤ 0) :
    update m anim dt lights =
      ⟨{ anim with currentModel := anim.baseModel }, anim.baseModel,
        place_lights lights (extract_translation anim.baseModel) anim.lightOffsets⟩ := by
  unfold update
  rcases h with h | h <;> simp [h]

/-- The second branch of `update`: active, positive time step, paused. -/
theorem update_paused (m : Libm F) (anim : AnimationState F) (dt : F)
    (lights : Fin 3 → task6.PointLight F) (ha : anim.active = true) (hd : 0 < dt)
    (hp : anim.paused = true) :
    update m anim dt lights =
      ⟨anim, anim.currentModel,
        place_lights lights (extract_translation anim.currentModel) anim.lightOffsets⟩ := by
  unfold update
  simp [ha, hp, not_le.mpr hd]

/-- The third branch of `update`: active, positive time step, not paused. -/
theorem update_advancing (m : Libm F) (anim : AnimationState F) (dt : F)
    (lights : Fin 3 → task6.PointLight F) (ha : anim.active = true) (hd : 0 < dt)
    (hp : anim.paused = false) :
    update m anim dt lights = advance m anim dt lights := by
  unfold update
  simp [ha, hp, not_le.mpr hd]

theorem advance_translation (m : Libm F) (anim : AnimationState F) (dt : F)
    (lights : Fin 3 → task6.PointLight F) :
    extract_translation (advance m anim dt lights).vehicleModelMatrix =
      anim.startPos + trajectory_offset (advance_u anim dt) := by
  simp only [advance]
  exact translation_mul_frame _ _ _ _

theorem advance_currentModel (m : Libm F) (anim : AnimationState F) (dt : F)
    (lights : Fin 3 → task6.PointLight F) :
    (advance m anim dt lights).anim.currentModel =
      (advance m anim dt lights).vehicleModelMatrix := by
  simp only [advance]
  split <;> rfl

theorem advance_time (m : Libm F) (anim : AnimationState F) (dt : F)
    (lights : Fin 3 → task6.PointLight F) :
    (advance m anim dt lights).anim.time = anim.time + dt := by
  simp only [advance]
  split <;> rfl

theorem advance_active (m : Libm F) (anim : AnimationState F) (dt : F)
    (lights : Fin 3 → task6.PointLight F) :
    (advance m anim dt lights).anim.active =
      if advance_u anim dt ≥ 1 then false else anim.active := by
  simp only [advance]
  split <;> rfl

theorem advance_paused (m : Libm F) (anim : AnimationState F) (dt : F)
    (lights : Fin 3 → task6.PointLight F) :
    (advance m anim dt lights).anim.paused =
      if advance_u anim dt ≥ 1 then false else anim.paused := by
  simp only [advance]
  split <;> rfl

theorem advance_fixed (m : Libm F) (anim : AnimationState F) (dt : F)
    (lights : Fin 3 → task6.PointLight F) :
    (advance m anim dt lights).anim.baseModel = anim.baseModel ∧
    (advance m anim dt lights).anim.startPos = anim.startPos ∧
    (advance m anim dt lights).anim.lightOffsets = anim.lightOffsets := by
  simp only [advance]
  split <;> exact ⟨rfl, rfl, rfl⟩

theorem advance_lights (m : Libm F) (anim : AnimationState F) (dt : F)
    (lights : Fin 3 → task6.PointLight F) :
    (advance m anim dt lights).lights =
      place_lights lights (anim.startPos + trajectory_offset (advance_u anim dt))
        anim.lightOffsets := rfl

end ControllerLemmas
end task7

namespace task7

section ControllerInvariants

variable {F : Type} [LinearOrderedField F]

/-- The facts fixed by `initialise` are kept by every step, and a paused controller is
active. -/
theorem step_keeps (m : Libm F) (base : Mat44f F) (offsets : Fin 3 → Vec3f F)
    (st : AnimationState F × (Fin 3 → task6.PointLight F)) (op : Op F)
    (h : st.1.baseModel = base ∧ st.1.startPos = extract_translation base ∧
      st.1.lightOffsets = offsets ∧ (st.1.paused = true → st.1.active = true)) :
    (step m st op).1.baseModel = base ∧ (step m st op).1.startPos = extract_translation base ∧
      (step m st op).1.lightOffsets = offsets ∧
      ((step m st op).1.paused = true → (step m st op).1.active = true) := by
  obtain ⟨hb, hs, hl, hp⟩ := h
  cases op with
  | toggle_play =>
    simp only [step, toggle_play]
    cases ha : st.1.active <;> simp [hb, hs, hl, ha]
  | reset => simp [step, reset, hb, hs, hl]
  | update dt =>
    simp only [step]
    by_cases hf : st.1.active = false ∨ dt ≤ 0
    · rw [update_frozen m st.1 dt st.2 hf]
      exact ⟨hb, hs, hl, hp⟩
    · have ha : st.1.active = true := by
        cases h : st.1.active
        · exact absurd (Or.inl h) hf
        · rfl
      have hd : 0 < dt := lt_of_not_le fun h => hf (Or.inr h)
      cases hq : st.1.paused
      · rw [update_advancing m st.1 dt st.2 ha hd hq]
        obtain ⟨h1, h2, h3⟩ := advance_fixed m st.1 dt st.2
        refine ⟨h1.trans hb, h2.trans hs, h3.trans hl, ?_⟩
        rw [advance_paused, advance_active, hq, ha]
        split <;> simp
      · rw [update_paused m st.1 dt st.2 ha hd hq]
        exact ⟨hb, hs, hl, hp⟩

theorem run_keeps (m : Libm F) (base : Mat44f F) (offsets : Fin 3 → Vec3f F)
    (ops : List (Op F)) :
    ∀ st : AnimationState F × (Fin 3 → task6.PointLight F),
      (st.1.baseModel = base ∧ st.1.startPos = extract_translation base ∧
        st.1.lightOffsets = offsets ∧ (st.1.paused = true → st.1.active = true)) →
      ((run m st ops).1.baseModel = base ∧
        (run m st ops).1.startPos = extract_translation base ∧
        (run m st ops).1.lightOffsets = offsets ∧
        ((run m st ops).1.paused = true → (run m st ops).1.active = true)) := by
  induction ops with
  | nil => intro st h; exact h
  | cons op ops ih =>
    intro st h
    have := ih (step m st op) (step_keeps m base offsets st op h)
    simpa [run] using this

theorem reachable_keeps (m : Libm F) (base : Mat44f F) (lights0 : Fin 3 → task6.PointLight F)
    (st : AnimationState F × (Fin 3 → task6.PointLight F))
    (hr : Reachable m base lights0 st) :
    st.1.baseModel = base ∧ st.1.startPos = extract_translation base ∧
      st.1.lightOffsets = (fun i => (lights0 i).position - extract_translation base) ∧
      (st.1.paused = true → st.1.active = true) := by
  obtain ⟨ops, rfl⟩ := hr
  apply run_keeps
  simp [initialise]

/-- Once inactive, a controller that only receives `update` calls stays inactive and keeps
its base transform. -/
theorem run_updates_inactive (m : Libm F) (dts : List F) :
    ∀ st : AnimationState F × (Fin 3 → task6.PointLight F), st.1.active = false →
      (run m st (dts.map Op.update)).1.active = false ∧
      (run m st (dts.map Op.update)).1.baseModel = st.1.baseModel := by
  induction dts with
  | nil => intro st h; exact ⟨h, rfl⟩
  | cons dt dts ih =>
    intro st h
    have hs : (step m st (Op.update dt)).1.active = false ∧
        (step m st (Op.update dt)).1.baseModel = st.1.baseModel := by
      simp only [step]
      rw [update_frozen m st.1 dt st.2 (Or.inl h)]
      exact ⟨h, rfl⟩
    have := ih (step m st (Op.update dt)) hs.1
    simp only [run, List.map_cons, List.foldl_cons] at this ⊢
    exact ⟨this.1, this.2.trans hs.2⟩

end ControllerInvariants
end task7

namespace task7

section ControllerClaims

variable {F : Type} [LinearOrderedField F]

theorem sampleStart_reachable (m : Libm F) :
    Reachable m kIdentity44f (sampleLights F) (sampleStart F) :=
  ⟨[Op.toggle_play], rfl⟩

theorem sampleStart_u_eight : advance_u (sampleStart F).1 8 = 1 := by
  simp [advance_u, clamp, totalDuration, sampleStart, toggle_play, initialise]

theorem sampleStart_u_four : advance_u (sampleStart F).1 4 = 1 / 2 := by
  simp only [advance_u, clamp, totalDuration, sampleStart, toggle_play, initialise]
  norm_num

theorem sampleStart_flags : (sampleStart F).1.active = true ∧ (sampleStart F).1.paused = false :=
  ⟨rfl, rfl⟩

theorem extract_translation_identity :
    extract_translation (kIdentity44f : Mat44f F) = ⟨0, 0, 0⟩ := by
  simp [extract_translation, kIdentity44f]

theorem sampleStart_startPos : (sampleStart F).1.startPos = ⟨0, 0, 0⟩ := by
  simp [sampleStart, toggle_play, initialise, extract_translation_identity]

theorem sampleStart_base : (sampleStart F).1.baseModel = kIdentity44f := rfl

/-- First frame of the sample run with `deltaSeconds = 8`: the run completes at
`(60, 40, 20)` and the controller is deactivated. -/
theorem sampleStart_update_eight (m : Libm F) :
    (update m (sampleStart F).1 8 (sampleStart F).2).anim.active = false ∧
    (update m (sampleStart F).1 8 (sampleStart F).2).anim.baseModel = kIdentity44f ∧
    (update m (sampleStart F).1 8 (sampleStart F).2).anim.currentModel =
      (update m (sampleStart F).1 8 (sampleStart F).2).vehicleModelMatrix ∧
    extract_translation (update m (sampleStart F).1 8 (sampleStart F).2).vehicleModelMatrix =
      ⟨60, 40, 20⟩ := by
  have h8 : (0 : F) < 8 := by norm_num
  rw [update_advancing m _ 8 _ sampleStart_flags.1 h8 sampleStart_flags.2]
  refine ⟨?_, ?_, advance_currentModel _ _ _ _, ?_⟩
  · rw [advance_active, sampleStart_u_eight]; simp
  · exact (advance_fixed m _ 8 _).1
  · rw [advance_translation, sampleStart_u_eight, sampleStart_startPos]
    show Vec3f.add _ _ = _
    simp [Vec3f.add, trajectory_offset]

/-- First frame of the sample run with `deltaSeconds = 4`: half way, still active. -/
theorem sampleStart_update_four (m : Libm F) :
    (update m (sampleStart F).1 4 (sampleStart F).2).anim.baseModel = kIdentity44f ∧
    extract_translation (update m (sampleStart F).1 4 (sampleStart F).2).anim.currentModel =
      ⟨15 / 2, 10, 5 / 2⟩ := by
  have h4 : (0 : F) < 4 := by norm_num
  rw [update_advancing m _ 4 _ sampleStart_flags.1 h4 sampleStart_flags.2]
  refine ⟨(advance_fixed m _ 4 _).1, ?_⟩
  rw [advance_currentModel, advance_translation, sampleStart_u_four, sampleStart_startPos]
  show Vec3f.add _ _ = _
  simp only [Vec3f.add, trajectory_offset]
  norm_num

/-- Claim C1, as stated, fails: on the sample run (identity base transform, start position
`(0,0,0)`) the frame `update(8)` brings `u` to 1, deactivates playback and parks the
vehicle at `(60, 40, 20)`, but the very next `update(1)` returns a different transform,
whose translation is `(0,0,0)`, and overwrites `currentModel` with it. -/
theorem update_after_completion_moves_vehicle :
    advance_u (sampleStart ℝ).1 8 = 1 ∧
    (update realLibm (sampleStart ℝ).1 8 (sampleStart ℝ).2).anim.active = false ∧
    extract_translation
      (update realLibm (sampleStart ℝ).1 8 (sampleStart ℝ).2).vehicleModelMatrix =
        (sampleStart ℝ).1.startPos + ⟨60, 40, 20⟩ ∧
    extract_translation
      (update realLibm (update realLibm (sampleStart ℝ).1 8 (sampleStart ℝ).2).anim 1
        (update realLibm (sampleStart ℝ).1 8 (sampleStart ℝ).2).lights).vehicleModelMatrix ≠
        (sampleStart ℝ).1.startPos + ⟨60, 40, 20⟩ ∧
    (update realLibm (update realLibm (sampleStart ℝ).1 8 (sampleStart ℝ).2).anim 1
        (update realLibm (sampleStart ℝ).1 8 (sampleStart ℝ).2).lights).vehicleModelMatrix ≠
      (update realLibm (sampleStart ℝ).1 8 (sampleStart ℝ).2).vehicleModelMatrix ∧
    (update realLibm (update realLibm (sampleStart ℝ).1 8 (sampleStart ℝ).2).anim 1
        (update realLibm (sampleStart ℝ).1 8 (sampleStart ℝ).2).lights).anim.currentModel ≠
      (update realLibm (sampleStart ℝ).1 8 (sampleStart ℝ).2).anim.currentModel := by
  obtain ⟨ha, hb, hc, ht⟩ := sampleStart_update_eight realLibm
  have hsum : (sampleStart ℝ).1.startPos + ⟨60, 40, 20⟩ = (⟨60, 40, 20⟩ : Vec3f ℝ) := by
    rw [sampleStart_startPos]
    show Vec3f.add _ _ = _
    simp [Vec3f.add]
  have hne : (⟨0, 0, 0⟩ : Vec3f ℝ) ≠ ⟨60, 40, 20⟩ := by
    intro h
    have := congrArg Vec3f.x h
    norm_num at this
  have hfr := update_frozen realLibm
    (update realLibm (sampleStart ℝ).1 8 (sampleStart ℝ).2).anim 1
    (update realLibm (sampleStart ℝ).1 8 (sampleStart ℝ).2).lights (Or.inl ha)
  have hret : (update realLibm (update realLibm (sampleStart ℝ).1 8 (sampleStart ℝ).2).anim 1
      (update realLibm (sampleStart ℝ).1 8 (sampleStart ℝ).2).lights).vehicleModelMatrix =
      kIdentity44f := by rw [hfr]; exact hb
  have hcur : (update realLibm (update realLibm (sampleStart ℝ).1 8 (sampleStart ℝ).2).anim 1
      (update realLibm (sampleStart ℝ).1 8 (sampleStart ℝ).2).lights).anim.currentModel =
      kIdentity44f := by rw [hfr]; exact hb
  refine ⟨sampleStart_u_eight, ha, by rw [ht, hsum], ?_, ?_, ?_⟩
  · rw [hret, extract_translation_identity, hsum]; exact hne
  · rw [hret]
    intro h
    have := congrArg extract_translation h
    rw [extract_translation_identity, ht] at this
    exact hne this
  · rw [hcur, hc]
    intro h
    have := congrArg extract_translation h
    rw [extract_translation_identity, ht] at this
    exact hne this

/-- Claim C1 (amended): after an `update` that brings `u` to 1 and auto-deactivates playback,
every later call to `update` with no intervening `reset` or `toggle_play` (for any
`deltaSeconds`) returns the base transform: `currentModel` is overwritten with
`baseModel`, the controller stays inactive and the vehicle is back at `startPos`. -/
theorem update_after_completion_returns_base (m : Libm F) (base : Mat44f F)
    (lights0 : Fin 3 → task6.PointLight F)
    (st : AnimationState F × (Fin 3 → task6.PointLight F))
    (hr : Reachable m base lights0 st) (dt : F) (ha : st.1.active = true)
    (hp : st.1.paused = false) (hd : 0 < dt) (hu : advance_u st.1 dt ≥ 1)
    (dts : List F) (dt1 : F) :
    (update m st.1 dt st.2).anim.active = false ∧
    (update m
      (run m ((update m st.1 dt st.2).anim, (update m st.1 dt st.2).lights)
        (dts.map Op.update)).1 dt1
      (run m ((update m st.1 dt st.2).anim, (update m st.1 dt st.2).lights)
        (dts.map Op.update)).2).vehicleModelMatrix = base ∧
    (update m
      (run m ((update m st.1 dt st.2).anim, (update m st.1 dt st.2).lights)
        (dts.map Op.update)).1 dt1
      (run m ((update m st.1 dt st.2).anim, (update m st.1 dt st.2).lights)
        (dts.map Op.update)).2).anim.currentModel = base ∧
    (update m
      (run m ((update m st.1 dt st.2).anim, (update m st.1 dt st.2).lights)
        (dts.map Op.update)).1 dt1
      (run m ((update m st.1 dt st.2).anim, (update m st.1 dt st.2).lights)
        (dts.map Op.update)).2).anim.active = false ∧
    extract_translation (update m
      (run m ((update m st.1 dt st.2).anim, (update m st.1 dt st.2).lights)
        (dts.map Op.update)).1 dt1
      (run m ((update m st.1 dt st.2).anim, (update m st.1 dt st.2).lights)
        (dts.map Op.update)).2).vehicleModelMatrix = st.1.startPos := by
  obtain ⟨hb, hs, -, -⟩ := reachable_keeps m base lights0 st hr
  have hdone : (update m st.1 dt st.2).anim.active = false := by
    rw [update_advancing m st.1 dt st.2 ha hd hp, advance_active, if_pos hu]
  have hbase : (update m st.1 dt st.2).anim.baseModel = base := by
    rw [update_advancing m st.1 dt st.2 ha hd hp]
    exact (advance_fixed m st.1 dt st.2).1.trans hb
  obtain ⟨hi, hk⟩ := run_updates_inactive m dts
    ((update m st.1 dt st.2).anim, (update m st.1 dt st.2).lights) hdone
  rw [update_frozen m _ dt1 _ (Or.inl hi)]
  exact ⟨hdone, hk.trans hbase, hk.trans hbase, hi, by rw [hk, hbase, hs]⟩

/-- Witness for C1 (amended): the sample run completed by `update(8)`, followed by the
frames `update(1)`, `update(0)` and then `update(2)`. -/
theorem update_after_completion_returns_base_witness :
    Reachable realLibm kIdentity44f (sampleLights ℝ) (sampleStart ℝ) ∧
    (sampleStart ℝ).1.active = true ∧ (sampleStart ℝ).1.paused = false ∧ (0 : ℝ) < 8 ∧
    advance_u (sampleStart ℝ).1 8 ≥ 1 ∧
    ((update realLibm (sampleStart ℝ).1 8 (sampleStart ℝ).2).anim.active = false ∧
    (update realLibm
      (run realLibm ((update realLibm (sampleStart ℝ).1 8 (sampleStart ℝ).2).anim,
        (update realLibm (sampleStart ℝ).1 8 (sampleStart ℝ).2).lights)
        ([1, 0].map Op.update)).1 2
      (run realLibm ((update realLibm (sampleStart ℝ).1 8 (sampleStart ℝ).2).anim,
        (update realLibm (sampleStart ℝ).1 8 (sampleStart ℝ).2).lights)
        ([1, 0].map Op.update)).2).vehicleModelMatrix = kIdentity44f ∧
    (update realLibm
      (run realLibm ((update realLibm (sampleStart ℝ).1 8 (sampleStart ℝ).2).anim,
        (update realLibm (sampleStart ℝ).1 8 (sampleStart ℝ).2).lights)
        ([1, 0].map Op.update)).1 2
      (run realLibm ((update realLibm (sampleStart ℝ).1 8 (sampleStart ℝ).2).anim,
        (update realLibm (sampleStart ℝ).1 8 (sampleStart ℝ).2).lights)
        ([1, 0].map Op.update)).2).anim.currentModel = kIdentity44f ∧
    (update realLibm
      (run realLibm ((update realLibm (sampleStart ℝ).1 8 (sampleStart ℝ).2).anim,
        (update realLibm (sampleStart ℝ).1 8 (sampleStart ℝ).2).lights)
        ([1, 0].map Op.update)).1 2
      (run realLibm ((update realLibm (sampleStart ℝ).1 8 (sampleStart ℝ).2).anim,
        (update realLibm (sampleStart ℝ).1 8 (sampleStart ℝ).2).lights)
        ([1, 0].map Op.update)).2).anim.active = false ∧
    extract_translation (update realLibm
      (run realLibm ((update realLibm (sampleStart ℝ).1 8 (sampleStart ℝ).2).anim,
        (update realLibm (sampleStart ℝ).1 8 (sampleStart ℝ).2).lights)
        ([1, 0].map Op.update)).1 2
      (run realLibm ((update realLibm (sampleStart ℝ).1 8 (sampleStart ℝ).2).anim,
        (update realLibm (sampleStart ℝ).1 8 (sampleStart ℝ).2).lights)
        ([1, 0].map Op.update)).2).vehicleModelMatrix = (sampleStart ℝ).1.startPos) :=
  ⟨sampleStart_reachable realLibm, rfl, rfl, by norm_num, le_of_eq sampleStart_u_eight.symm,
    update_after_completion_returns_base realLibm kIdentity44f (sampleLights ℝ) (sampleStart ℝ)
      (sampleStart_reachable realLibm) 8 rfl rfl (by norm_num)
      (le_of_eq sampleStart_u_eight.symm) [1, 0] 2⟩

/-- Claim C2, as stated, fails: in the reachable state after `toggle_play` and `update(4)` the
stored `currentModel` has translation `(7.5, 10, 2.5)`, but `update(0)` returns the base
transform (translation `(0,0,0)`), not the stored `currentModel`. -/
theorem update_zero_dt_leaves_previous_frame :
    Reachable realLibm kIdentity44f (sampleLights ℝ)
      (run realLibm (initialise kIdentity44f (sampleLights ℝ), sampleLights ℝ)
        [Op.toggle_play, Op.update 4]) ∧
    (0 : ℝ) ≤ 0 ∧
    (update realLibm
      (run realLibm (initialise kIdentity44f (sampleLights ℝ), sampleLights ℝ)
        [Op.toggle_play, Op.update 4]).1 0
      (run realLibm (initialise kIdentity44f (sampleLights ℝ), sampleLights ℝ)
        [Op.toggle_play, Op.update 4]).2).vehicleModelMatrix ≠
    (run realLibm (initialise kIdentity44f (sampleLights ℝ), sampleLights ℝ)
        [Op.toggle_play, Op.update 4]).1.currentModel := by
  refine ⟨⟨_, rfl⟩, le_refl 0, ?_⟩
  have hrun : run realLibm (initialise kIdentity44f (sampleLights ℝ), sampleLights ℝ)
      [Op.toggle_play, Op.update 4] =
      ((update realLibm (sampleStart ℝ).1 4 (sampleStart ℝ).2).anim,
        (update realLibm (sampleStart ℝ).1 4 (sampleStart ℝ).2).lights) := rfl
  rw [hrun]
  obtain ⟨hb, ht⟩ := sampleStart_update_four realLibm
  rw [update_frozen realLibm _ 0 _ (Or.inr (le_refl 0))]
  show (update realLibm (sampleStart ℝ).1 4 (sampleStart ℝ).2).anim.baseModel ≠ _
  rw [hb]
  intro h
  have := congrArg extract_translation h
  rw [extract_translation_identity, ht] at this
  have := congrArg Vec3f.y this
  norm_num at this

/-- Claim C2 (amended): in every state reachable from `initialise`, `update` called while paused
with `deltaSeconds > 0` returns the `currentModel` stored before the call, and `update`
called with `deltaSeconds <= 0` returns `baseModel` (whatever `currentModel` was). -/
theorem update_freeze_returns (m : Libm F) (base : Mat44f F)
    (lights0 : Fin 3 → task6.PointLight F)
    (st : AnimationState F × (Fin 3 → task6.PointLight F))
    (hr : Reachable m base lights0 st) (dt : F) (h : dt ≤ 0 ∨ st.1.paused = true) :
    (update m st.1 dt st.2).vehicleModelMatrix =
      if dt ≤ 0 then st.1.baseModel else st.1.currentModel := by
  obtain ⟨-, -, -, hpa⟩ := reachable_keeps m base lights0 st hr
  by_cases hd : dt ≤ 0
  · rw [update_frozen m st.1 dt st.2 (Or.inr hd), if_pos hd]
  · have hp : st.1.paused = true := h.resolve_left hd
    rw [update_paused m st.1 dt st.2 (hpa hp) (lt_of_not_le hd) hp, if_neg hd]

/-- Witness for C2 (amended): the sample run paused after `update(4)`, then a frame with
`deltaSeconds = 1`. -/
theorem update_freeze_returns_witness :
    Reachable realLibm kIdentity44f (sampleLights ℝ)
      (run realLibm (initialise kIdentity44f (sampleLights ℝ), sampleLights ℝ)
        [Op.toggle_play, Op.update 4, Op.toggle_play]) ∧
    ((1 : ℝ) ≤ 0 ∨
      (run realLibm (initialise kIdentity44f (sampleLights ℝ), sampleLights ℝ)
        [Op.toggle_play, Op.update 4, Op.toggle_play]).1.paused = true) ∧
    (update realLibm
      (run realLibm (initialise kIdentity44f (sampleLights ℝ), sampleLights ℝ)
        [Op.toggle_play, Op.update 4, Op.toggle_play]).1 1
      (run realLibm (initialise kIdentity44f (sampleLights ℝ), sampleLights ℝ)
        [Op.toggle_play, Op.update 4, Op.toggle_play]).2).vehicleModelMatrix =
      if (1 : ℝ) ≤ 0 then
        (run realLibm (initialise kIdentity44f (sampleLights ℝ), sampleLights ℝ)
          [Op.toggle_play, Op.update 4, Op.toggle_play]).1.baseModel
      else
        (run realLibm (initialise kIdentity44f (sampleLights ℝ), sampleLights ℝ)
          [Op.toggle_play, Op.update 4, Op.toggle_play]).1.currentModel := by
  have hp : (run realLibm (initialise kIdentity44f (sampleLights ℝ), sampleLights ℝ)
      [Op.toggle_play, Op.update 4, Op.toggle_play]).1.paused = true := by
    have hrun : run realLibm (initialise kIdentity44f (sampleLights ℝ), sampleLights ℝ)
        [Op.toggle_play, Op.update 4, Op.toggle_play] =
        (toggle_play (update realLibm (sampleStart ℝ).1 4 (sampleStart ℝ).2).anim,
          (update realLibm (sampleStart ℝ).1 4 (sampleStart ℝ).2).lights) := rfl
    rw [hrun]
    have h4 : (0 : ℝ) < 4 := by norm_num
    have hu : ¬ (advance_u (sampleStart ℝ).1 4 ≥ 1) := by
      rw [sampleStart_u_four]; norm_num
    have hact : (update realLibm (sampleStart ℝ).1 4 (sampleStart ℝ).2).anim.active = true := by
      rw [update_advancing realLibm _ 4 _ sampleStart_flags.1 h4 sampleStart_flags.2,
        advance_active, if_neg hu]
      exact sampleStart_flags.1
    have hpau :
        (update realLibm (sampleStart ℝ).1 4 (sampleStart ℝ).2).anim.paused = false := by
      rw [update_advancing realLibm _ 4 _ sampleStart_flags.1 h4 sampleStart_flags.2,
        advance_paused, if_neg hu]
      exact sampleStart_flags.2
    simp [toggle_play, hact, hpau]
  exact ⟨⟨_, rfl⟩, Or.inr hp,
    update_freeze_returns realLibm kIdentity44f (sampleLights ℝ) _ ⟨_, rfl⟩ 1 (Or.inr hp)⟩

/-- Claim C3: for every animation state, `update` called with `deltaSeconds <= 0`, or while
paused, leaves the field `time` (the elapsed time) unchanged. -/
theorem update_freeze_keeps_time (m : Libm F) (anim : AnimationState F) (dt : F)
    (lights : Fin 3 → task6.PointLight F) (h : dt ≤ 0 ∨ anim.paused = true) :
    (update m anim dt lights).anim.time = anim.time := by
  by_cases hf : anim.active = false ∨ dt ≤ 0
  · rw [update_frozen m anim dt lights hf]
  · have hd : 0 < dt := lt_of_not_le fun h => hf (Or.inr h)
    have ha : anim.active = true := by
      cases h : anim.active
      · exact absurd (Or.inl h) hf
      · rfl
    have hp : anim.paused = true := h.resolve_left (not_le.mpr hd)
    rw [update_paused m anim dt lights ha hd hp]

/-- Witness for C3: the freshly started sample run with a frame of `deltaSeconds = -1`. -/
theorem update_freeze_keeps_time_witness :
    ((-1 : ℝ) ≤ 0 ∨ (sampleStart ℝ).1.paused = true) ∧
    (update realLibm (sampleStart ℝ).1 (-1) (sampleStart ℝ).2).anim.time =
      (sampleStart ℝ).1.time :=
  ⟨Or.inl (by norm_num),
    update_freeze_keeps_time realLibm (sampleStart ℝ).1 (-1) (sampleStart ℝ).2
      (Or.inl (by norm_num))⟩

/-- Claim C4: from any state produced by `initialise` followed by `toggle_play`, one `update`
with `deltaSeconds = 8` drives `time` to 8 and `u` to 1, sets `active` to false and puts
the vehicle (returned and stored transform) at `startPos + (60, 40, 20)`. -/
theorem update_eight_completes (m : Libm F) (baseModel : Mat44f F)
    (lights0 lights : Fin 3 → task6.PointLight F) :
    (update m (toggle_play (initialise baseModel lights0)) 8 lights).anim.time = 8 ∧
    advance_u (toggle_play (initialise baseModel lights0)) 8 = 1 ∧
    (update m (toggle_play (initialise baseModel lights0)) 8 lights).anim.active = false ∧
    extract_translation
      (update m (toggle_play (initialise baseModel lights0)) 8 lights).vehicleModelMatrix =
        (toggle_play (initialise baseModel lights0)).startPos + ⟨60, 40, 20⟩ ∧
    (update m (toggle_play (initialise baseModel lights0)) 8 lights).anim.currentModel =
      (update m (toggle_play (initialise baseModel lights0)) 8 lights).vehicleModelMatrix ∧
    (toggle_play (initialise baseModel lights0)).startPos = extract_translation baseModel := by
  have h8 : (0 : F) < 8 := by norm_num
  have ha : (toggle_play (initialise baseModel lights0)).active = true := rfl
  have hp : (toggle_play (initialise baseModel lights0)).paused = false := rfl
  have ht : (toggle_play (initialise baseModel lights0)).time = 0 := rfl
  have hu : advance_u (toggle_play (initialise baseModel lights0)) 8 = 1 := by
    simp [advance_u, clamp, totalDuration, ht]
  rw [update_advancing m _ 8 lights ha h8 hp]
  refine ⟨?_, hu, ?_, ?_, advance_currentModel _ _ _ _, rfl⟩
  · rw [advance_time, ht, zero_add]
  · rw [advance_active, hu]; simp
  · rw [advance_translation, hu]
    simp [trajectory_offset]

/-- Claim C5: after every call to `update` on a state reachable from `initialise` (whichever
branch is taken), for each `i` the position of light `i` minus the translation column of
the returned vehicle transform equals `lightOffsets[i]` as computed by `initialise`
(the initial light position minus the translation of the base transform). -/
theorem update_lights_rigid (m : Libm F) (base : Mat44f F)
    (lights0 : Fin 3 → task6.PointLight F)
    (st : AnimationState F × (Fin 3 → task6.PointLight F))
    (hr : Reachable m base lights0 st) (dt : F) (i : Fin 3) :
    ((update m st.1 dt st.2).lights i).position -
        extract_translation (update m st.1 dt st.2).vehicleModelMatrix =
      (initialise base lights0).lightOffsets i ∧
    (initialise base lights0).lightOffsets i =
      (lights0 i).position - extract_translation base := by
  obtain ⟨-, -, hl, -⟩ := reachable_keeps m base lights0 st hr
  refine ⟨?_, rfl⟩
  have hoff : (initialise base lights0).lightOffsets i = st.1.lightOffsets i := by
    rw [hl]; rfl
  rw [hoff]
  by_cases hf : st.1.active = false ∨ dt ≤ 0
  · rw [update_frozen m st.1 dt st.2 hf]
    exact Vec3f.add_sub_cancel_left _ _
  · have hd : 0 < dt := lt_of_not_le fun h => hf (Or.inr h)
    have ha : st.1.active = true := by
      cases h : st.1.active
      · exact absurd (Or.inl h) hf
      · rfl
    cases hq : st.1.paused
    · rw [update_advancing m st.1 dt st.2 ha hd hq, advance_translation, advance_lights]
      exact Vec3f.add_sub_cancel_left _ _
    · rw [update_paused m st.1 dt st.2 ha hd hq]
      exact Vec3f.add_sub_cancel_left _ _

/-- Witness for C5: the first frame (`deltaSeconds = 8`) of the sample run, light 0. -/
theorem update_lights_rigid_witness :
    Reachable realLibm kIdentity44f (sampleLights ℝ) (sampleStart ℝ) ∧
    (((update realLibm (sampleStart ℝ).1 8 (sampleStart ℝ).2).lights 0).position -
        extract_translation
          (update realLibm (sampleStart ℝ).1 8 (sampleStart ℝ).2).vehicleModelMatrix =
      (initialise kIdentity44f (sampleLights ℝ)).lightOffsets 0 ∧
    (initialise kIdentity44f (sampleLights ℝ)).lightOffsets 0 =
      (sampleLights ℝ 0).position - extract_translation (kIdentity44f : Mat44f ℝ)) :=
  ⟨sampleStart_reachable realLibm,
    update_lights_rigid realLibm kIdentity44f (sampleLights ℝ) (sampleStart ℝ)
      (sampleStart_reachable realLibm) 8 0⟩

end ControllerClaims
end task7

section ViewportClaims

theorem leftWidth_eq (W : Int) (h : 1 ≤ W) : leftWidth W = max 1 (W / 2) := by
  unfold leftWidth
  rw [Int.tdiv_eq_ediv (by omega) (by omega)]

/-- Claim C6, as stated, fails at `W = 1`: the callback stores the width 1, both viewport widths
are then 1, and they sum to 2, not to `W`. -/
theorem split_widths_exceed_one_pixel :
    framebuffer_width 1 = 1 ∧ leftWidth 1 = 1 ∧ rightWidth 1 = 1 ∧
      leftWidth 1 + rightWidth 1 ≠ 1 := by
  decide

/-- Claim C6 (amended): with split-screen enabled, for every framebuffer width `W >= 1` both
viewport widths are at least 1; they sum to `W` for every `W >= 2`, and for `W = 1` both
are 1 (sum 2). -/
theorem split_widths (W : Int) (h : 1 ≤ W) :
    1 ≤ leftWidth W ∧ 1 ≤ rightWidth W ∧
      (2 ≤ W → leftWidth W + rightWidth W = W) ∧
      (W = 1 → leftWidth W = 1 ∧ rightWidth W = 1) := by
  have hl := leftWidth_eq W h
  unfold rightWidth
  rw [hl]
  omega

/-- Witness for C6 (amended): the initial window width 1280. -/
theorem split_widths_witness :
    (1 : Int) ≤ 1280 ∧
    (1 ≤ leftWidth 1280 ∧ 1 ≤ rightWidth 1280 ∧
      ((2 : Int) ≤ 1280 → leftWidth 1280 + rightWidth 1280 = 1280) ∧
      ((1280 : Int) = 1 → leftWidth 1280 = 1 ∧ rightWidth 1280 = 1)) :=
  ⟨by decide, split_widths 1280 (by decide)⟩

end ViewportClaims

namespace task8

/-- Claim C10: `next_mode` maps Free to Follow, Follow to Ground and Ground to Free, and applied
three times it returns the original mode, for each of the three modes. -/
theorem next_mode_cycle :
    next_mode CameraMode.Free = CameraMode.Follow ∧
    next_mode CameraMode.Follow = CameraMode.Ground ∧
    next_mode CameraMode.Ground = CameraMode.Free ∧
    ∀ mode : CameraMode, next_mode (next_mode (next_mode mode)) = mode := by
  refine ⟨rfl, rfl, rfl, ?_⟩
  intro mode
  cases mode <;> rfl

end task8

section ParticleLemmas

variable {F : Type} [LinearOrderedField F]

/-- With the cursor inside the pool one emission step is defined; it keeps the pool
length, leaves the cursor inside the pool and touches neither `aliveCount`, the
accumulator nor the buffer name. -/
theorem emit_one_defined (m : Libm F) (system : ParticleSystem F) (emitterPos dir : Vec3f F)
    (r0 r1 r2 r3 r4 : F) (hh : system.head < system.pool.length) :
    ∃ s1, emit_one m system emitterPos dir r0 r1 r2 r3 r4 = some s1 ∧
      s1.pool.length = system.pool.length ∧ s1.head < s1.pool.length ∧
      s1.aliveCount = system.aliveCount ∧ s1.emitAccumulator = system.emitAccumulator ∧
      s1.vbo = system.vbo ∧
      (0 ≤ r0 → (∀ p ∈ system.pool, p.wellFormed) → ∀ p ∈ s1.pool, p.wellFormed) := by
  unfold emit_one
  rw [if_pos hh]
  refine ⟨_, rfl, by simp, ?_, rfl, rfl, rfl, ?_⟩
  · simp only [List.length_set]
    exact Nat.mod_lt _ (Nat.zero_lt_of_lt hh)
  · intro h0 hw p hp
    rcases List.mem_or_eq_of_mem_set hp with h | h
    · exact hw p h
    · subst h
      simp only [Particle.wellFormed, true_iff]
      constructor
      · exact le_refl 0
      · positivity

theorem emit_loop_defined (m : Libm F) (emitterPos dir : Vec3f F) (n : Nat) :
    ∀ (system : ParticleSystem F) (rand : Nat → F), system.head < system.pool.length →
      ∃ s1, emit_loop m emitterPos dir n system rand = some s1 ∧
        s1.pool.length = system.pool.length ∧ s1.head < s1.pool.length ∧
        s1.aliveCount = system.aliveCount ∧ s1.emitAccumulator = system.emitAccumulator ∧
        s1.vbo = system.vbo ∧
        ((∀ k, 0 ≤ rand k) → (∀ p ∈ system.pool, p.wellFormed) →
          ∀ p ∈ s1.pool, p.wellFormed) := by
  induction n with
  | zero => intro system rand hh; exact ⟨system, rfl, rfl, hh, rfl, rfl, rfl, fun _ hw => hw⟩
  | succ n ih =>
    intro system rand hh
    obtain ⟨s1, e0, e1, e2, e3, e4, e5, e6⟩ :=
      emit_one_defined m system emitterPos dir (rand 0) (rand 1) (rand 2) (rand 3) (rand 4) hh
    obtain ⟨s2, g0, g1, g2, g3, g4, g5, g6⟩ := ih s1 (fun k => rand (k + 5)) e2
    refine ⟨s2, ?_, g1.trans e1, g2, g3.trans e3, g4.trans e4, g5.trans e5, ?_⟩
    · simp only [emit_loop, e0]; exact g0
    · intro hr hw
      exact g6 (fun k => hr (k + 5)) (e6 (hr 0) hw)

end ParticleLemmas

section ParticleFloorLemmas

variable {F : Type} [LinearOrderedField F] [FloorRing F]

/-- With the cursor inside the pool `emit_particles` is defined; it keeps the pool length,
`aliveCount` and the buffer name, leaves the cursor inside the pool and the fractional part
in the accumulator. -/
theorem emit_particles_defined (m : Libm F) (system : ParticleSystem F)
    (emitterPos emitterDir : Vec3f F) (rate dt : F) (rand : Nat → F)
    (hh : system.head < system.pool.length) :
    ∃ s1, emit_particles m system emitterPos emitterDir rate dt rand = some s1 ∧
      s1.pool.length = system.pool.length ∧ s1.head < s1.pool.length ∧
      s1.aliveCount = system.aliveCount ∧ s1.vbo = system.vbo ∧
      s1.emitAccumulator =
        system.emitAccumulator + rate * dt - (⌊system.emitAccumulator + rate * dt⌋ : F) ∧
      ((∀ k, 0 ≤ rand k) → (∀ p ∈ system.pool, p.wellFormed) →
        ∀ p ∈ s1.pool, p.wellFormed) := by
  unfold emit_particles
  simp only [toEmit]
  by_cases hc : ⌊system.emitAccumulator + rate * dt⌋ ≤ 0
  · rw [if_pos hc]
    exact ⟨_, rfl, rfl, hh, rfl, rfl, rfl, fun _ hw => hw⟩
  · rw [if_neg hc]
    obtain ⟨s1, h0, h1, h2, h3, h4, h5, h6⟩ := emit_loop_defined m emitterPos
      (safe_normalize m emitterDir ⟨0, 0, -1⟩)
      (⌊system.emitAccumulator + rate * dt⌋).toNat
      { system with emitAccumulator :=
          system.emitAccumulator + rate * dt - (⌊system.emitAccumulator + rate * dt⌋ : F) }
      rand hh
    exact ⟨s1, h0, h1, h2, h3, h5, h4, h6⟩

end ParticleFloorLemmas

section ParticleUpdateLemmas

variable {F : Type} [LinearOrderedField F]

theorem update_loop_spec (dt : F) (pool : List (Particle F)) :
    (update_loop dt pool).1.length = pool.length ∧
    (update_loop dt pool).2 = (update_loop dt pool).1.countP (fun p => p.alive) ∧
    (0 < dt → (∀ p ∈ pool, p.wellFormed) →
      ∀ p ∈ (update_loop dt pool).1, p.wellFormed) := by
  induction pool with
  | nil => simp [update_loop]
  | cons p ps ih =>
    obtain ⟨h1, h2, h3⟩ := ih
    simp only [update_loop]
    cases ha : p.alive
    · simp only [Bool.not_false, if_true, List.length_cons, h1, true_and]
      refine ⟨?_, ?_⟩
      · rw [List.countP_cons_of_neg _ _ (by simp [ha])]
        exact h2
      · intro hd hw q hq
        rcases List.mem_cons.mp hq with h | h
        · subst h; exact hw _ (List.mem_cons_self _ _)
        · exact h3 hd (fun r hr => hw r (List.mem_cons_of_mem _ hr)) q h
    · simp only [Bool.not_true, Bool.false_eq_true, if_false]
      by_cases hk : p.age + dt ≥ p.lifetime
      · simp only [if_pos hk, List.length_cons, h1, true_and]
        refine ⟨?_, ?_⟩
        · rw [List.countP_cons_of_neg _ _ (by simp)]
          exact h2
        · intro hd hw q hq
          rcases List.mem_cons.mp hq with h | h
          · subst h
            simp only [Particle.wellFormed, Bool.false_eq_true, false_iff, not_and, not_lt]
            intro _
            exact hk
          · exact h3 hd (fun r hr => hw r (List.mem_cons_of_mem _ hr)) q h
      · simp only [if_neg hk, List.length_cons, h1, true_and]
        refine ⟨?_, ?_⟩
        · rw [List.countP_cons_of_pos _ _ (by simp [ha]), h2]
        · intro hd hw q hq
          rcases List.mem_cons.mp hq with h | h
          · subst h
            have hp := (hw p (List.mem_cons_self _ _)).mp ha
            simp only [Particle.wellFormed, ha, true_iff]
            exact ⟨by linarith [hp.1], lt_of_not_le hk⟩
          · exact h3 hd (fun r hr => hw r (List.mem_cons_of_mem _ hr)) q h

theorem update_particles_spec (system : ParticleSystem F) (dt : F) :
    (update_particles system dt).pool.length = system.pool.length ∧
    (update_particles system dt).head = system.head ∧
    (system.aliveCount ≤ system.pool.length →
      (update_particles system dt).aliveCount ≤ system.pool.length) ∧
    ((∀ p ∈ system.pool, p.wellFormed) →
      ∀ p ∈ (update_particles system dt).pool, p.wellFormed) := by
  unfold update_particles
  obtain ⟨h1, h2, h3⟩ := update_loop_spec dt system.pool
  by_cases hd : dt ≤ 0
  · simp [hd]
  · cases he : system.pool.isEmpty
    · simp only [hd, decide_False, he, Bool.or_self, Bool.false_eq_true, if_false]
      refine ⟨h1, trivial, fun _ => ?_, h3 (lt_of_not_le hd)⟩
      rw [h2, ← h1]
      exact List.countP_le_length _
    · simp [he]

theorem gpu_snapshot_length (pool : List (Particle F)) :
    (gpu_snapshot pool).length = pool.countP (fun p => p.alive) := by
  induction pool with
  | nil => rfl
  | cons p ps ih =>
    simp only [gpu_snapshot]
    cases ha : p.alive
    · rw [List.countP_cons_of_neg _ _ (by simp [ha])]
      simpa using ih
    · rw [List.countP_cons_of_pos _ _ (by simp [ha])]
      simpa using ih

theorem upload_particles_spec (system : ParticleSystem F) :
    (upload_particles system).1.pool = system.pool ∧
    (upload_particles system).1.head = system.head ∧
    (system.aliveCount ≤ system.pool.length →
      (upload_particles system).1.aliveCount ≤ system.pool.length) := by
  unfold upload_particles
  by_cases hv : system.vbo = 0
  · simp [hv]
  · simp only [if_neg hv, true_and]
    intro _
    rw [gpu_snapshot_length]
    exact List.countP_le_length _

end ParticleUpdateLemmas

section ParticleInit

variable {F : Type} [LinearOrderedField F]

theorem init_particle_system_spec (system : ParticleSystem F) (capacity vao vbo : Nat) :
    (init_particle_system system capacity vao vbo).pool.length = capacity ∧
    (init_particle_system system capacity vao vbo).aliveCount = 0 ∧
    (init_particle_system system capacity vao vbo).emitAccumulator = 0 ∧
    (init_particle_system system capacity vao vbo).head = 0 ∧
    ∀ p ∈ (init_particle_system system capacity vao vbo).pool, p.wellFormed := by
  refine ⟨by simp [init_particle_system], rfl, rfl, rfl, ?_⟩
  intro p hp
  simp only [init_particle_system] at hp
  rw [List.eq_of_mem_replicate hp]
  simp [Particle.wellFormed, Particle.fresh]

end ParticleInit

section ParticleClaims

variable {F : Type} [LinearOrderedField F] [FloorRing F]

/-- One call with the cursor inside the pool is defined and keeps the pool length, the
cursor inside the pool, the bound on `aliveCount` and, for draws in `[0,1]`, the slot
invariant. -/
theorem particle_step_keeps (m : Libm F) (system : ParticleSystem F) (op : ParticleOp F)
    (hN : system.head < system.pool.length) :
    ∃ s1, particle_step m system op = some s1 ∧ s1.pool.length = system.pool.length ∧
      s1.head < s1.pool.length ∧
      (system.aliveCount ≤ system.pool.length → s1.aliveCount ≤ system.pool.length) ∧
      (op.drawsInUnit → (∀ p ∈ system.pool, p.wellFormed) →
        ∀ p ∈ s1.pool, p.wellFormed) := by
  cases op with
  | emit emitterPos emitterDir rate dt rand =>
    obtain ⟨s1, h0, h1, hh, h2, -, -, h5⟩ :=
      emit_particles_defined m system emitterPos emitterDir rate dt rand hN
    refine ⟨s1, h0, h1, hh, fun h => h2 ▸ h, fun hd hw => h5 (fun k => (hd k).1) hw⟩
  | update dt =>
    obtain ⟨h1, hh, h3, h4⟩ := update_particles_spec system dt
    exact ⟨_, rfl, h1, by rw [hh, h1]; exact hN, h3, fun _ hw => h4 hw⟩
  | upload =>
    obtain ⟨h1, hh, h3⟩ := upload_particles_spec system
    refine ⟨_, rfl, by rw [h1], by rw [hh, h1]; exact hN, h3, fun _ hw => ?_⟩
    rw [h1]; exact hw

theorem particle_run_keeps (m : Libm F) (ops : List (ParticleOp F)) :
    ∀ system : ParticleSystem F, system.head < system.pool.length →
      ∃ s1, particle_run m system ops = some s1 ∧ s1.pool.length = system.pool.length ∧
        s1.head < s1.pool.length ∧
        (system.aliveCount ≤ system.pool.length → s1.aliveCount ≤ system.pool.length) ∧
        ((∀ op ∈ ops, op.drawsInUnit) → (∀ p ∈ system.pool, p.wellFormed) →
          ∀ p ∈ s1.pool, p.wellFormed) := by
  induction ops with
  | nil => intro system hN; exact ⟨system, rfl, rfl, hN, id, fun _ hw => hw⟩
  | cons op ops ih =>
    intro system hN
    obtain ⟨s1, h0, h1, hh, h2, h3⟩ := particle_step_keeps m system op hN
    obtain ⟨s2, g0, g1, gh, g2, g3⟩ := ih s1 hh
    refine ⟨s2, ?_, g1.trans h1, gh, ?_, ?_⟩
    · simp only [particle_run, h0]; exact g0
    · intro h
      have := g2 (h1.symm ▸ h2 h)
      rwa [h1] at this
    · intro hd hw
      exact g3 (fun o ho => hd o (List.mem_cons_of_mem _ ho))
        (h3 (hd op (List.mem_cons_self _ _)) hw)

/-- Claim C7: in every particle-system state reached from `init_particle_system` (capacity
`N > 0`, 4000 in the program) by calls of `emit_particles`, `update_particles` and
`upload_particles`, with every random draw in `[0,1]`, the run is defined and each slot
satisfies `alive == (0 <= age < lifetime)`. -/
theorem particle_slots_wellFormed (m : Libm F) (system0 : ParticleSystem F)
    (capacity vao vbo : Nat) (hN : 0 < capacity) (ops : List (ParticleOp F))
    (hd : ∀ op ∈ ops, op.drawsInUnit) :
    ∃ s1, particle_run m (init_particle_system system0 capacity vao vbo) ops = some s1 ∧
      ∀ p ∈ s1.pool, (p.alive = true ↔ (0 ≤ p.age ∧ p.age < p.lifetime)) := by
  obtain ⟨hl, -, -, hh, hw⟩ := init_particle_system_spec system0 capacity vao vbo
  obtain ⟨s1, h0, -, -, -, h3⟩ := particle_run_keeps m ops
    (init_particle_system system0 capacity vao vbo) (by rw [hl, hh]; exact hN)
  exact ⟨s1, h0, h3 hd hw⟩

/-- Claim C9: for every sequence of `emit_particles` / `update_particles` / `upload_particles`
calls on a system initialised with capacity `N > 0` (any rate and dt, so also an emit
whose `floor(accumulator)` exceeds `N`), the run is defined, the pool length stays `N`,
and the number of alive slots and the stored `aliveCount` are at most `N`. -/
theorem particle_pool_capped (m : Libm F) (system0 : ParticleSystem F)
    (capacity vao vbo : Nat) (hN : 0 < capacity) (ops : List (ParticleOp F)) :
    ∃ s1, particle_run m (init_particle_system system0 capacity vao vbo) ops = some s1 ∧
      s1.pool.length = capacity ∧ alive_slots s1 ≤ capacity ∧ s1.aliveCount ≤ capacity := by
  obtain ⟨hl, hc, -, hh, -⟩ := init_particle_system_spec system0 capacity vao vbo
  obtain ⟨s1, h0, h1, -, h2, -⟩ := particle_run_keeps m ops
    (init_particle_system system0 capacity vao vbo) (by rw [hl, hh]; exact hN)
  refine ⟨s1, h0, h1.trans hl, ?_, ?_⟩
  · unfold alive_slots
    calc s1.pool.countP (fun p => p.alive) ≤ s1.pool.length := List.countP_le_length _
      _ = capacity := h1.trans hl
  · have := h2 (by rw [hc]; exact Nat.zero_le _)
    rwa [hl] at this

theorem emitted_count_cast (system : ParticleSystem F) (rate dt : F)
    (h : 0 ≤ system.emitAccumulator + rate * dt) :
    ((emitted_count system rate dt : Nat) : Int) = ⌊system.emitAccumulator + rate * dt⌋ := by
  have hf : 0 ≤ ⌊system.emitAccumulator + rate * dt⌋ := Int.floor_nonneg.mpr h
  unfold emitted_count toEmit
  split
  · omega
  · exact Int.toNat_of_nonneg hf

/-- Bookkeeping of `n` calls of `emit_particles` at constant non-negative `rate * dt`: the
slot writes plus the accumulator left over equal the accumulator at the start plus
`n * (rate * dt)`, and the accumulator stays in `[0,1)`. -/
theorem emit_repeat_exact (m : Libm F) (emitterPos emitterDir : Vec3f F) (rate dt : F)
    (h : 0 ≤ rate * dt) (n : Nat) :
    ∀ (rand : Nat → Nat → F) (system : ParticleSystem F),
      system.head < system.pool.length →
      0 ≤ system.emitAccumulator → system.emitAccumulator < 1 →
      ∃ s1 total, emit_repeat m emitterPos emitterDir rate dt rand n system = some (s1, total) ∧
        s1.pool.length = system.pool.length ∧
        0 ≤ s1.emitAccumulator ∧ s1.emitAccumulator < 1 ∧
        (total : F) + s1.emitAccumulator = system.emitAccumulator + n * (rate * dt) := by
  induction n with
  | zero =>
    intro rand system _ h0 h1
    exact ⟨system, 0, rfl, rfl, h0, h1, by simp⟩
  | succ n ih =>
    intro rand system hN h0 h1
    obtain ⟨s1, e0, e1, eh, -, -, e4, -⟩ :=
      emit_particles_defined m system emitterPos emitterDir rate dt (rand 0) hN
    have hsum : 0 ≤ system.emitAccumulator + rate * dt := add_nonneg h0 h
    have hfl := Int.floor_le (system.emitAccumulator + rate * dt)
    have hfu := Int.lt_floor_add_one (system.emitAccumulator + rate * dt)
    have a0 : 0 ≤ s1.emitAccumulator := by rw [e4]; linarith
    have a1 : s1.emitAccumulator < 1 := by rw [e4]; linarith
    obtain ⟨s2, total, g0, g1, g2, g3, g4⟩ :=
      ih (fun i => rand (i + 1)) s1 eh a0 a1
    refine ⟨s2, emitted_count system rate dt + total, ?_, g1.trans e1, g2, g3, ?_⟩
    · simp only [emit_repeat, e0, g0]
    · have hc : ((emitted_count system rate dt : Nat) : F) =
          ((⌊system.emitAccumulator + rate * dt⌋ : Int) : F) := by
        rw [← emitted_count_cast system rate dt hsum]
        simp
      push_cast
      rw [hc]
      rw [e4] at g4
      linarith

theorem sampleParticleOps_draws : ∀ op ∈ sampleParticleOps ℝ, op.drawsInUnit := by
  intro op hop
  simp only [sampleParticleOps, List.mem_cons, List.mem_singleton, List.not_mem_nil,
    or_false] at hop
  rcases hop with rfl | rfl | rfl
  · intro k
    constructor <;> norm_num
  · trivial
  · trivial

/-- Witness for C7: the pool of `kMaxParticles` slots of the program and the sample frame
of particle calls. -/
theorem particle_slots_wellFormed_witness :
    0 < kMaxParticles ∧ (∀ op ∈ sampleParticleOps ℝ, op.drawsInUnit) ∧
    ∃ s1, particle_run realLibm (init_particle_system ParticleSystem.fresh kMaxParticles 1 1)
        (sampleParticleOps ℝ) = some s1 ∧
      ∀ p ∈ s1.pool, (p.alive = true ↔ (0 ≤ p.age ∧ p.age < p.lifetime)) :=
  ⟨by decide, sampleParticleOps_draws,
    particle_slots_wellFormed realLibm ParticleSystem.fresh kMaxParticles 1 1 (by decide)
      (sampleParticleOps ℝ) sampleParticleOps_draws⟩

/-- Witness for C9: the pool of `kMaxParticles` slots of the program and the sample frame,
whose emit writes 5000 particles. -/
theorem particle_pool_capped_witness :
    0 < kMaxParticles ∧
    ∃ s1, particle_run realLibm (init_particle_system ParticleSystem.fresh kMaxParticles 1 1)
        (sampleParticleOps ℝ) = some s1 ∧
      s1.pool.length = kMaxParticles ∧ alive_slots s1 ≤ kMaxParticles ∧
      s1.aliveCount ≤ kMaxParticles :=
  ⟨by decide,
    particle_pool_capped realLibm ParticleSystem.fresh kMaxParticles 1 1 (by decide)
      (sampleParticleOps ℝ)⟩

end ParticleClaims

namespace task7

section TrajectoryClaims

variable {F : Type} [LinearOrderedField F]

theorem trajectory_offset_pow (u : F) :
    trajectory_offset u = ⟨60 * u ^ 3, 40 * u ^ 2, 20 * u ^ 3⟩ := by
  simp only [trajectory_offset]
  congr 1 <;> ring

/-- Claim C11: after every advancing `update` (active, not paused, `deltaSeconds > 0`) the
translation column of the returned transform is `startPos + (60 u^3, 40 u^2, 20 u^3)` with
`u = clamp((time + deltaSeconds) / 8, 0, 1)`, `time` being the elapsed time before the
call; it involves only the start position and the accumulated time. -/
theorem update_position (m : Libm F) (anim : AnimationState F) (dt : F)
    (lights : Fin 3 → task6.PointLight F) (ha : anim.active = true)
    (hp : anim.paused = false) (hd : 0 < dt) :
    extract_translation (update m anim dt lights).vehicleModelMatrix =
      anim.startPos +
        ⟨60 * (clamp ((anim.time + dt) / 8) 0 1) ^ 3, 40 * (clamp ((anim.time + dt) / 8) 0 1) ^ 2,
          20 * (clamp ((anim.time + dt) / 8) 0 1) ^ 3⟩ ∧
    (update m anim dt lights).anim.time = anim.time + dt := by
  rw [update_advancing m anim dt lights ha hd hp, advance_translation, advance_time,
    trajectory_offset_pow]
  exact ⟨rfl, rfl⟩

/-- Witness for C11: the first frame of the sample run with `deltaSeconds = 4`. -/
theorem update_position_witness :
    (sampleStart ℝ).1.active = true ∧ (sampleStart ℝ).1.paused = false ∧ (0 : ℝ) < 4 ∧
    (extract_translation (update realLibm (sampleStart ℝ).1 4 (sampleStart ℝ).2).vehicleModelMatrix =
      (sampleStart ℝ).1.startPos +
        ⟨60 * (clamp (((sampleStart ℝ).1.time + 4) / 8) 0 1) ^ 3,
          40 * (clamp (((sampleStart ℝ).1.time + 4) / 8) 0 1) ^ 2,
          20 * (clamp (((sampleStart ℝ).1.time + 4) / 8) 0 1) ^ 3⟩ ∧
    (update realLibm (sampleStart ℝ).1 4 (sampleStart ℝ).2).anim.time =
      (sampleStart ℝ).1.time + 4) :=
  ⟨rfl, rfl, by norm_num,
    update_position realLibm (sampleStart ℝ).1 4 (sampleStart ℝ).2 rfl rfl (by norm_num)⟩

/-- The three operations other than `initialise` leave `lightOffsets`, `startPos` and
`baseModel` as they are, in any state. -/
theorem step_fixed (m : Libm F) (st : AnimationState F × (Fin 3 → task6.PointLight F))
    (op : Op F) :
    (step m st op).1.lightOffsets = st.1.lightOffsets ∧
    (step m st op).1.startPos = st.1.startPos ∧
    (step m st op).1.baseModel = st.1.baseModel := by
  cases op with
  | toggle_play =>
    simp only [step, toggle_play]
    split <;> exact ⟨rfl, rfl, rfl⟩
  | reset => exact ⟨rfl, rfl, rfl⟩
  | update dt =>
    simp only [step]
    by_cases hf : st.1.active = false ∨ dt ≤ 0
    · rw [update_frozen m st.1 dt st.2 hf]
      exact ⟨rfl, rfl, rfl⟩
    · have ha : st.1.active = true := by
        cases h : st.1.active
        · exact absurd (Or.inl h) hf
        · rfl
      have hd : 0 < dt := lt_of_not_le fun h => hf (Or.inr h)
      cases hq : st.1.paused
      · rw [update_advancing m st.1 dt st.2 ha hd hq]
        obtain ⟨h1, h2, h3⟩ := advance_fixed m st.1 dt st.2
        exact ⟨h3, h2, h1⟩
      · rw [update_paused m st.1 dt st.2 ha hd hq]
        exact ⟨rfl, rfl, rfl⟩

/-- Claim C20: in every state reachable from `initialise(baseModel, lights)` by
`toggle_play`, `reset` and `update`, `lightOffsets[i]` is the position of light `i` at
initialise time minus the translation of `baseModel`, `startPos` is that translation and
`baseModel` is the transform given to `initialise`; and each of the three operations,
applied to the state, leaves `lightOffsets`, `startPos` and `baseModel` unchanged. -/
theorem lightOffsets_fixed (m : Libm F) (base : Mat44f F)
    (lights0 : Fin 3 → task6.PointLight F)
    (st : AnimationState F × (Fin 3 → task6.PointLight F))
    (hr : Reachable m base lights0 st) :
    (∀ i, st.1.lightOffsets i = (lights0 i).position - extract_translation base) ∧
    st.1.startPos = extract_translation base ∧ st.1.baseModel = base ∧
    ∀ op : Op F, (step m st op).1.lightOffsets = st.1.lightOffsets ∧
      (step m st op).1.startPos = st.1.startPos ∧
      (step m st op).1.baseModel = st.1.baseModel := by
  obtain ⟨hb, hs, hl, -⟩ := reachable_keeps m base lights0 st hr
  exact ⟨fun i => by rw [hl], hs, hb, fun op => step_fixed m st op⟩

/-- Witness for C20: the sample run just after `toggle_play`. -/
theorem lightOffsets_fixed_witness :
    Reachable realLibm kIdentity44f (sampleLights ℝ) (sampleStart ℝ) ∧
    ((∀ i, (sampleStart ℝ).1.lightOffsets i =
        (sampleLights ℝ i).position - extract_translation (kIdentity44f : Mat44f ℝ)) ∧
    (sampleStart ℝ).1.startPos = extract_translation (kIdentity44f : Mat44f ℝ) ∧
    (sampleStart ℝ).1.baseModel = kIdentity44f ∧
    ∀ op : Op ℝ,
      (step realLibm (sampleStart ℝ) op).1.lightOffsets = (sampleStart ℝ).1.lightOffsets ∧
      (step realLibm (sampleStart ℝ) op).1.startPos = (sampleStart ℝ).1.startPos ∧
      (step realLibm (sampleStart ℝ) op).1.baseModel = (sampleStart ℝ).1.baseModel) :=
  ⟨sampleStart_reachable realLibm,
    lightOffsets_fixed realLibm kIdentity44f (sampleLights ℝ) (sampleStart ℝ)
      (sampleStart_reachable realLibm)⟩

end TrajectoryClaims
end task7

section SampleSystem

variable {F : Type} [LinearOrderedField F]

theorem sampleSystem_ready :
    (sampleSystem F).head < (sampleSystem F).pool.length ∧
    (sampleSystem F).pool.length = kMaxParticles ∧ (sampleSystem F).head = 0 ∧
    (sampleSystem F).vbo = 1 := by
  obtain ⟨hl, -, -, hh, -⟩ :=
    init_particle_system_spec (ParticleSystem.fresh : ParticleSystem F) kMaxParticles 1 1
  refine ⟨?_, hl, hh, rfl⟩
  unfold sampleSystem
  rw [hl, hh]
  decide

end SampleSystem

section UpdateUploadClaims

variable {F : Type} [LinearOrderedField F]

theorem update_loop_eq_map (dt : F) (pool : List (Particle F)) :
    (update_loop dt pool).1 = pool.map (spec_update_slot dt) := by
  induction pool with
  | nil => rfl
  | cons p ps ih =>
    simp only [update_loop, List.map_cons, spec_update_slot]
    cases ha : p.alive
    · simp [ih]
    · by_cases hk : p.age + dt ≥ p.lifetime
      · simp [hk, ih]
      · simp [hk, ih]

/-- Claim C16: `update_particles(dt)` leaves the system unchanged when `dt <= 0`; when
`dt > 0` every slot is updated as the specification says (alive slots age by `dt` and are
killed in place when the new age reaches the lifetime, `age' == lifetime` included, and
are moved by `velocity * dt` otherwise; dead slots are untouched), nothing else but
`aliveCount` changes, and `aliveCount` is the number of slots alive after the step.  The
stored `aliveCount` is assumed not to exceed the pool size, as in every reachable state. -/
theorem update_particles_steps (system : ParticleSystem F) (dt : F)
    (hc : system.aliveCount ≤ system.pool.length) :
    (dt ≤ 0 → update_particles system dt = system) ∧
    (0 < dt →
      (update_particles system dt).pool = system.pool.map (spec_update_slot dt) ∧
      (update_particles system dt).aliveCount = alive_slots (update_particles system dt) ∧
      (update_particles system dt).head = system.head ∧
      (update_particles system dt).emitAccumulator = system.emitAccumulator) := by
  constructor
  · intro hd
    unfold update_particles
    simp [hd]
  · intro hd
    unfold update_particles alive_slots
    cases hpool : system.pool with
    | nil =>
      have h0 : system.aliveCount = 0 := by
        rw [hpool] at hc
        exact Nat.le_zero.mp hc
      simp [hpool, h0]
    | cons p ps =>
      obtain ⟨-, h2, -⟩ := update_loop_spec dt (p :: ps)
      simp only [not_le.mpr hd, decide_False, List.isEmpty_cons, Bool.or_self,
        Bool.false_eq_true, if_false]
      exact ⟨update_loop_eq_map dt (p :: ps), h2, trivial, trivial⟩

/-- Witness for C16: the small sample system (one young, one old, one dead slot) stepped
by `dt = 1/5`. -/
theorem update_particles_steps_witness :
    (sampleBusySystem ℝ).aliveCount ≤ (sampleBusySystem ℝ).pool.length ∧
    (((1 : ℝ) / 5 ≤ 0 → update_particles (sampleBusySystem ℝ) (1 / 5) = sampleBusySystem ℝ) ∧
    ((0 : ℝ) < 1 / 5 →
      (update_particles (sampleBusySystem ℝ) (1 / 5)).pool =
        (sampleBusySystem ℝ).pool.map (spec_update_slot (1 / 5)) ∧
      (update_particles (sampleBusySystem ℝ) (1 / 5)).aliveCount =
        alive_slots (update_particles (sampleBusySystem ℝ) (1 / 5)) ∧
      (update_particles (sampleBusySystem ℝ) (1 / 5)).head = (sampleBusySystem ℝ).head ∧
      (update_particles (sampleBusySystem ℝ) (1 / 5)).emitAccumulator =
        (sampleBusySystem ℝ).emitAccumulator)) :=
  ⟨by decide, update_particles_steps (sampleBusySystem ℝ) (1 / 5) (by decide)⟩

theorem gpu_snapshot_eq (pool : List (Particle F)) :
    gpu_snapshot pool =
      (pool.filter (fun p => p.alive)).map
        (fun p => ⟨p.position, p.size, 1 - p.age / p.lifetime⟩) := by
  induction pool with
  | nil => rfl
  | cons p ps ih =>
    simp only [gpu_snapshot]
    cases ha : p.alive
    · simp [List.filter_cons, ha, ih]
    · simp [List.filter_cons, ha, ih]

/-- Claim C17: when a buffer exists, the snapshot built by `upload_particles` has exactly
one entry per alive slot, in pool order and none for dead slots, each with that slot's
position and size and `alpha = 1 - age / lifetime`; `aliveCount` is set to the snapshot
length and the pool is not changed. -/
theorem upload_snapshot (system : ParticleSystem F) (hv : system.vbo ≠ 0) :
    (upload_particles system).2 =
      some ((system.pool.filter (fun p => p.alive)).map
        (fun p => ⟨p.position, p.size, 1 - p.age / p.lifetime⟩)) ∧
    (upload_particles system).1.aliveCount =
      ((system.pool.filter (fun p => p.alive)).map
        (fun p => (⟨p.position, p.size, 1 - p.age / p.lifetime⟩ : ParticleGpu F))).length ∧
    (upload_particles system).1.pool = system.pool := by
  unfold upload_particles
  rw [if_neg hv]
  refine ⟨?_, ?_, rfl⟩
  · show some (gpu_snapshot system.pool) = _
    rw [gpu_snapshot_eq]
  · show (gpu_snapshot system.pool).length = _
    rw [gpu_snapshot_eq]

/-- Witness for C17: the small sample system, whose buffer name is 1. -/
theorem upload_snapshot_witness :
    (sampleBusySystem ℝ).vbo ≠ 0 ∧
    ((upload_particles (sampleBusySystem ℝ)).2 =
      some (((sampleBusySystem ℝ).pool.filter (fun p => p.alive)).map
        (fun p => ⟨p.position, p.size, 1 - p.age / p.lifetime⟩)) ∧
    (upload_particles (sampleBusySystem ℝ)).1.aliveCount =
      (((sampleBusySystem ℝ).pool.filter (fun p => p.alive)).map
        (fun p => (⟨p.position, p.size, 1 - p.age / p.lifetime⟩ : ParticleGpu ℝ))).length ∧
    (upload_particles (sampleBusySystem ℝ)).1.pool = (sampleBusySystem ℝ).pool) :=
  ⟨by decide, upload_snapshot (sampleBusySystem ℝ) (by decide)⟩

/-- For a slot with `0 <= age < lifetime`, `alpha = 1 - age / lifetime` lies in `(0,1]`,
is 1 exactly at age 0, and is smaller at any later age. -/
theorem alpha_of_wellFormed (p : Particle F) (h0 : 0 ≤ p.age) (h1 : p.age < p.lifetime) :
    0 < 1 - p.age / p.lifetime ∧ 1 - p.age / p.lifetime ≤ 1 ∧
    (1 - p.age / p.lifetime = 1 ↔ p.age = 0) ∧
    ∀ dt, 0 < dt → 1 - (p.age + dt) / p.lifetime < 1 - p.age / p.lifetime := by
  have hL : 0 < p.lifetime := lt_of_le_of_lt h0 h1
  have hq : p.age / p.lifetime < 1 := (div_lt_one hL).mpr h1
  have hq0 : 0 ≤ p.age / p.lifetime := div_nonneg h0 hL.le
  refine ⟨by linarith, by linarith, ?_, ?_⟩
  · constructor
    · intro h
      have : p.age / p.lifetime = 0 := by linarith
      rcases div_eq_zero_iff.mp this with h | h
      · exact h
      · exact absurd h hL.ne'
    · intro h
      rw [h, zero_div, sub_zero]
  · intro dt hd
    have : p.age / p.lifetime < (p.age + dt) / p.lifetime :=
      div_lt_div_of_pos_right (by linarith) hL
    linarith

end UpdateUploadClaims

section RingWriteLemmas

variable {F : Type} [LinearOrderedField F]

theorem emit_one_eq (m : Libm F) (system : ParticleSystem F) (emitterPos dir : Vec3f F)
    (r0 r1 r2 r3 r4 : F) (hh : system.head < system.pool.length) :
    emit_one m system emitterPos dir r0 r1 r2 r3 r4 =
      some { system with
        head := (system.head + 1) % system.pool.length
        pool := system.pool.set system.head
          (emitted_particle m emitterPos dir r0 r1 r2 r3 r4) } := by
  unfold emit_one
  rw [if_pos hh]
  rfl

theorem ring_slots_succ (N h k j : Nat) (hh : h < N) :
    ring_slots N h (k + 1) j ↔ (j = h ∨ ring_slots N ((h + 1) % N) k j) := by
  unfold ring_slots
  constructor
  · rintro ⟨i, hi, hj⟩
    cases i with
    | zero =>
      left
      rw [← hj, Nat.add_zero, Nat.mod_eq_of_lt hh]
    | succ i =>
      right
      refine ⟨i, by omega, ?_⟩
      rw [Nat.mod_add_mod, ← hj]
      congr 1
      omega
  · rintro (hj | ⟨i, hi, hj⟩)
    · exact ⟨0, by omega, by rw [hj, Nat.add_zero, Nat.mod_eq_of_lt hh]⟩
    · refine ⟨i + 1, by omega, ?_⟩
      rw [← hj, Nat.mod_add_mod]
      congr 1
      omega

/-- The emission loop run `n` times from a cursor inside the pool: the cursor ends at
`(head + n) mod N`, every visited slot holds the particle built by the last iteration that
visited it, and every other slot is as before. -/
theorem emit_loop_writes (m : Libm F) (emitterPos dir : Vec3f F) (n : Nat) :
    ∀ (system : ParticleSystem F) (rand : Nat → F), system.head < system.pool.length →
      ∃ s1, emit_loop m emitterPos dir n system rand = some s1 ∧
        s1.head = (system.head + n) % system.pool.length ∧
        ∀ j,
          (ring_slots system.pool.length system.head n j →
            ∃ i, i < n ∧ s1.pool[j]? = some (emitted_particle m emitterPos dir
              (rand (5 * i)) (rand (5 * i + 1)) (rand (5 * i + 2)) (rand (5 * i + 3))
              (rand (5 * i + 4)))) ∧
          (¬ ring_slots system.pool.length system.head n j →
            s1.pool[j]? = system.pool[j]?) := by
  induction n with
  | zero =>
    intro system rand hh
    refine ⟨system, rfl, by rw [Nat.add_zero, Nat.mod_eq_of_lt hh], ?_⟩
    intro j
    constructor
    · rintro ⟨i, hi, -⟩
      omega
    · intro _; rfl
  | succ n ih =>
    intro system rand hh
    have e0 := emit_one_eq m system emitterPos dir (rand 0) (rand 1) (rand 2) (rand 3)
      (rand 4) hh
    have hN : 0 < system.pool.length := Nat.zero_lt_of_lt hh
    obtain ⟨s1, g0, g1, g2⟩ := ih
      { system with
        head := (system.head + 1) % system.pool.length
        pool := system.pool.set system.head
          (emitted_particle m emitterPos dir (rand 0) (rand 1) (rand 2) (rand 3) (rand 4)) }
      (fun k => rand (k + 5))
      (by simp only [List.length_set]; exact Nat.mod_lt _ hN)
    simp only [List.length_set] at g1 g2
    refine ⟨s1, ?_, ?_, ?_⟩
    · simp only [emit_loop, e0]
      exact g0
    · rw [g1, Nat.mod_add_mod]
      congr 1
      omega
    · intro j
      by_cases hr : ring_slots system.pool.length ((system.head + 1) % system.pool.length) n j
      · constructor
        · intro _
          obtain ⟨i, hi, hp⟩ := (g2 j).1 hr
          refine ⟨i + 1, by omega, ?_⟩
          rw [hp]
          have e : ∀ c, 5 * i + c + 5 = 5 * (i + 1) + c := fun c => by omega
          have e5 : 5 * i + 5 = 5 * (i + 1) := by omega
          simp only [e, e5]
        · intro hn
          exact absurd ((ring_slots_succ _ _ _ _ hh).mpr (Or.inr hr)) hn
      · have hp := (g2 j).2 hr
        constructor
        · intro hs
          rcases (ring_slots_succ _ _ _ _ hh).mp hs with hj | hj
          · refine ⟨0, by omega, ?_⟩
            rw [hp, hj, List.getElem?_set_self hh]
          · exact absurd hj hr
        · intro hn
          have hj : system.head ≠ j := fun h =>
            hn ((ring_slots_succ _ _ _ _ hh).mpr (Or.inl h.symm))
          rw [hp, List.getElem?_set_ne hj]

end RingWriteLemmas

section RingWriteClaims

variable {F : Type} [LinearOrderedField F] [FloorRing F]

/-- When `toEmit = k >= 1` and the cursor is inside the pool, `emit_particles` is the
emission loop run `k` times on the system with the fractional accumulator. -/
theorem emit_particles_loop (m : Libm F) (system : ParticleSystem F)
    (emitterPos emitterDir : Vec3f F) (rate dt : F) (rand : Nat → F) (k : Nat)
    (hk : 1 ≤ k) (hcount : toEmit system rate dt = (k : Int)) :
    emit_particles m system emitterPos emitterDir rate dt rand =
      emit_loop m emitterPos (safe_normalize m emitterDir ⟨0, 0, -1⟩) k
        { system with emitAccumulator :=
            system.emitAccumulator + rate * dt - ((k : Int) : F) } rand := by
  unfold emit_particles
  simp only [hcount]
  have hpos : ¬ ((k : Int) ≤ 0) := by omega
  rw [if_neg hpos, Int.toNat_ofNat]

/-- Claim C15: an emit of `k >= 1` particles on a pool of capacity `N` with cursor `h`
(inside the pool) sets the cursor to `(h + k) mod N`, keeps the capacity, leaves every slot
among `h, h+1, ..., h+k-1 (mod N)` alive with age 0, whatever it held before, and leaves
every other slot unchanged. -/
theorem emit_ring_write (m : Libm F) (system : ParticleSystem F)
    (emitterPos emitterDir : Vec3f F) (rate dt : F) (rand : Nat → F)
    (hh : system.head < system.pool.length) (k : Nat) (hk : 1 ≤ k)
    (hcount : toEmit system rate dt = (k : Int)) :
    ∃ s1, emit_particles m system emitterPos emitterDir rate dt rand = some s1 ∧
      s1.head = (system.head + k) % system.pool.length ∧
      s1.pool.length = system.pool.length ∧
      ∀ j,
        (ring_slots system.pool.length system.head k j →
          ∃ p, s1.pool[j]? = some p ∧ p.alive = true ∧ p.age = 0) ∧
        (¬ ring_slots system.pool.length system.head k j →
          s1.pool[j]? = system.pool[j]?) := by
  rw [emit_particles_loop m system emitterPos emitterDir rate dt rand k hk hcount]
  obtain ⟨s1, h0, h1, h2⟩ := emit_loop_writes m emitterPos
    (safe_normalize m emitterDir ⟨0, 0, -1⟩) k
    { system with emitAccumulator := system.emitAccumulator + rate * dt - ((k : Int) : F) }
    rand hh
  obtain ⟨s2, g0, g1, -⟩ := emit_loop_defined m emitterPos
    (safe_normalize m emitterDir ⟨0, 0, -1⟩) k
    { system with emitAccumulator := system.emitAccumulator + rate * dt - ((k : Int) : F) }
    rand hh
  have hs : s2 = s1 := Option.some.inj (g0.symm.trans h0)
  subst hs
  refine ⟨s2, h0, h1, g1, ?_⟩
  intro j
  refine ⟨fun hr => ?_, (h2 j).2⟩
  obtain ⟨i, -, hp⟩ := (h2 j).1 hr
  exact ⟨_, hp, rfl, rfl⟩

/-- Witness for C15: the small sample system (cursor at slot 2 of 3, slots 0 and 1 alive)
with rate 7 and `dt = 1/3`, which emits `floor(7/3) = 2` particles into slots 2 and 0. -/
theorem emit_ring_write_witness :
    (sampleBusySystem ℝ).head < (sampleBusySystem ℝ).pool.length ∧ 1 ≤ 2 ∧
    toEmit (sampleBusySystem ℝ) 7 (1 / 3) = ((2 : Nat) : Int) ∧
    ∃ s1, emit_particles realLibm (sampleBusySystem ℝ) ⟨0, 0, 0⟩ ⟨0, -1, 0⟩ 7 (1 / 3)
        (fun _ => 1 / 2) = some s1 ∧
      s1.head = ((sampleBusySystem ℝ).head + 2) % (sampleBusySystem ℝ).pool.length ∧
      s1.pool.length = (sampleBusySystem ℝ).pool.length ∧
      ∀ j,
        (ring_slots (sampleBusySystem ℝ).pool.length (sampleBusySystem ℝ).head 2 j →
          ∃ p, s1.pool[j]? = some p ∧ p.alive = true ∧ p.age = 0) ∧
        (¬ ring_slots (sampleBusySystem ℝ).pool.length (sampleBusySystem ℝ).head 2 j →
          s1.pool[j]? = (sampleBusySystem ℝ).pool[j]?) := by
  have hh : (sampleBusySystem ℝ).head < (sampleBusySystem ℝ).pool.length := by decide
  have hc : toEmit (sampleBusySystem ℝ) 7 (1 / 3) = ((2 : Nat) : Int) := by
    simp only [toEmit, sampleBusySystem]
    rw [Int.floor_eq_iff]
    constructor <;> norm_num
  exact ⟨hh, by decide, hc,
    emit_ring_write realLibm (sampleBusySystem ℝ) ⟨0, 0, 0⟩ ⟨0, -1, 0⟩ 7 (1 / 3)
      (fun _ => 1 / 2) hh 2 (by decide) hc⟩

end RingWriteClaims

section RealVectorLemmas

theorem dot_self_nonneg (v : Vec3f ℝ) : 0 ≤ dot v v := by
  unfold dot
  nlinarith [mul_self_nonneg v.x, mul_self_nonneg v.y, mul_self_nonneg v.z]

theorem length_nonneg (v : Vec3f ℝ) : 0 ≤ length realLibm v :=
  Real.sqrt_nonneg _

theorem length_mul_self (v : Vec3f ℝ) : length realLibm v * length realLibm v = dot v v :=
  Real.mul_self_sqrt (dot_self_nonneg v)

theorem length_of_unit (v : Vec3f ℝ) (h : dot v v = 1) : length realLibm v = 1 := by
  show Real.sqrt (dot v v) = 1
  rw [h, Real.sqrt_one]

theorem dot_divide (v w : Vec3f ℝ) (L : ℝ) : dot (v.divide L) w = dot v w / L := by
  simp only [dot, Vec3f.divide]
  ring

theorem dot_divide_right (v w : Vec3f ℝ) (L : ℝ) : dot w (v.divide L) = dot w v / L := by
  simp only [dot, Vec3f.divide]
  ring

/-- Dividing a vector by its (positive) length gives a unit vector. -/
theorem divide_length_unit (v : Vec3f ℝ) (h : 0 < length realLibm v) :
    dot (v.divide (length realLibm v)) (v.divide (length realLibm v)) = 1 := by
  rw [dot_divide, dot_divide_right, ← length_mul_self v]
  field_simp

theorem cross_dot_left (a b : Vec3f ℝ) : dot (cross a b) a = 0 := by
  simp only [dot, cross]
  ring

theorem cross_dot_right (a b : Vec3f ℝ) : dot (cross a b) b = 0 := by
  simp only [dot, cross]
  ring

/-- Lagrange identity for the cross product. -/
theorem cross_dot_self (a b : Vec3f ℝ) :
    dot (cross a b) (cross a b) = dot a a * dot b b - dot a b * dot a b := by
  simp only [dot, cross]
  ring

theorem dot_comm (a b : Vec3f ℝ) : dot a b = dot b a := by
  simp only [dot]
  ring

/-- The result of `safe_normalize` is the fallback, or the vector divided by its length
when that length exceeds `1e-6`. -/
theorem safe_normalize_cases (v fallback : Vec3f ℝ) :
    (length realLibm v ≤ 1 / 1000000 ∧ safe_normalize realLibm v fallback = fallback) ∨
    (1 / 1000000 < length realLibm v ∧
      safe_normalize realLibm v fallback = v.divide (length realLibm v)) := by
  unfold safe_normalize
  by_cases h : length realLibm v ≤ 1 / 1000000
  · left; exact ⟨h, by rw [if_pos h]⟩
  · right; exact ⟨not_le.mp h, by rw [if_neg h]⟩

theorem safe_normalize_unit (v fallback : Vec3f ℝ) (hf : dot fallback fallback = 1) :
    dot (safe_normalize realLibm v fallback) (safe_normalize realLibm v fallback) = 1 := by
  rcases safe_normalize_cases v fallback with ⟨-, h⟩ | ⟨hl, h⟩
  · rw [h]; exact hf
  · rw [h]
    exact divide_length_unit v (lt_trans (by norm_num) hl)

/-- A vector whose squared length exceeds `1e-12` passes the length test of
`safe_normalize`. -/
theorem length_large (v : Vec3f ℝ) (h : 1 / 1000000000000 < dot v v) :
    1 / 1000000 < length realLibm v := by
  by_contra hc
  have hle : length realLibm v ≤ 1 / 1000000 := not_lt.mp hc
  have h0 := length_nonneg v
  have := length_mul_self v
  nlinarith

end RealVectorLemmas

namespace task7

section FrameClaims

theorem frame_forward_unit (velocity : Vec3f ℝ) :
    dot (frame_forward realLibm velocity) (frame_forward realLibm velocity) = 1 := by
  unfold frame_forward
  by_cases h : length realLibm velocity < 1 / 10000
  · rw [if_pos h]
    simp [dot]
  · rw [if_neg h]
    exact divide_length_unit velocity (lt_of_lt_of_le (by norm_num) (not_lt.mp h))

/-- The cross product of the chosen reference axis with a unit `forward` has squared
length at least `0.19`. -/
theorem frame_cross_large (forward : Vec3f ℝ) (hf : dot forward forward = 1) :
    19 / 100 ≤ dot (cross (frame_worldSide forward) forward)
      (cross (frame_worldSide forward) forward) := by
  unfold frame_worldSide
  have hz : dot (⟨0, 0, 1⟩ : Vec3f ℝ) forward = forward.z := by simp [dot]
  rw [hz]
  simp only [dot] at hf
  by_cases h : |forward.z| > 9 / 10
  · rw [if_pos h]
    simp only [cross, dot]
    have h2 : (9 / 10 : ℝ) * (9 / 10) < forward.z * forward.z := by
      rw [← abs_mul_abs_self forward.z]
      nlinarith [abs_nonneg forward.z]
    nlinarith [mul_self_nonneg forward.y]
  · rw [if_neg h]
    simp only [cross, dot]
    have h1 : |forward.z| ≤ 9 / 10 := not_lt.mp h
    have h2 : forward.z * forward.z ≤ (9 / 10 : ℝ) * (9 / 10) := by
      rw [← abs_mul_abs_self forward.z]
      nlinarith [abs_nonneg forward.z]
    nlinarith

theorem frame_right_eq (forward : Vec3f ℝ) (hf : dot forward forward = 1) :
    frame_right realLibm forward =
      (cross (frame_worldSide forward) forward).divide
        (length realLibm (cross (frame_worldSide forward) forward)) ∧
    0 < length realLibm (cross (frame_worldSide forward) forward) := by
  have hbig := length_large (cross (frame_worldSide forward) forward)
    (lt_of_lt_of_le (by norm_num) (frame_cross_large forward hf))
  unfold frame_right
  rcases safe_normalize_cases (cross (frame_worldSide forward) forward) ⟨1, 0, 0⟩ with
    ⟨hl, -⟩ | ⟨hl, h⟩
  · exact absurd hbig (not_lt.mpr hl)
  · exact ⟨h, lt_trans (by norm_num) hl⟩

/-- For a unit `forward`, the vectors `right`, `forward` and `up = cross(forward, right)`
of `update` are unit vectors and pairwise orthogonal. -/
theorem frame_orthonormal (forward : Vec3f ℝ) (hf : dot forward forward = 1) :
    dot (frame_right realLibm forward) (frame_right realLibm forward) = 1 ∧
    dot (cross forward (frame_right realLibm forward))
      (cross forward (frame_right realLibm forward)) = 1 ∧
    dot (frame_right realLibm forward) forward = 0 ∧
    dot (frame_right realLibm forward) (cross forward (frame_right realLibm forward)) = 0 ∧
    dot forward (cross forward (frame_right realLibm forward)) = 0 := by
  obtain ⟨hr, hpos⟩ := frame_right_eq forward hf
  have h1 : dot (frame_right realLibm forward) (frame_right realLibm forward) = 1 := by
    rw [hr]; exact divide_length_unit _ hpos
  have h2 : dot (frame_right realLibm forward) forward = 0 := by
    rw [hr, dot_divide, cross_dot_right, zero_div]
  refine ⟨h1, ?_, h2, ?_, ?_⟩
  · rw [cross_dot_self, hf, h1, dot_comm forward, h2]
    norm_num
  · rw [dot_comm, cross_dot_right]
  · rw [dot_comm, cross_dot_left]

theorem upper_rows_of_frame (p right forward up : Vec3f ℝ) :
    upper_row ((make_translation p).mul (frame_matrix right forward up)) 0 = right ∧
    upper_row ((make_translation p).mul (frame_matrix right forward up)) 1 = forward ∧
    upper_row ((make_translation p).mul (frame_matrix right forward up)) 2 = up := by
  refine ⟨?_, ?_, ?_⟩ <;>
    simp [upper_row, make_translation, frame_matrix, Mat44f.mul, Mat44f.set, kIdentity44f]

end FrameClaims
end task7

namespace task7

section OrthonormalClaim

theorem advance_matrix {F : Type} [LinearOrderedField F] (m : Libm F)
    (anim : AnimationState F) (dt : F) (lights : Fin 3 → task6.PointLight F) :
    (advance m anim dt lights).vehicleModelMatrix =
      (make_translation (anim.startPos + trajectory_offset (advance_u anim dt))).mul
        (frame_matrix (frame_right m (frame_forward m (advance_velocity anim dt)))
          (frame_forward m (advance_velocity anim dt))
          (cross (frame_forward m (advance_velocity anim dt))
            (frame_right m (frame_forward m (advance_velocity anim dt))))) := rfl

/-- Claim C12: after every advancing `update` (active, not paused, `deltaSeconds > 0`), for
any previous position, the rows `right`, `forward`, `up` of the upper-left 3x3 block of the
returned transform are unit vectors and pairwise orthogonal over the reals, whichever way
`forward` and the reference axis were chosen. -/
theorem update_frame_orthonormal (anim : AnimationState ℝ) (dt : ℝ)
    (lights : Fin 3 → task6.PointLight ℝ) (ha : anim.active = true)
    (hp : anim.paused = false) (hd : 0 < dt) :
    length realLibm (upper_row (update realLibm anim dt lights).vehicleModelMatrix 0) = 1 ∧
    length realLibm (upper_row (update realLibm anim dt lights).vehicleModelMatrix 1) = 1 ∧
    length realLibm (upper_row (update realLibm anim dt lights).vehicleModelMatrix 2) = 1 ∧
    dot (upper_row (update realLibm anim dt lights).vehicleModelMatrix 0)
      (upper_row (update realLibm anim dt lights).vehicleModelMatrix 1) = 0 ∧
    dot (upper_row (update realLibm anim dt lights).vehicleModelMatrix 0)
      (upper_row (update realLibm anim dt lights).vehicleModelMatrix 2) = 0 ∧
    dot (upper_row (update realLibm anim dt lights).vehicleModelMatrix 1)
      (upper_row (update realLibm anim dt lights).vehicleModelMatrix 2) = 0 := by
  rw [update_advancing realLibm anim dt lights ha hd hp, advance_matrix]
  obtain ⟨r0, r1, r2⟩ := upper_rows_of_frame
    (anim.startPos + trajectory_offset (advance_u anim dt))
    (frame_right realLibm (frame_forward realLibm (advance_velocity anim dt)))
    (frame_forward realLibm (advance_velocity anim dt))
    (cross (frame_forward realLibm (advance_velocity anim dt))
      (frame_right realLibm (frame_forward realLibm (advance_velocity anim dt))))
  rw [r0, r1, r2]
  have hf := frame_forward_unit (advance_velocity anim dt)
  obtain ⟨h1, h2, h3, h4, h5⟩ :=
    frame_orthonormal (frame_forward realLibm (advance_velocity anim dt)) hf
  exact ⟨length_of_unit _ h1, length_of_unit _ hf, length_of_unit _ h2, h3, h4, h5⟩

/-- Witness for C12: the first frame of the sample run with `deltaSeconds = 4`. -/
theorem update_frame_orthonormal_witness :
    (sampleStart ℝ).1.active = true ∧ (sampleStart ℝ).1.paused = false ∧ (0 : ℝ) < 4 ∧
    (length realLibm (upper_row
      (update realLibm (sampleStart ℝ).1 4 (sampleStart ℝ).2).vehicleModelMatrix 0) = 1 ∧
    length realLibm (upper_row
      (update realLibm (sampleStart ℝ).1 4 (sampleStart ℝ).2).vehicleModelMatrix 1) = 1 ∧
    length realLibm (upper_row
      (update realLibm (sampleStart ℝ).1 4 (sampleStart ℝ).2).vehicleModelMatrix 2) = 1 ∧
    dot (upper_row (update realLibm (sampleStart ℝ).1 4 (sampleStart ℝ).2).vehicleModelMatrix 0)
      (upper_row (update realLibm (sampleStart ℝ).1 4 (sampleStart ℝ).2).vehicleModelMatrix 1)
        = 0 ∧
    dot (upper_row (update realLibm (sampleStart ℝ).1 4 (sampleStart ℝ).2).vehicleModelMatrix 0)
      (upper_row (update realLibm (sampleStart ℝ).1 4 (sampleStart ℝ).2).vehicleModelMatrix 2)
        = 0 ∧
    dot (upper_row (update realLibm (sampleStart ℝ).1 4 (sampleStart ℝ).2).vehicleModelMatrix 1)
      (upper_row (update realLibm (sampleStart ℝ).1 4 (sampleStart ℝ).2).vehicleModelMatrix 2)
        = 0) :=
  ⟨rfl, rfl, by norm_num,
    update_frame_orthonormal (sampleStart ℝ).1 4 (sampleStart ℝ).2 rfl rfl (by norm_num)⟩

end OrthonormalClaim
end task7

namespace task7

section ReplayLemmas

variable {F : Type} [LinearOrderedField F]

theorem advance_lastPos (m : Libm F) (anim : AnimationState F) (dt : F)
    (lights : Fin 3 → task6.PointLight F) :
    (advance m anim dt lights).anim.lastPos =
      anim.startPos + trajectory_offset (advance_u anim dt) := by
  simp only [advance]
  split <;> rfl

theorem clamp_unit_lt_one (x : F) (h : x < 1) : clamp x 0 1 < 1 := by
  unfold clamp
  split
  · exact zero_lt_one
  · rw [if_neg (not_lt.mpr h.le)]
    exact h

/-- The forward row of the transform returned by an advancing `update` is
`frame_forward` of the velocity of that step. -/
theorem update_forward_row (anim : AnimationState ℝ) (dt : ℝ)
    (lights : Fin 3 → task6.PointLight ℝ) (ha : anim.active = true)
    (hp : anim.paused = false) (hd : 0 < dt) :
    upper_row (update realLibm anim dt lights).vehicleModelMatrix 1 =
      frame_forward realLibm (advance_velocity anim dt) := by
  rw [update_advancing realLibm anim dt lights ha hd hp, advance_matrix]
  exact (upper_rows_of_frame _ _ _ _).2.1

/-- For a velocity of squared length at least 1, `frame_forward` is the velocity divided
by its (positive) length. -/
theorem frame_forward_fast (v : Vec3f ℝ) (h : 1 ≤ dot v v) :
    frame_forward realLibm v = v.divide (length realLibm v) ∧ 0 < length realLibm v := by
  have hl : 1 / 1000000 < length realLibm v :=
    length_large v (lt_of_lt_of_le (by norm_num) h)
  have h1 : 1 ≤ length realLibm v := by
    by_contra hc
    have h0 := length_nonneg v
    have := length_mul_self v
    nlinarith [not_le.mp hc]
  unfold frame_forward
  rw [if_neg (not_lt.mpr (le_trans (by norm_num) h1))]
  exact ⟨rfl, lt_of_lt_of_le zero_lt_one h1⟩

end ReplayLemmas

section ReplayCounterexample

/-- State of the sample run after a first frame of 2 seconds. -/
theorem sampleStart_update_two :
    (update realLibm (sampleStart ℝ).1 2 (sampleStart ℝ).2).anim.active = true ∧
    (update realLibm (sampleStart ℝ).1 2 (sampleStart ℝ).2).anim.paused = false ∧
    (update realLibm (sampleStart ℝ).1 2 (sampleStart ℝ).2).anim.time = 2 ∧
    (update realLibm (sampleStart ℝ).1 2 (sampleStart ℝ).2).anim.startPos = ⟨0, 0, 0⟩ ∧
    (update realLibm (sampleStart ℝ).1 2 (sampleStart ℝ).2).anim.lastPos =
      ⟨15 / 16, 5 / 2, 5 / 16⟩ := by
  have h2 : (0 : ℝ) < 2 := by norm_num
  have hu : advance_u (sampleStart ℝ).1 2 = 1 / 4 := by
    simp only [advance_u, clamp, totalDuration, sampleStart, toggle_play, initialise]
    norm_num
  have hn : ¬ (advance_u (sampleStart ℝ).1 2 ≥ 1) := by rw [hu]; norm_num
  rw [update_advancing realLibm _ 2 _ sampleStart_flags.1 h2 sampleStart_flags.2]
  refine ⟨?_, ?_, ?_, ?_, ?_⟩
  · rw [advance_active, if_neg hn]; rfl
  · rw [advance_paused, if_neg hn]; rfl
  · rw [advance_time]
    show (0 : ℝ) + 2 = 2
    norm_num
  · rw [(advance_fixed realLibm _ 2 _).2.1, sampleStart_startPos]
  · rw [advance_lastPos, hu, sampleStart_startPos]
    show Vec3f.add _ _ = _
    simp only [Vec3f.add, trajectory_offset]
    norm_num

theorem sampleStart_velocity_four :
    advance_velocity (sampleStart ℝ).1 4 = ⟨15 / 8, 5 / 2, 5 / 8⟩ := by
  have hl : (sampleStart ℝ).1.lastPos = ⟨0, 0, 0⟩ := sampleStart_startPos
  unfold advance_velocity
  rw [sampleStart_u_four, sampleStart_startPos, hl]
  show Vec3f.divide (Vec3f.sub (Vec3f.add _ _) _) _ = _
  simp only [Vec3f.add, Vec3f.sub, Vec3f.divide, trajectory_offset]
  norm_num

theorem sampleStart_velocity_two_two :
    advance_velocity (update realLibm (sampleStart ℝ).1 2 (sampleStart ℝ).2).anim 2 =
      ⟨105 / 32, 15 / 4, 35 / 32⟩ := by
  obtain ⟨-, -, ht, hs, hl⟩ := sampleStart_update_two
  have hu : advance_u (update realLibm (sampleStart ℝ).1 2 (sampleStart ℝ).2).anim 2 =
      1 / 2 := by
    simp only [advance_u, clamp, totalDuration, ht]
    norm_num
  unfold advance_velocity
  rw [hu, hs, hl]
  show Vec3f.divide (Vec3f.sub (Vec3f.add _ _) _) _ = _
  simp only [Vec3f.add, Vec3f.sub, Vec3f.divide, trajectory_offset]
  norm_num

/-- Claim C13, as stated, fails: from the freshly started sample run the sequences `[4]`
and `[2, 2]` of positive `deltaSeconds` have the same sum `4 <= 8`, but their final
transforms differ (the forward rows point along `(15/8, 5/2, 5/8)` and
`(105/32, 15/4, 35/32)`, which are not parallel). -/
theorem same_sum_different_transform :
    ([4] : List ℝ).sum = ([2, 2] : List ℝ).sum ∧ ([4] : List ℝ).sum ≤ 8 ∧
    (frames realLibm (sampleStart ℝ) [4]).getLast? =
      some (update realLibm (sampleStart ℝ).1 4 (sampleStart ℝ).2) ∧
    (frames realLibm (sampleStart ℝ) [2, 2]).getLast? =
      some (update realLibm (update realLibm (sampleStart ℝ).1 2 (sampleStart ℝ).2).anim 2
        (update realLibm (sampleStart ℝ).1 2 (sampleStart ℝ).2).lights) ∧
    (update realLibm (sampleStart ℝ).1 4 (sampleStart ℝ).2).vehicleModelMatrix ≠
      (update realLibm (update realLibm (sampleStart ℝ).1 2 (sampleStart ℝ).2).anim 2
        (update realLibm (sampleStart ℝ).1 2 (sampleStart ℝ).2).lights).vehicleModelMatrix := by
  refine ⟨by norm_num, by norm_num, rfl, rfl, ?_⟩
  intro h
  obtain ⟨ha, hp, -, -, -⟩ := sampleStart_update_two
  have hrow := congrArg (fun M => upper_row M 1) h
  simp only at hrow
  rw [update_forward_row _ 4 _ sampleStart_flags.1 sampleStart_flags.2 (by norm_num),
    update_forward_row _ 2 _ ha hp (by norm_num), sampleStart_velocity_four,
    sampleStart_velocity_two_two] at hrow
  obtain ⟨e1, p1⟩ := frame_forward_fast (⟨15 / 8, 5 / 2, 5 / 8⟩ : Vec3f ℝ)
    (by simp only [dot]; norm_num)
  obtain ⟨e2, p2⟩ := frame_forward_fast (⟨105 / 32, 15 / 4, 35 / 32⟩ : Vec3f ℝ)
    (by simp only [dot]; norm_num)
  rw [e1, e2] at hrow
  have hx := congrArg Vec3f.x hrow
  have hy := congrArg Vec3f.y hrow
  simp only [Vec3f.divide] at hx hy
  rw [div_eq_div_iff p1.ne' p2.ne'] at hx hy
  nlinarith

end ReplayCounterexample

end task7

namespace task7

section ReplayClaims

variable {F : Type} [LinearOrderedField F]

theorem list_sum_nonneg (dts : List F) (h : ∀ dt ∈ dts, 0 < dt) : 0 ≤ dts.sum := by
  induction dts with
  | nil => simp
  | cons d ds ih =>
    rw [List.sum_cons]
    have h1 := h d (List.mem_cons_self _ _)
    have h2 := ih (fun x hx => h x (List.mem_cons_of_mem _ hx))
    linarith

/-- Final frame of a run of positive time steps that ends within the 8 seconds: its
translation and elapsed time are given by the sum of the steps. -/
theorem frames_final (m : Libm F) (dts : List F) :
    ∀ (anim : AnimationState F) (lights : Fin 3 → task6.PointLight F), dts ≠ [] →
      (∀ dt ∈ dts, 0 < dt) → anim.active = true → anim.paused = false →
      anim.time + dts.sum ≤ 8 →
      ∃ f, (frames m (anim, lights) dts).getLast? = some f ∧
        extract_translation f.vehicleModelMatrix =
          anim.startPos + trajectory_offset (clamp ((anim.time + dts.sum) / 8) 0 1) ∧
        f.anim.time = anim.time + dts.sum := by
  induction dts with
  | nil => intro anim lights h; exact absurd rfl h
  | cons dt rest ih =>
    intro anim lights _ hpos ha hp h8
    have hd : 0 < dt := hpos dt (List.mem_cons_self _ _)
    have hup := update_advancing m anim dt lights ha hd hp
    cases rest with
    | nil =>
      refine ⟨update m anim dt lights, rfl, ?_, ?_⟩
      · rw [hup, advance_translation]
        simp [advance_u, totalDuration]
      · rw [hup, advance_time]
        simp
    | cons dt2 rest2 =>
      have hpos2 : ∀ x ∈ dt2 :: rest2, 0 < x := fun x hx => hpos x (List.mem_cons_of_mem _ hx)
      have hsum2 : 0 < (dt2 :: rest2).sum := by
        rw [List.sum_cons]
        have := hpos2 dt2 (List.mem_cons_self _ _)
        have := list_sum_nonneg rest2 (fun x hx => hpos2 x (List.mem_cons_of_mem _ hx))
        linarith
      rw [List.sum_cons] at h8
      have hu : ¬ (advance_u anim dt ≥ 1) := by
        apply not_le.mpr
        unfold advance_u totalDuration
        apply clamp_unit_lt_one
        rw [div_lt_one (by norm_num)]
        linarith
      have ha1 : (update m anim dt lights).anim.active = true := by
        rw [hup, advance_active, if_neg hu]; exact ha
      have hp1 : (update m anim dt lights).anim.paused = false := by
        rw [hup, advance_paused, if_neg hu]; exact hp
      have ht1 : (update m anim dt lights).anim.time = anim.time + dt := by
        rw [hup, advance_time]
      have hs1 : (update m anim dt lights).anim.startPos = anim.startPos := by
        rw [hup]; exact (advance_fixed m anim dt lights).2.1
      obtain ⟨f, hf, htr, htime⟩ := ih (update m anim dt lights).anim
        (update m anim dt lights).lights (List.cons_ne_nil _ _) hpos2 ha1 hp1
        (by rw [ht1]; linarith)
      have hcons : (dt :: dt2 :: rest2).sum = dt + (dt2 :: rest2).sum := List.sum_cons
      refine ⟨f, ?_, ?_, ?_⟩
      · rw [← hf]
        simp only [frames, List.getLast?_cons_cons]
      · rw [htr, hs1, ht1, hcons, add_assoc]
      · rw [htime, ht1, hcons, add_assoc]

/-- The state written by `update` and the returned transform do not depend on the
`lights` argument nor on `lightOffsets`. -/
theorem update_ignores_lights (m : Libm F) (a b : AnimationState F) (dt : F)
    (la lb : Fin 3 → task6.PointLight F)
    (h : a.active = b.active ∧ a.paused = b.paused ∧ a.time = b.time ∧
      a.startPos = b.startPos ∧ a.lastPos = b.lastPos ∧ a.baseModel = b.baseModel ∧
      a.currentModel = b.currentModel) :
    (update m a dt la).vehicleModelMatrix = (update m b dt lb).vehicleModelMatrix ∧
    ((update m a dt la).anim.active = (update m b dt lb).anim.active ∧
      (update m a dt la).anim.paused = (update m b dt lb).anim.paused ∧
      (update m a dt la).anim.time = (update m b dt lb).anim.time ∧
      (update m a dt la).anim.startPos = (update m b dt lb).anim.startPos ∧
      (update m a dt la).anim.lastPos = (update m b dt lb).anim.lastPos ∧
      (update m a dt la).anim.baseModel = (update m b dt lb).anim.baseModel ∧
      (update m a dt la).anim.currentModel = (update m b dt lb).anim.currentModel) := by
  obtain ⟨h1, h2, h3, h4, h5, h6, h7⟩ := h
  by_cases hf : a.active = false ∨ dt ≤ 0
  · have hf2 : b.active = false ∨ dt ≤ 0 := by rwa [← h1]
    rw [update_frozen m a dt la hf, update_frozen m b dt lb hf2]
    exact ⟨h6, h1, h2, h3, h4, h5, h6, h6⟩
  · have ha : a.active = true := by
      cases h : a.active
      · exact absurd (Or.inl h) hf
      · rfl
    have hd : 0 < dt := lt_of_not_le fun h => hf (Or.inr h)
    cases hq : a.paused
    · rw [update_advancing m a dt la ha hd hq,
        update_advancing m b dt lb (h1 ▸ ha) hd (h2 ▸ hq)]
      have hu : advance_u a dt = advance_u b dt := by unfold advance_u; rw [h3]
      have hv : advance_velocity a dt = advance_velocity b dt := by
        unfold advance_velocity; rw [hu, h4, h5]
      have hM : (advance m a dt la).vehicleModelMatrix =
          (advance m b dt lb).vehicleModelMatrix := by
        rw [advance_matrix, advance_matrix, hu, hv, h4]
      refine ⟨hM, ?_, ?_, ?_, ?_, ?_, ?_, ?_⟩
      · rw [advance_active, advance_active, hu, h1]
      · rw [advance_paused, advance_paused, hu, h2]
      · rw [advance_time, advance_time, h3]
      · rw [(advance_fixed m a dt la).2.1, (advance_fixed m b dt lb).2.1, h4]
      · rw [advance_lastPos, advance_lastPos, hu, h4]
      · rw [(advance_fixed m a dt la).1, (advance_fixed m b dt lb).1, h6]
      · rw [advance_currentModel, advance_currentModel, hM]
    · rw [update_paused m a dt la ha hd hq,
        update_paused m b dt lb (h1 ▸ ha) hd (h2 ▸ hq)]
      exact ⟨h7, h1, h2, h3, h4, h5, h6, h7⟩

theorem frames_ignore_lights (m : Libm F) (dts : List F) :
    ∀ (a b : AnimationState F) (la lb : Fin 3 → task6.PointLight F),
      (a.active = b.active ∧ a.paused = b.paused ∧ a.time = b.time ∧
        a.startPos = b.startPos ∧ a.lastPos = b.lastPos ∧ a.baseModel = b.baseModel ∧
        a.currentModel = b.currentModel) →
      (frames m (a, la) dts).map (fun f => f.vehicleModelMatrix) =
        (frames m (b, lb) dts).map (fun f => f.vehicleModelMatrix) := by
  induction dts with
  | nil => intro a b la lb _; rfl
  | cons dt rest ih =>
    intro a b la lb h
    obtain ⟨hM, hst⟩ := update_ignores_lights m a b dt la lb h
    simp only [frames, List.map_cons]
    rw [hM, ih _ _ _ _ hst]

/-- Claim C13 (amended): from a freshly initialised and toggled-play state, two non-empty
sequences of positive `deltaSeconds` with the same sum (at most 8 s) end in frames with the
same translation column and the same elapsed time (not, in general, the same orientation);
and the sequence of transforms produced by a sequence of `deltaSeconds` is determined by
the base transform and that sequence alone, whatever the lights. -/
theorem frames_by_elapsed_time (m : Libm F) (base : Mat44f F)
    (lightsA lightsB lightsA1 lightsB1 : Fin 3 → task6.PointLight F) (dts1 dts2 : List F)
    (h1 : dts1 ≠ []) (h2 : dts2 ≠ []) (p1 : ∀ dt ∈ dts1, 0 < dt) (p2 : ∀ dt ∈ dts2, 0 < dt)
    (hs : dts1.sum = dts2.sum) (h8 : dts1.sum ≤ 8) :
    (∃ f1 f2,
      (frames m (toggle_play (initialise base lightsA), lightsA1) dts1).getLast? = some f1 ∧
      (frames m (toggle_play (initialise base lightsA), lightsA1) dts2).getLast? = some f2 ∧
      extract_translation f1.vehicleModelMatrix = extract_translation f2.vehicleModelMatrix ∧
      extract_translation f1.vehicleModelMatrix =
        extract_translation base + trajectory_offset (clamp (dts1.sum / 8) 0 1) ∧
      f1.anim.time = f2.anim.time) ∧
    (frames m (toggle_play (initialise base lightsA), lightsA1) dts1).map
        (fun f => f.vehicleModelMatrix) =
      (frames m (toggle_play (initialise base lightsB), lightsB1) dts1).map
        (fun f => f.vehicleModelMatrix) := by
  have ht : (toggle_play (initialise base lightsA)).time = 0 := rfl
  constructor
  · obtain ⟨f1, e1, t1, c1⟩ := frames_final m dts1 (toggle_play (initialise base lightsA))
      lightsA1 h1 p1 rfl rfl (by rw [ht, zero_add]; exact h8)
    obtain ⟨f2, e2, t2, c2⟩ := frames_final m dts2 (toggle_play (initialise base lightsA))
      lightsA1 h2 p2 rfl rfl (by rw [ht, zero_add, ← hs]; exact h8)
    rw [ht, zero_add] at t1 c1 t2 c2
    refine ⟨f1, f2, e1, e2, ?_, t1, ?_⟩
    · rw [t1, t2, hs]
    · rw [c1, c2, hs]
  · exact frames_ignore_lights m dts1 _ _ _ _ ⟨rfl, rfl, rfl, rfl, rfl, rfl, rfl⟩

/-- Witness for C13 (amended): the sequences `[4]` and `[2, 2]` on the sample run, with the
lights switched off in the second run. -/
theorem frames_by_elapsed_time_witness :
    ([4] : List ℝ) ≠ [] ∧ ([2, 2] : List ℝ) ≠ [] ∧ (∀ dt ∈ ([4] : List ℝ), 0 < dt) ∧
    (∀ dt ∈ ([2, 2] : List ℝ), 0 < dt) ∧ ([4] : List ℝ).sum = ([2, 2] : List ℝ).sum ∧
    ([4] : List ℝ).sum ≤ 8 ∧
    ((∃ f1 f2,
      (frames realLibm (toggle_play (initialise kIdentity44f (sampleLights ℝ)),
        sampleLights ℝ) [4]).getLast? = some f1 ∧
      (frames realLibm (toggle_play (initialise kIdentity44f (sampleLights ℝ)),
        sampleLights ℝ) [2, 2]).getLast? = some f2 ∧
      extract_translation f1.vehicleModelMatrix = extract_translation f2.vehicleModelMatrix ∧
      extract_translation f1.vehicleModelMatrix =
        extract_translation (kIdentity44f : Mat44f ℝ) +
          trajectory_offset (clamp (([4] : List ℝ).sum / 8) 0 1) ∧
      f1.anim.time = f2.anim.time) ∧
    (frames realLibm (toggle_play (initialise kIdentity44f (sampleLights ℝ)),
        sampleLights ℝ) [4]).map (fun f => f.vehicleModelMatrix) =
      (frames realLibm (toggle_play (initialise kIdentity44f
        (fun i => { sampleLights ℝ i with enabled := false })),
        sampleLights ℝ) [4]).map (fun f => f.vehicleModelMatrix)) := by
  have p1 : ∀ dt ∈ ([4] : List ℝ), 0 < dt := by
    intro dt h; simp at h; rw [h]; norm_num
  have p2 : ∀ dt ∈ ([2, 2] : List ℝ), 0 < dt := by
    intro dt h; simp at h; rw [h]; norm_num
  exact ⟨by simp, by simp, p1, p2, by norm_num, by norm_num,
    frames_by_elapsed_time realLibm kIdentity44f (sampleLights ℝ)
      (fun i => { sampleLights ℝ i with enabled := false }) (sampleLights ℝ) (sampleLights ℝ)
      [4] [2, 2] (by simp) (by simp) p1 p2 (by norm_num) (by norm_num)⟩

end ReplayClaims

end task7

section EmittedParticleLemmas

theorem Vec3f.add_def (a b : Vec3f ℝ) : a + b = ⟨a.x + b.x, a.y + b.y, a.z + b.z⟩ := rfl

theorem dot_add_scale (T B w : Vec3f ℝ) (a b : ℝ) :
    dot (T.scale a + B.scale b) w = a * dot T w + b * dot B w := by
  simp only [Vec3f.add_def, dot, Vec3f.scale]
  ring

theorem dot_combination (T B : Vec3f ℝ) (a b : ℝ) :
    dot (T.scale a + B.scale b) (T.scale a + B.scale b) =
      a * a * dot T T + 2 * (a * b) * dot T B + b * b * dot B B := by
  simp only [Vec3f.add_def, dot, Vec3f.scale]
  ring

/-- The tangent used by the emission loop is a unit vector; it is perpendicular to a unit
`dir` when `cross(dir, (0,1,0))` is zero or longer than `1e-6`. -/
theorem emit_tangent (dir : Vec3f ℝ) :
    dot (safe_normalize realLibm (cross dir ⟨0, 1, 0⟩) ⟨1, 0, 0⟩)
      (safe_normalize realLibm (cross dir ⟨0, 1, 0⟩) ⟨1, 0, 0⟩) = 1 ∧
    ((cross dir ⟨0, 1, 0⟩ = ⟨0, 0, 0⟩ ∨
        1 / 1000000 < length realLibm (cross dir ⟨0, 1, 0⟩)) →
      dot (safe_normalize realLibm (cross dir ⟨0, 1, 0⟩) ⟨1, 0, 0⟩) dir = 0) := by
  refine ⟨safe_normalize_unit _ _ (by simp [dot]), ?_⟩
  intro hnd
  rcases safe_normalize_cases (cross dir ⟨0, 1, 0⟩) ⟨1, 0, 0⟩ with ⟨hl, h⟩ | ⟨-, h⟩
  · rw [h]
    rcases hnd with h0 | h1
    · have hx := congrArg Vec3f.z h0
      simp only [cross] at hx
      simp only [dot]
      linarith
    · exact absurd h1 (not_lt.mpr hl)
  · rw [h, dot_divide, cross_dot_left, zero_div]

/-- Squared length of the jitter is at most `0.16`, and the jitter is perpendicular to a
unit `dir` outside the fallback zone of the tangent. -/
theorem emit_jitter_bound (dir : Vec3f ℝ) (r2 r3 : ℝ) (hd : dot dir dir = 1)
    (h0 : 0 ≤ r3) (h1 : r3 ≤ 1) :
    dot (emit_jitter realLibm dir r2 r3) (emit_jitter realLibm dir r2 r3) ≤
      (4 / 10) * (4 / 10) ∧
    ((cross dir ⟨0, 1, 0⟩ = ⟨0, 0, 0⟩ ∨
        1 / 1000000 < length realLibm (cross dir ⟨0, 1, 0⟩)) →
      dot (emit_jitter realLibm dir r2 r3) dir = 0) := by
  obtain ⟨hT, hTd⟩ := emit_tangent dir
  simp only [emit_jitter]
  constructor
  · rw [dot_combination, hT, dot_comm _ (cross _ dir), cross_dot_left, cross_dot_self, hT, hd]
    have hcs : Real.cos (r2 * 2 * Real.pi) * Real.cos (r2 * 2 * Real.pi) +
        Real.sin (r2 * 2 * Real.pi) * Real.sin (r2 * 2 * Real.pi) = 1 := by
      have := Real.sin_sq_add_cos_sq (r2 * 2 * Real.pi)
      nlinarith
    generalize dot (safe_normalize realLibm (cross dir ⟨0, 1, 0⟩) ⟨1, 0, 0⟩) dir = q
    simp only [realLibm]
    generalize Real.cos (r2 * 2 * Real.pi) = c at hcs ⊢
    generalize Real.sin (r2 * 2 * Real.pi) = s at hcs ⊢
    have key : c * (r3 * (4 / 10)) * (c * (r3 * (4 / 10))) * 1 +
        2 * (c * (r3 * (4 / 10)) * (s * (r3 * (4 / 10)))) * 0 +
        s * (r3 * (4 / 10)) * (s * (r3 * (4 / 10))) * (1 * 1 - q * q) =
        (4 / 10) * (4 / 10) * (r3 * r3) * (1 - s * s * (q * q)) := by
      linear_combination (4 / 10) * (4 / 10) * (r3 * r3) * hcs
    rw [key]
    have hprod : 0 ≤ s * s * (q * q) := mul_nonneg (mul_self_nonneg s) (mul_self_nonneg q)
    have hr : r3 * r3 ≤ 1 := by nlinarith
    have hr0 : 0 ≤ r3 * r3 := mul_self_nonneg r3
    have hB : 0 ≤ (4 / 10 : ℝ) * (4 / 10) * (r3 * r3) := by positivity
    nlinarith
  · intro hnd
    rw [dot_add_scale, hTd hnd, cross_dot_right]
    ring

end EmittedParticleLemmas

section EmittedParticleClaims

theorem emitted_particle_velocity (pos dir : Vec3f ℝ) (r0 r1 r2 r3 r4 : ℝ) :
    (emitted_particle realLibm pos dir r0 r1 r2 r3 r4).velocity =
      (dir + (emit_jitter realLibm dir r2 r3).scale (2 / 10)).scale (25 + r4 * 10) := rfl

theorem dot_velocity (dir jitter : Vec3f ℝ) (speed : ℝ) :
    dot ((dir + jitter.scale (2 / 10)).scale speed) dir =
      speed * (dot dir dir + 2 / 10 * dot jitter dir) := by
  simp only [Vec3f.add_def, dot, Vec3f.scale]
  ring

/-- Properties of the particle built by one iteration of the emission loop from a unit
`dir` and draws in `[0,1]`. -/
theorem emitted_particle_spec (pos dir : Vec3f ℝ) (r0 r1 r2 r3 r4 : ℝ)
    (hd : dot dir dir = 1) (h0 : 0 ≤ r0 ∧ r0 ≤ 1) (h1 : 0 ≤ r1 ∧ r1 ≤ 1)
    (h3 : 0 ≤ r3 ∧ r3 ≤ 1) (h4 : 0 ≤ r4 ∧ r4 ≤ 1) :
    6 / 10 ≤ (emitted_particle realLibm pos dir r0 r1 r2 r3 r4).lifetime ∧
    (emitted_particle realLibm pos dir r0 r1 r2 r3 r4).lifetime ≤ 12 / 10 ∧
    8 / 10 ≤ (emitted_particle realLibm pos dir r0 r1 r2 r3 r4).size ∧
    (emitted_particle realLibm pos dir r0 r1 r2 r3 r4).size ≤ 14 / 10 ∧
    (emitted_particle realLibm pos dir r0 r1 r2 r3 r4).position = pos + dir.scale (2 / 10) ∧
    (emitted_particle realLibm pos dir r0 r1 r2 r3 r4).velocity =
      (dir + (emit_jitter realLibm dir r2 r3).scale (2 / 10)).scale (25 + r4 * 10) ∧
    25 ≤ 25 + r4 * 10 ∧ 25 + r4 * 10 ≤ 35 ∧
    length realLibm (emit_jitter realLibm dir r2 r3) ≤ 4 / 10 ∧
    ((cross dir ⟨0, 1, 0⟩ = ⟨0, 0, 0⟩ ∨
        1 / 1000000 < length realLibm (cross dir ⟨0, 1, 0⟩)) →
      dot (emit_jitter realLibm dir r2 r3) dir = 0 ∧
      dot (emitted_particle realLibm pos dir r0 r1 r2 r3 r4).velocity dir = 25 + r4 * 10) := by
  obtain ⟨hj, hjd⟩ := emit_jitter_bound dir r2 r3 hd h3.1 h3.2
  refine ⟨?_, ?_, ?_, ?_, rfl, rfl, by linarith [h4.1], by linarith [h4.2], ?_, ?_⟩
  · show (6 / 10 : ℝ) ≤ 6 / 10 + r0 * (6 / 10)
    nlinarith [h0.1]
  · show (6 / 10 : ℝ) + r0 * (6 / 10) ≤ 12 / 10
    nlinarith [h0.2]
  · show (8 / 10 : ℝ) ≤ 8 / 10 + r1 * (6 / 10)
    nlinarith [h1.1]
  · show (8 / 10 : ℝ) + r1 * (6 / 10) ≤ 14 / 10
    nlinarith [h1.2]
  · show Real.sqrt _ ≤ _
    rw [Real.sqrt_le_iff]
    refine ⟨by norm_num, ?_⟩
    rw [sq]
    exact hj
  · intro hnd
    refine ⟨hjd hnd, ?_⟩
    rw [emitted_particle_velocity, dot_velocity, hd, hjd hnd]
    ring

end EmittedParticleClaims

section EmittedParticleRun

variable {F : Type} [LinearOrderedField F] [FloorRing F]

/-- In every case `emit_particles` is the emission loop run `emitted_count` times on the
system with the fractional accumulator. -/
theorem emit_particles_eq_loop (m : Libm F) (system : ParticleSystem F)
    (emitterPos emitterDir : Vec3f F) (rate dt : F) (rand : Nat → F) :
    emit_particles m system emitterPos emitterDir rate dt rand =
      emit_loop m emitterPos (safe_normalize m emitterDir ⟨0, 0, -1⟩)
        (emitted_count system rate dt)
        { system with emitAccumulator :=
            system.emitAccumulator + rate * dt - ((toEmit system rate dt : Int) : F) }
        rand := by
  unfold emit_particles emitted_count
  by_cases hc : toEmit system rate dt ≤ 0
  · simp only [if_pos hc]
    rfl
  · simp only [if_neg hc]

end EmittedParticleRun

section EmitRangesClaim

/-- Claim C19 (amended): for random draws in `[0,1]`, every particle written by
`emit_particles` has lifetime in `[0.6, 1.2]`, size in `[0.8, 1.4]`, position
`emitterPos + 0.2 * dir` and velocity `speed * (dir + 0.2 * jitter)` with `speed` in
`[25, 35]`, `dir` the normalised direction and `jitter` of length at most `0.4`; when
`cross(dir, (0,1,0))` is zero or longer than `1e-6` (the tangent does not come from the
fallback of `safe_normalize` on a non-zero vector), `jitter` is perpendicular to `dir` and
the velocity component along `dir` equals `speed`. -/
theorem emitted_particles_ranges (system : ParticleSystem ℝ) (emitterPos emitterDir : Vec3f ℝ)
    (rate dt : ℝ) (rand : Nat → ℝ) (hh : system.head < system.pool.length)
    (hr : ∀ k, 0 ≤ rand k ∧ rand k ≤ 1) :
    dot (safe_normalize realLibm emitterDir ⟨0, 0, -1⟩)
      (safe_normalize realLibm emitterDir ⟨0, 0, -1⟩) = 1 ∧
    ∃ s1, emit_particles realLibm system emitterPos emitterDir rate dt rand = some s1 ∧
      ∀ j, ring_slots system.pool.length system.head (emitted_count system rate dt) j →
        ∃ p speed jitter, s1.pool[j]? = some p ∧
          6 / 10 ≤ p.lifetime ∧ p.lifetime ≤ 12 / 10 ∧ 8 / 10 ≤ p.size ∧ p.size ≤ 14 / 10 ∧
          p.position =
            emitterPos + (safe_normalize realLibm emitterDir ⟨0, 0, -1⟩).scale (2 / 10) ∧
          p.velocity =
            (safe_normalize realLibm emitterDir ⟨0, 0, -1⟩ + jitter.scale (2 / 10)).scale
              speed ∧
          25 ≤ speed ∧ speed ≤ 35 ∧ length realLibm jitter ≤ 4 / 10 ∧
          ((cross (safe_normalize realLibm emitterDir ⟨0, 0, -1⟩) ⟨0, 1, 0⟩ = ⟨0, 0, 0⟩ ∨
              1 / 1000000 < length realLibm
                (cross (safe_normalize realLibm emitterDir ⟨0, 0, -1⟩) ⟨0, 1, 0⟩)) →
            dot jitter (safe_normalize realLibm emitterDir ⟨0, 0, -1⟩) = 0 ∧
            dot p.velocity (safe_normalize realLibm emitterDir ⟨0, 0, -1⟩) = speed) := by
  have hd : dot (safe_normalize realLibm emitterDir ⟨0, 0, -1⟩)
      (safe_normalize realLibm emitterDir ⟨0, 0, -1⟩) = 1 :=
    safe_normalize_unit _ _ (by simp [dot])
  refine ⟨hd, ?_⟩
  rw [emit_particles_eq_loop]
  obtain ⟨s1, h0, -, h2⟩ := emit_loop_writes realLibm emitterPos
    (safe_normalize realLibm emitterDir ⟨0, 0, -1⟩) (emitted_count system rate dt)
    { system with emitAccumulator :=
        system.emitAccumulator + rate * dt - ((toEmit system rate dt : Int) : ℝ) }
    rand hh
  refine ⟨s1, h0, ?_⟩
  intro j hj
  obtain ⟨i, -, hp⟩ := (h2 j).1 hj
  obtain ⟨a1, a2, a3, a4, a5, a6, a7, a8, a9, a10⟩ := emitted_particle_spec emitterPos
    (safe_normalize realLibm emitterDir ⟨0, 0, -1⟩) (rand (5 * i)) (rand (5 * i + 1))
    (rand (5 * i + 2)) (rand (5 * i + 3)) (rand (5 * i + 4)) hd (hr _) (hr _) (hr _) (hr _)
  exact ⟨_, _, _, hp, a1, a2, a3, a4, a5, a6, a7, a8, a9, a10⟩

/-- Witness for C19 (amended): the small sample system emitting straight down (rate 7,
`dt = 1/3`, every draw `1/2`). -/
theorem emitted_particles_ranges_witness :
    (sampleBusySystem ℝ).head < (sampleBusySystem ℝ).pool.length ∧
    (∀ k : Nat, (0 : ℝ) ≤ (fun _ => 1 / 2) k ∧ (fun _ => (1 : ℝ) / 2) k ≤ 1) ∧
    (dot (safe_normalize realLibm ⟨0, -1, 0⟩ ⟨0, 0, -1⟩)
      (safe_normalize realLibm ⟨0, -1, 0⟩ ⟨0, 0, -1⟩) = 1 ∧
    ∃ s1, emit_particles realLibm (sampleBusySystem ℝ) ⟨0, 0, 0⟩ ⟨0, -1, 0⟩ 7 (1 / 3)
        (fun _ => 1 / 2) = some s1 ∧
      ∀ j, ring_slots (sampleBusySystem ℝ).pool.length (sampleBusySystem ℝ).head
          (emitted_count (sampleBusySystem ℝ) 7 (1 / 3)) j →
        ∃ p speed jitter, s1.pool[j]? = some p ∧
          6 / 10 ≤ p.lifetime ∧ p.lifetime ≤ 12 / 10 ∧ 8 / 10 ≤ p.size ∧ p.size ≤ 14 / 10 ∧
          p.position =
            ⟨0, 0, 0⟩ + (safe_normalize realLibm ⟨0, -1, 0⟩ ⟨0, 0, -1⟩).scale (2 / 10) ∧
          p.velocity =
            (safe_normalize realLibm ⟨0, -1, 0⟩ ⟨0, 0, -1⟩ + jitter.scale (2 / 10)).scale
              speed ∧
          25 ≤ speed ∧ speed ≤ 35 ∧ length realLibm jitter ≤ 4 / 10 ∧
          ((cross (safe_normalize realLibm ⟨0, -1, 0⟩ ⟨0, 0, -1⟩) ⟨0, 1, 0⟩ = ⟨0, 0, 0⟩ ∨
              1 / 1000000 < length realLibm
                (cross (safe_normalize realLibm ⟨0, -1, 0⟩ ⟨0, 0, -1⟩) ⟨0, 1, 0⟩)) →
            dot jitter (safe_normalize realLibm ⟨0, -1, 0⟩ ⟨0, 0, -1⟩) = 0 ∧
            dot p.velocity (safe_normalize realLibm ⟨0, -1, 0⟩ ⟨0, 0, -1⟩) = speed)) :=
  ⟨by decide, fun _ => ⟨by norm_num, by norm_num⟩,
    emitted_particles_ranges (sampleBusySystem ℝ) ⟨0, 0, 0⟩ ⟨0, -1, 0⟩ 7 (1 / 3)
      (fun _ => 1 / 2) (by decide) (fun _ => ⟨by norm_num, by norm_num⟩)⟩

end EmitRangesClaim

section EmitNearVertical

theorem nearVertical_unit : dot (nearVertical ℝ) (nearVertical ℝ) = 1 := by
  simp only [dot, nearVertical]
  norm_num

theorem nearVertical_dir :
    safe_normalize realLibm (nearVertical ℝ) ⟨0, 0, -1⟩ = nearVertical ℝ := by
  have hl := length_of_unit (nearVertical ℝ) nearVertical_unit
  rcases safe_normalize_cases (nearVertical ℝ) ⟨0, 0, -1⟩ with ⟨h, -⟩ | ⟨-, h⟩
  · rw [hl] at h
    norm_num at h
  · rw [h, hl]
    simp [Vec3f.divide]

theorem nearVertical_tangent :
    safe_normalize realLibm (cross (nearVertical ℝ) ⟨0, 1, 0⟩) ⟨1, 0, 0⟩ = ⟨1, 0, 0⟩ := by
  have hc : cross (nearVertical ℝ) ⟨0, 1, 0⟩ = ⟨0, 0, 4000000 / 4000000000001⟩ := by
    simp [cross, nearVertical]
  have hl : length realLibm (⟨0, 0, 4000000 / 4000000000001⟩ : Vec3f ℝ) =
      4000000 / 4000000000001 := by
    show Real.sqrt (dot _ _) = _
    have : dot (⟨0, 0, 4000000 / 4000000000001⟩ : Vec3f ℝ) ⟨0, 0, 4000000 / 4000000000001⟩ =
        (4000000 / 4000000000001) * (4000000 / 4000000000001) := by
      simp [dot]
    rw [this, Real.sqrt_mul_self (by norm_num)]
  rw [hc]
  rcases safe_normalize_cases (⟨0, 0, 4000000 / 4000000000001⟩ : Vec3f ℝ) ⟨1, 0, 0⟩ with
    ⟨-, h⟩ | ⟨h, -⟩
  · exact h
  · rw [hl] at h
    norm_num at h

theorem nearVertical_jitter :
    emit_jitter realLibm (nearVertical ℝ) 0 1 = ⟨4 / 10, 0, 0⟩ := by
  simp only [emit_jitter]
  rw [nearVertical_tangent]
  have hcos : realLibm.cos (0 * 2 * realLibm.kPi) = 1 := by
    show Real.cos (0 * 2 * Real.pi) = 1
    simp
  have hsin : realLibm.sin (0 * 2 * realLibm.kPi) = 0 := by
    show Real.sin (0 * 2 * Real.pi) = 0
    simp
  rw [hcos, hsin, Vec3f.add_def]
  simp [Vec3f.scale]

theorem sampleDraws_unit : ∀ k, 0 ≤ sampleDraws ℝ k ∧ sampleDraws ℝ k ≤ 1 := by
  intro k
  unfold sampleDraws
  split <;> norm_num

/-- Claim C19, as stated, fails for a direction within `1e-6` of vertical: with the unit
direction `nearVertical`, the small sample system and the draws `sampleDraws` (radius and
speed draws 1, all in `[0,1]`), the one particle written (slot 2) has the jitter
`(0.4, 0, 0)`, which is not perpendicular to the direction, and a velocity component along
the direction above 35, so above every admissible speed. -/
theorem emit_near_vertical_not_perpendicular :
    (∀ k, 0 ≤ sampleDraws ℝ k ∧ sampleDraws ℝ k ≤ 1) ∧
    safe_normalize realLibm (nearVertical ℝ) ⟨0, 0, -1⟩ = nearVertical ℝ ∧
    dot (emit_jitter realLibm (nearVertical ℝ) (sampleDraws ℝ 2) (sampleDraws ℝ 3))
      (nearVertical ℝ) ≠ 0 ∧
    ∃ s1 p, emit_particles realLibm (sampleBusySystem ℝ) ⟨0, 0, 0⟩ (nearVertical ℝ) 3 (1 / 3)
        (sampleDraws ℝ) = some s1 ∧
      s1.pool[2]? = some p ∧
      p.velocity =
        (nearVertical ℝ +
          (emit_jitter realLibm (nearVertical ℝ) (sampleDraws ℝ 2) (sampleDraws ℝ 3)).scale
            (2 / 10)).scale 35 ∧
      35 < dot p.velocity (nearVertical ℝ) := by
  have d2 : sampleDraws ℝ 2 = 0 := by simp [sampleDraws]
  have d3 : sampleDraws ℝ 3 = 1 := by simp [sampleDraws]
  have d4 : sampleDraws ℝ 4 = 1 := by simp [sampleDraws]
  have hjd : dot (⟨4 / 10, 0, 0⟩ : Vec3f ℝ) (nearVertical ℝ) =
      4 / 10 * (4000000 / 4000000000001) := by
    simp [dot, nearVertical]
  refine ⟨sampleDraws_unit, nearVertical_dir, ?_, ?_⟩
  · rw [d2, d3, nearVertical_jitter, hjd]
    norm_num
  · have hh : (sampleBusySystem ℝ).head < (sampleBusySystem ℝ).pool.length := by decide
    have hc : toEmit (sampleBusySystem ℝ) 3 (1 / 3) = ((1 : Nat) : Int) := by
      simp only [toEmit, sampleBusySystem]
      rw [Int.floor_eq_iff]
      constructor <;> norm_num
    rw [emit_particles_loop realLibm (sampleBusySystem ℝ) ⟨0, 0, 0⟩ (nearVertical ℝ) 3 (1 / 3)
      (sampleDraws ℝ) 1 (le_refl 1) hc, nearVertical_dir]
    obtain ⟨s1, h0, -, h2⟩ := emit_loop_writes realLibm ⟨0, 0, 0⟩ (nearVertical ℝ) 1
      { sampleBusySystem ℝ with emitAccumulator :=
          (sampleBusySystem ℝ).emitAccumulator + 3 * (1 / 3) - (((1 : Nat) : Int) : ℝ) }
      (sampleDraws ℝ) hh
    have hring : ring_slots (sampleBusySystem ℝ).pool.length (sampleBusySystem ℝ).head 1 2 := by
      decide
    obtain ⟨i, hi, hp⟩ := (h2 2).1 hring
    have hi0 : i = 0 := by omega
    subst hi0
    refine ⟨s1, _, h0, hp, ?_, ?_⟩
    · rw [emitted_particle_velocity]
      simp only [Nat.mul_zero, Nat.zero_add, d2, d3, d4]
      norm_num
    · rw [emitted_particle_velocity, dot_velocity, nearVertical_unit]
      simp only [Nat.mul_zero, Nat.zero_add, d2, d3, d4]
      rw [nearVertical_jitter, hjd]
      norm_num

end EmitNearVertical

namespace task7

section ToggleResetClaims

variable {F : Type} [LinearOrderedField F]

/-- Claim C21: `toggle_play` on an inactive state yields `active = true`, `paused = false`,
`time = 0` and `lastPos = startPos`; on an active state it only negates `paused`, leaving
`time`, `lastPos`, `active` and both transforms unchanged. -/
theorem toggle_play_spec (anim : AnimationState F) :
    (anim.active = false →
      (toggle_play anim).active = true ∧ (toggle_play anim).paused = false ∧
      (toggle_play anim).time = 0 ∧ (toggle_play anim).lastPos = anim.startPos) ∧
    (anim.active = true →
      toggle_play anim = { anim with paused := !anim.paused } ∧
      (toggle_play anim).paused = (!anim.paused) ∧
      (toggle_play anim).time = anim.time ∧ (toggle_play anim).lastPos = anim.lastPos ∧
      (toggle_play anim).active = true ∧
      (toggle_play anim).baseModel = anim.baseModel ∧
      (toggle_play anim).currentModel = anim.currentModel) := by
  constructor
  · intro h
    simp [toggle_play, h]
  · intro h
    simp [toggle_play, h]

/-- Claim C22: `reset` applied to any animation state yields `active = false`,
`paused = false`, `time = 0`, `currentModel = baseModel` and `lastPos = startPos`, and
applying it twice gives the same state as applying it once. -/
theorem reset_spec (anim : AnimationState F) :
    (reset anim).active = false ∧ (reset anim).paused = false ∧ (reset anim).time = 0 ∧
    (reset anim).currentModel = anim.baseModel ∧ (reset anim).lastPos = anim.startPos ∧
    (reset anim).baseModel = anim.baseModel ∧ (reset anim).startPos = anim.startPos ∧
    reset (reset anim) = reset anim :=
  ⟨rfl, rfl, rfl, rfl, rfl, rfl, rfl, rfl⟩

end ToggleResetClaims
end task7

section MatrixClaims

variable {F : Type} [LinearOrderedField F]

/-- Claim C25: `Mat44f` multiplication is the row-by-column product,
`result[i,j] = sum over k of left[i,k] * right[k,j]`, so for every matrix `M` both
`M * kIdentity44f` and `kIdentity44f * M` equal `M`; on the matrices of the unit test
(entries `1..16` and `17..32`) the first row of the product is `250, 260, 270, 280`. -/
theorem mul_identity (M : Mat44f F) :
    M.mul kIdentity44f = M ∧ kIdentity44f.mul M = M ∧
    (∀ (left right : Mat44f F) (i j : Fin 4),
      (left.mul right) i j = ∑ k : Fin 4, left i k * right k j) ∧
    (Mat44f.mul (fun i j => ((4 * i.val + j.val + 1 : Nat) : F))
        (fun i j => ((4 * i.val + j.val + 17 : Nat) : F)) 0 0 = 250 ∧
      Mat44f.mul (fun i j => ((4 * i.val + j.val + 1 : Nat) : F))
        (fun i j => ((4 * i.val + j.val + 17 : Nat) : F)) 3 3 = 1528) := by
  refine ⟨?_, ?_, ?_, ?_, ?_⟩
  · funext i j
    fin_cases j <;> simp [Mat44f.mul, kIdentity44f]
  · funext i j
    fin_cases i <;> simp [Mat44f.mul, kIdentity44f]
  · intro left right i j
    simp only [Mat44f.mul, Fin.sum_univ_four]
  · have h3 : ((3 : Fin 4) : Nat) = 3 := rfl
    simp only [Mat44f.mul, h3]
    norm_num
  · have h3 : ((3 : Fin 4) : Nat) = 3 := rfl
    simp only [Mat44f.mul, h3]
    norm_num

/-- Claim C26: for every offset `t` and every `Vec4f` `(x, y, z, w)`,
`make_translation(t) * (x, y, z, w) = (x + w t.x, y + w t.y, z + w t.z, w)`: points
(`w = 1`) receive the offset and direction vectors (`w = 0`) are unchanged. -/
theorem translation_mulVec (t : Vec3f F) (v : Vec4f F) :
    (make_translation t).mulVec v =
      ⟨v.x + v.w * t.x, v.y + v.w * t.y, v.z + v.w * t.z, v.w⟩ ∧
    (make_translation t).mulVec ⟨v.x, v.y, v.z, 1⟩ = ⟨v.x + t.x, v.y + t.y, v.z + t.z, 1⟩ ∧
    (make_translation t).mulVec ⟨v.x, v.y, v.z, 0⟩ = ⟨v.x, v.y, v.z, 0⟩ := by
  refine ⟨?_, ?_, ?_⟩ <;>
    simp [make_translation, Mat44f.mulVec, Mat44f.set, kIdentity44f, mul_comm]

end MatrixClaims

section RotationClaims

/-- Claim C27: `make_rotation_x`, `make_rotation_y` and `make_rotation_z` are right-handed
rotations about their axis: for every angle `a`, `rotation_x(a)` maps `(0,1,0,1)` to
`(0, cos a, sin a, 1)`, `rotation_y(a)` maps `(0,0,1,1)` to `(sin a, 0, cos a, 1)`,
`rotation_z(a)` maps `(1,0,0,1)` to `(cos a, sin a, 0, 1)`, and at `a = 0` each leaves
every vector unchanged. -/
theorem rotations_right_handed (a : ℝ) :
    (make_rotation_x realLibm a).mulVec ⟨0, 1, 0, 1⟩ = ⟨0, Real.cos a, Real.sin a, 1⟩ ∧
    (make_rotation_y realLibm a).mulVec ⟨0, 0, 1, 1⟩ = ⟨Real.sin a, 0, Real.cos a, 1⟩ ∧
    (make_rotation_z realLibm a).mulVec ⟨1, 0, 0, 1⟩ = ⟨Real.cos a, Real.sin a, 0, 1⟩ ∧
    ∀ v : Vec4f ℝ, (make_rotation_x realLibm 0).mulVec v = v ∧
      (make_rotation_y realLibm 0).mulVec v = v ∧ (make_rotation_z realLibm 0).mulVec v = v := by
  refine ⟨?_, ?_, ?_, ?_⟩
  · simp [make_rotation_x, Mat44f.mulVec, Mat44f.set, kIdentity44f, realLibm]
  · simp [make_rotation_y, Mat44f.mulVec, Mat44f.set, kIdentity44f, realLibm]
  · simp [make_rotation_z, Mat44f.mulVec, Mat44f.set, kIdentity44f, realLibm]
  · intro v
    refine ⟨?_, ?_, ?_⟩ <;>
      simp [make_rotation_x, make_rotation_y, make_rotation_z, Mat44f.mulVec, Mat44f.set,
        kIdentity44f, realLibm]

end RotationClaims

section DeterminantLemmas

theorem det_rows_frame (r f : Vec3f ℝ) :
    det_rows r f (cross f r) = dot r f * dot r f - dot r r * dot f f := by
  simp only [det_rows, cross, dot]
  ring

theorem det_rows_view (r f : Vec3f ℝ) :
    det_rows r (cross r f) (-f) = dot r r * dot f f - dot r f * dot r f := by
  show det_rows r (cross r f) (Vec3f.neg f) = _
  simp only [det_rows, cross, dot, Vec3f.neg]
  ring

end DeterminantLemmas

namespace task7

section HandednessClaim

/-- Claim C28: after every advancing `update` the determinant of the upper-left 3x3 block
of the returned vehicle transform (rows `right`, `forward`, `up = cross(forward, right)`)
is `-1`: the derived frame is left-handed, a reflection rather than a proper rotation. -/
theorem update_frame_left_handed (anim : AnimationState ℝ) (dt : ℝ)
    (lights : Fin 3 → task6.PointLight ℝ) (ha : anim.active = true)
    (hp : anim.paused = false) (hd : 0 < dt) :
    det3 (update realLibm anim dt lights).vehicleModelMatrix = -1 := by
  rw [update_advancing realLibm anim dt lights ha hd hp, advance_matrix]
  obtain ⟨r0, r1, r2⟩ := upper_rows_of_frame
    (anim.startPos + trajectory_offset (advance_u anim dt))
    (frame_right realLibm (frame_forward realLibm (advance_velocity anim dt)))
    (frame_forward realLibm (advance_velocity anim dt))
    (cross (frame_forward realLibm (advance_velocity anim dt))
      (frame_right realLibm (frame_forward realLibm (advance_velocity anim dt))))
  unfold det3
  rw [r0, r1, r2, det_rows_frame]
  have hf := frame_forward_unit (advance_velocity anim dt)
  obtain ⟨h1, -, h3, -, -⟩ :=
    frame_orthonormal (frame_forward realLibm (advance_velocity anim dt)) hf
  rw [h1, h3, hf]
  norm_num

/-- Witness for C28: the first frame of the sample run with `deltaSeconds = 4`. -/
theorem update_frame_left_handed_witness :
    (sampleStart ℝ).1.active = true ∧ (sampleStart ℝ).1.paused = false ∧ (0 : ℝ) < 4 ∧
    det3 (update realLibm (sampleStart ℝ).1 4 (sampleStart ℝ).2).vehicleModelMatrix = -1 :=
  ⟨rfl, rfl, by norm_num,
    update_frame_left_handed (sampleStart ℝ).1 4 (sampleStart ℝ).2 rfl rfl (by norm_num)⟩

end HandednessClaim
end task7

namespace task8

section ViewLemmas

variable {F : Type} [LinearOrderedField F]

/-- In every mode `compute_camera_view` is `view_of_basis` on the mode's forward vector and
camera position, with `right = safe_normalize(cross(forward, (0,1,0)), (1,0,0))` and
`up = cross(right, forward)`. -/
theorem compute_camera_view_eq (m : Libm F) (cam : TrackingCamera F) (freeCam : Camera F)
    (rocketModel : Mat44f F) :
    compute_camera_view m cam freeCam rocketModel =
      view_of_basis
        (safe_normalize m (cross (camera_forward m cam freeCam rocketModel) ⟨0, 1, 0⟩) ⟨1, 0, 0⟩)
        (cross
          (safe_normalize m (cross (camera_forward m cam freeCam rocketModel) ⟨0, 1, 0⟩)
            ⟨1, 0, 0⟩)
          (camera_forward m cam freeCam rocketModel))
        (camera_forward m cam freeCam rocketModel)
        (camera_position cam freeCam rocketModel) := by
  cases h : cam.mode <;>
    simp only [compute_camera_view, camera_forward, camera_position, h] <;> rfl

theorem view_of_basis_rows (right up forward camPos : Vec3f F) :
    task7.upper_row (view_of_basis right up forward camPos) 0 = right ∧
    task7.upper_row (view_of_basis right up forward camPos) 1 = up ∧
    task7.upper_row (view_of_basis right up forward camPos) 2 = -forward ∧
    view_of_basis right up forward camPos 0 3 = -dot right camPos ∧
    view_of_basis right up forward camPos 1 3 = -dot up camPos ∧
    view_of_basis right up forward camPos 2 3 = dot forward camPos := by
  refine ⟨?_, ?_, ?_, ?_, ?_, ?_⟩
  · simp [task7.upper_row, view_of_basis, Mat44f.set, kIdentity44f]
  · simp [task7.upper_row, view_of_basis, Mat44f.set, kIdentity44f]
  · show _ = Vec3f.neg forward
    simp [task7.upper_row, view_of_basis, Mat44f.set, kIdentity44f, Vec3f.neg]
  · simp [view_of_basis, Mat44f.set, kIdentity44f]
  · simp [view_of_basis, Mat44f.set, kIdentity44f]
  · simp [view_of_basis, Mat44f.set, kIdentity44f]

end ViewLemmas

end task8

namespace task8

section ViewClaims

theorem dot_neg_neg (a b : Vec3f ℝ) : dot (-a) (-b) = dot a b := by
  show dot (Vec3f.neg a) (Vec3f.neg b) = _
  simp only [dot, Vec3f.neg]
  ring

theorem dot_neg_right (a b : Vec3f ℝ) : dot a (-b) = -dot a b := by
  show dot a (Vec3f.neg b) = _
  simp only [dot, Vec3f.neg]
  ring

theorem dot_neg_left (a b : Vec3f ℝ) : dot (-a) b = -dot a b := by
  show dot (Vec3f.neg a) b = _
  simp only [dot, Vec3f.neg]
  ring

theorem camera_forward_unit (cam : TrackingCamera ℝ) (freeCam : Camera ℝ)
    (rocketModel : Mat44f ℝ) :
    dot (camera_forward realLibm cam freeCam rocketModel)
      (camera_forward realLibm cam freeCam rocketModel) = 1 := by
  have hup : dot (⟨0, 1, 0⟩ : Vec3f ℝ) ⟨0, 1, 0⟩ = 1 := by simp [dot]
  cases h : cam.mode <;> simp only [camera_forward, compute_forward_vector, h] <;>
    exact safe_normalize_unit _ _ hup

/-- With `forward` a unit vector whose cross product with `(0,1,0)` is longer than `1e-6`,
the vectors `right`, `up = cross(right, forward)` and `forward` of the view construction
are orthonormal. -/
theorem view_basis_orthonormal (forward : Vec3f ℝ) (hf : dot forward forward = 1)
    (hv : 1 / 1000000 < length realLibm (cross forward ⟨0, 1, 0⟩)) :
    safe_normalize realLibm (cross forward ⟨0, 1, 0⟩) ⟨1, 0, 0⟩ =
      (cross forward ⟨0, 1, 0⟩).divide (length realLibm (cross forward ⟨0, 1, 0⟩)) ∧
    dot (safe_normalize realLibm (cross forward ⟨0, 1, 0⟩) ⟨1, 0, 0⟩)
      (safe_normalize realLibm (cross forward ⟨0, 1, 0⟩) ⟨1, 0, 0⟩) = 1 ∧
    dot (safe_normalize realLibm (cross forward ⟨0, 1, 0⟩) ⟨1, 0, 0⟩) forward = 0 ∧
    dot (cross (safe_normalize realLibm (cross forward ⟨0, 1, 0⟩) ⟨1, 0, 0⟩) forward)
      (cross (safe_normalize realLibm (cross forward ⟨0, 1, 0⟩) ⟨1, 0, 0⟩) forward) = 1 := by
  have hr : safe_normalize realLibm (cross forward ⟨0, 1, 0⟩) ⟨1, 0, 0⟩ =
      (cross forward ⟨0, 1, 0⟩).divide (length realLibm (cross forward ⟨0, 1, 0⟩)) := by
    rcases safe_normalize_cases (cross forward ⟨0, 1, 0⟩) ⟨1, 0, 0⟩ with ⟨hl, -⟩ | ⟨-, h⟩
    · exact absurd hv (not_lt.mpr hl)
    · exact h
  have h1 : dot (safe_normalize realLibm (cross forward ⟨0, 1, 0⟩) ⟨1, 0, 0⟩)
      (safe_normalize realLibm (cross forward ⟨0, 1, 0⟩) ⟨1, 0, 0⟩) = 1 :=
    safe_normalize_unit _ _ (by simp [dot])
  have h2 : dot (safe_normalize realLibm (cross forward ⟨0, 1, 0⟩) ⟨1, 0, 0⟩) forward = 0 := by
    rw [hr, dot_divide, cross_dot_left, zero_div]
  refine ⟨hr, h1, h2, ?_⟩
  rw [cross_dot_self, h1, hf, h2]
  norm_num

/-- Claim C24: in each of the three modes, when the cross product of the (unit) forward
direction with `(0,1,0)` is longer than `1e-6` (forward is not within `1e-6` of vertical),
the upper-left 3x3 block of the view matrix has rows `right`, `up`, `-forward` that are
orthonormal with determinant `+1`, and the translation column holds the negated dot
product of each row with the camera position. -/
theorem view_matrix_right_handed (cam : TrackingCamera ℝ) (freeCam : Camera ℝ)
    (rocketModel : Mat44f ℝ)
    (hv : 1 / 1000000 < length realLibm
      (cross (camera_forward realLibm cam freeCam rocketModel) ⟨0, 1, 0⟩)) :
    dot (camera_forward realLibm cam freeCam rocketModel)
      (camera_forward realLibm cam freeCam rocketModel) = 1 ∧
    task7.upper_row (compute_camera_view realLibm cam freeCam rocketModel) 0 =
      (cross (camera_forward realLibm cam freeCam rocketModel) ⟨0, 1, 0⟩).divide
        (length realLibm (cross (camera_forward realLibm cam freeCam rocketModel) ⟨0, 1, 0⟩)) ∧
    task7.upper_row (compute_camera_view realLibm cam freeCam rocketModel) 1 =
      cross (task7.upper_row (compute_camera_view realLibm cam freeCam rocketModel) 0)
        (camera_forward realLibm cam freeCam rocketModel) ∧
    task7.upper_row (compute_camera_view realLibm cam freeCam rocketModel) 2 =
      -camera_forward realLibm cam freeCam rocketModel ∧
    (∀ i : Fin 3,
      dot (task7.upper_row (compute_camera_view realLibm cam freeCam rocketModel) i.castSucc)
        (task7.upper_row (compute_camera_view realLibm cam freeCam rocketModel) i.castSucc)
        = 1) ∧
    dot (task7.upper_row (compute_camera_view realLibm cam freeCam rocketModel) 0)
      (task7.upper_row (compute_camera_view realLibm cam freeCam rocketModel) 1) = 0 ∧
    dot (task7.upper_row (compute_camera_view realLibm cam freeCam rocketModel) 0)
      (task7.upper_row (compute_camera_view realLibm cam freeCam rocketModel) 2) = 0 ∧
    dot (task7.upper_row (compute_camera_view realLibm cam freeCam rocketModel) 1)
      (task7.upper_row (compute_camera_view realLibm cam freeCam rocketModel) 2) = 0 ∧
    task7.det3 (compute_camera_view realLibm cam freeCam rocketModel) = 1 ∧
    (∀ i : Fin 3,
      compute_camera_view realLibm cam freeCam rocketModel i.castSucc 3 =
        -dot (task7.upper_row (compute_camera_view realLibm cam freeCam rocketModel) i.castSucc)
          (camera_position cam freeCam rocketModel)) := by
  have hf := camera_forward_unit cam freeCam rocketModel
  obtain ⟨hr, h1, h2, h3⟩ :=
    view_basis_orthonormal (camera_forward realLibm cam freeCam rocketModel) hf hv
  have hV := compute_camera_view_eq realLibm cam freeCam rocketModel
  obtain ⟨r0, r1, r2, t0, t1, t2⟩ := view_of_basis_rows
    (safe_normalize realLibm (cross (camera_forward realLibm cam freeCam rocketModel) ⟨0, 1, 0⟩)
      ⟨1, 0, 0⟩)
    (cross
      (safe_normalize realLibm (cross (camera_forward realLibm cam freeCam rocketModel) ⟨0, 1, 0⟩)
        ⟨1, 0, 0⟩)
      (camera_forward realLibm cam freeCam rocketModel))
    (camera_forward realLibm cam freeCam rocketModel)
    (camera_position cam freeCam rocketModel)
  rw [← hV] at r0 r1 r2 t0 t1 t2
  unfold task7.det3
  rw [r0, r1, r2]
  refine ⟨hf, hr, rfl, rfl, ?_, ?_, ?_, ?_, ?_, ?_⟩
  · intro i
    fin_cases i
    · show dot (task7.upper_row _ 0) (task7.upper_row _ 0) = 1
      rw [r0]; exact h1
    · show dot (task7.upper_row _ 1) (task7.upper_row _ 1) = 1
      rw [r1]; exact h3
    · show dot (task7.upper_row _ 2) (task7.upper_row _ 2) = 1
      rw [r2, dot_neg_neg]; exact hf
  · rw [dot_comm, cross_dot_left]
  · rw [dot_neg_right, h2, neg_zero]
  · rw [dot_neg_right, cross_dot_right, neg_zero]
  · rw [det_rows_view, h1, hf, h2]
    norm_num
  · intro i
    fin_cases i
    · show compute_camera_view realLibm cam freeCam rocketModel 0 3 =
        -dot (task7.upper_row _ 0) _
      rw [r0, t0]
    · show compute_camera_view realLibm cam freeCam rocketModel 1 3 =
        -dot (task7.upper_row _ 1) _
      rw [r1, t1]
    · show compute_camera_view realLibm cam freeCam rocketModel 2 3 =
        -dot (task7.upper_row _ 2) _
      rw [r2, t2, dot_neg_left, neg_neg]

end ViewClaims

end task8

namespace task8

section LookAtClaims

/-- The sample Ground camera looking at a vehicle at the origin: the camera is 1e-6 away
from the vehicle and its forward direction is horizontal. -/
theorem sampleGround_ready :
    (sampleGroundCamera ℝ).mode = CameraMode.Ground ∧
    1 / 1000000 < length realLibm
      (rocket_world_pos (kIdentity44f : Mat44f ℝ) -
        camera_position (sampleGroundCamera ℝ) (sampleFreeCamera ℝ) kIdentity44f) ∧
    1 / 1000000 < length realLibm
      (cross (camera_forward realLibm (sampleGroundCamera ℝ) (sampleFreeCamera ℝ) kIdentity44f)
        ⟨0, 1, 0⟩) := by
  have hw : rocket_world_pos (kIdentity44f : Mat44f ℝ) -
      camera_position (sampleGroundCamera ℝ) (sampleFreeCamera ℝ) kIdentity44f =
      ⟨30, 0, -20⟩ := by
    show Vec3f.sub _ _ = _
    simp [Vec3f.sub, rocket_world_pos, camera_position, sampleGroundCamera,
      TrackingCamera.fresh, kIdentity44f]
  have hd : 1 / 1000000 < length realLibm (⟨30, 0, -20⟩ : Vec3f ℝ) :=
    length_large _ (by simp only [dot]; norm_num)
  refine ⟨rfl, by rw [hw]; exact hd, ?_⟩
  have hfwd : camera_forward realLibm (sampleGroundCamera ℝ) (sampleFreeCamera ℝ) kIdentity44f =
      (⟨30, 0, -20⟩ : Vec3f ℝ).divide (length realLibm (⟨30, 0, -20⟩ : Vec3f ℝ)) := by
    show safe_normalize realLibm (rocket_world_pos (kIdentity44f : Mat44f ℝ) -
      camera_position (sampleGroundCamera ℝ) (sampleFreeCamera ℝ) kIdentity44f) ⟨0, 1, 0⟩ = _
    rw [hw]
    rcases safe_normalize_cases (⟨30, 0, -20⟩ : Vec3f ℝ) ⟨0, 1, 0⟩ with ⟨hl, -⟩ | ⟨-, h⟩
    · exact absurd hd (not_lt.mpr hl)
    · exact h
  have hf := camera_forward_unit (sampleGroundCamera ℝ) (sampleFreeCamera ℝ) kIdentity44f
  apply length_large
  rw [cross_dot_self, hf]
  have hup : dot (camera_forward realLibm (sampleGroundCamera ℝ) (sampleFreeCamera ℝ)
      kIdentity44f) ⟨0, 1, 0⟩ = 0 := by
    rw [hfwd]
    simp [dot, Vec3f.divide]
  rw [hup]
  simp only [dot]
  norm_num

/-- Witness for C24: the sample Ground camera looking at a vehicle at the origin. -/
theorem view_matrix_right_handed_witness :
    1 / 1000000 < length realLibm
      (cross (camera_forward realLibm (sampleGroundCamera ℝ) (sampleFreeCamera ℝ) kIdentity44f)
        ⟨0, 1, 0⟩) ∧
    task7.det3
      (compute_camera_view realLibm (sampleGroundCamera ℝ) (sampleFreeCamera ℝ) kIdentity44f) =
        1 :=
  ⟨sampleGround_ready.2.2,
    (view_matrix_right_handed (sampleGroundCamera ℝ) (sampleFreeCamera ℝ) kIdentity44f
      sampleGround_ready.2.2).2.2.2.2.2.2.2.2.1⟩

end LookAtClaims

end task8

namespace task7

section ReplayAfterCompletion

variable {F : Type} [LinearOrderedField F]

/-- Two controller states that agree on everything but `currentModel` and the `lights`
array, and that are advancing (active and not paused) unless `currentModel` agrees too,
give for a positive time step the same transform, the same light positions, and states
that agree on every field. -/
theorem update_replay (m : Libm F) (a b : AnimationState F) (dt : F)
    (la lb : Fin 3 → task6.PointLight F) (hd : 0 < dt)
    (h : a.active = b.active ∧ a.paused = b.paused ∧ a.time = b.time ∧
      a.startPos = b.startPos ∧ a.lastPos = b.lastPos ∧ a.baseModel = b.baseModel ∧
      a.lightOffsets = b.lightOffsets)
    (hc : a.currentModel = b.currentModel ∨ (a.active = true ∧ a.paused = false)) :
    (update m a dt la).vehicleModelMatrix = (update m b dt lb).vehicleModelMatrix ∧
    (∀ i, ((update m a dt la).lights i).position = ((update m b dt lb).lights i).position) ∧
    ((update m a dt la).anim.active = (update m b dt lb).anim.active ∧
      (update m a dt la).anim.paused = (update m b dt lb).anim.paused ∧
      (update m a dt la).anim.time = (update m b dt lb).anim.time ∧
      (update m a dt la).anim.startPos = (update m b dt lb).anim.startPos ∧
      (update m a dt la).anim.lastPos = (update m b dt lb).anim.lastPos ∧
      (update m a dt la).anim.baseModel = (update m b dt lb).anim.baseModel ∧
      (update m a dt la).anim.lightOffsets = (update m b dt lb).anim.lightOffsets) ∧
    (update m a dt la).anim.currentModel = (update m b dt lb).anim.currentModel := by
  obtain ⟨h1, h2, h3, h4, h5, h6, h7⟩ := h
  cases ha : a.active
  · have hb : b.active = false := by rw [← h1]; exact ha
    rw [update_frozen m a dt la (Or.inl ha), update_frozen m b dt lb (Or.inl hb)]
    refine ⟨h6, ?_, ⟨h1, h2, h3, h4, h5, h6, h7⟩, h6⟩
    intro i
    simp only [place_lights, h6, h7]
  · have hb : b.active = true := by rw [← h1]; exact ha
    cases hq : a.paused
    · have hqb : b.paused = false := by rw [← h2]; exact hq
      rw [update_advancing m a dt la ha hd hq, update_advancing m b dt lb hb hd hqb]
      have hu : advance_u a dt = advance_u b dt := by unfold advance_u; rw [h3]
      have hv : advance_velocity a dt = advance_velocity b dt := by
        unfold advance_velocity; rw [hu, h4, h5]
      have hM : (advance m a dt la).vehicleModelMatrix =
          (advance m b dt lb).vehicleModelMatrix := by
        rw [advance_matrix, advance_matrix, hu, hv, h4]
      refine ⟨hM, ?_, ⟨?_, ?_, ?_, ?_, ?_, ?_, ?_⟩, ?_⟩
      · intro i
        rw [advance_lights, advance_lights]
        simp only [place_lights, hu, h4, h7]
      · rw [advance_active, advance_active, hu, h1]
      · rw [advance_paused, advance_paused, hu, h2]
      · rw [advance_time, advance_time, h3]
      · rw [(advance_fixed m a dt la).2.1, (advance_fixed m b dt lb).2.1, h4]
      · rw [advance_lastPos, advance_lastPos, hu, h4]
      · rw [(advance_fixed m a dt la).1, (advance_fixed m b dt lb).1, h6]
      · rw [(advance_fixed m a dt la).2.2, (advance_fixed m b dt lb).2.2, h7]
      · rw [advance_currentModel, advance_currentModel, hM]
    · have hqb : b.paused = true := by rw [← h2]; exact hq
      have hcm : a.currentModel = b.currentModel := by
        rcases hc with hc | ⟨-, hc⟩
        · exact hc
        · rw [hq] at hc; exact absurd hc (by decide)
      rw [update_paused m a dt la ha hd hq, update_paused m b dt lb hb hd hqb]
      refine ⟨hcm, ?_, ⟨h1, h2, h3, h4, h5, h6, h7⟩, hcm⟩
      intro i
      simp only [place_lights, hcm, h7]

theorem frames_replay (m : Libm F) (dts : List F) :
    ∀ (a b : AnimationState F) (la lb : Fin 3 → task6.PointLight F),
      (∀ dt ∈ dts, 0 < dt) →
      (a.active = b.active ∧ a.paused = b.paused ∧ a.time = b.time ∧
        a.startPos = b.startPos ∧ a.lastPos = b.lastPos ∧ a.baseModel = b.baseModel ∧
        a.lightOffsets = b.lightOffsets) →
      (a.currentModel = b.currentModel ∨ (a.active = true ∧ a.paused = false)) →
      (frames m (a, la) dts).map
          (fun f => (f.vehicleModelMatrix, fun i => (f.lights i).position)) =
        (frames m (b, lb) dts).map
          (fun f => (f.vehicleModelMatrix, fun i => (f.lights i).position)) := by
  induction dts with
  | nil => intro a b la lb _ _ _; rfl
  | cons dt rest ih =>
    intro a b la lb hpos h hc
    obtain ⟨hM, hL, hst, hcm⟩ :=
      update_replay m a b dt la lb (hpos dt (List.mem_cons_self _ _)) h hc
    simp only [frames, List.map_cons]
    rw [hM, ih _ _ _ _ (fun x hx => hpos x (List.mem_cons_of_mem _ hx)) hst (Or.inl hcm)]
    have hfun : (fun i => ((update m a dt la).lights i).position) =
        (fun i => ((update m b dt lb).lights i).position) := funext hL
    rw [hfun]

/-- Claim C29: from any state reachable from `initialise` in which the controller is
inactive (in particular after a run has completed and auto-deactivated, with or without
inactive updates in between), `toggle_play` followed by a sequence of positive
`deltaSeconds` produces exactly the same sequence of transforms and light positions as
that sequence does from the freshly initialised, toggled-play state. -/
theorem replay_after_completion (m : Libm F) (base : Mat44f F)
    (lights0 : Fin 3 → task6.PointLight F)
    (st : AnimationState F × (Fin 3 → task6.PointLight F))
    (hr : Reachable m base lights0 st) (hi : st.1.active = false) (dts : List F)
    (hpos : ∀ dt ∈ dts, 0 < dt) :
    (frames m (toggle_play st.1, st.2) dts).map
        (fun f => (f.vehicleModelMatrix, fun i => (f.lights i).position)) =
      (frames m (toggle_play (initialise base lights0), lights0) dts).map
        (fun f => (f.vehicleModelMatrix, fun i => (f.lights i).position)) := by
  obtain ⟨hb, hs, hl, -⟩ := reachable_keeps m base lights0 st hr
  apply frames_replay m dts _ _ _ _ hpos
  · simp only [toggle_play, hi]
    exact ⟨rfl, rfl, rfl, hs, hs, hb, hl⟩
  · right
    simp [toggle_play, hi]

/-- Witness for C29: the sample run completed by `update(8)`, one inactive frame, then the
replay of the frames `[4, 4]`. -/
theorem replay_after_completion_witness :
    Reachable realLibm kIdentity44f (sampleLights ℝ)
      (run realLibm (initialise kIdentity44f (sampleLights ℝ), sampleLights ℝ)
        [Op.toggle_play, Op.update 8, Op.update 1]) ∧
    (run realLibm (initialise kIdentity44f (sampleLights ℝ), sampleLights ℝ)
      [Op.toggle_play, Op.update 8, Op.update 1]).1.active = false ∧
    (∀ dt ∈ ([4, 4] : List ℝ), 0 < dt) ∧
    (frames realLibm
        (toggle_play (run realLibm (initialise kIdentity44f (sampleLights ℝ), sampleLights ℝ)
          [Op.toggle_play, Op.update 8, Op.update 1]).1,
         (run realLibm (initialise kIdentity44f (sampleLights ℝ), sampleLights ℝ)
          [Op.toggle_play, Op.update 8, Op.update 1]).2) [4, 4]).map
        (fun f => (f.vehicleModelMatrix, fun i => (f.lights i).position)) =
      (frames realLibm
        (toggle_play (initialise kIdentity44f (sampleLights ℝ)), sampleLights ℝ) [4, 4]).map
        (fun f => (f.vehicleModelMatrix, fun i => (f.lights i).position)) := by
  have hi : (run realLibm (initialise kIdentity44f (sampleLights ℝ), sampleLights ℝ)
      [Op.toggle_play, Op.update 8, Op.update 1]).1.active = false := by
    have hrun : run realLibm (initialise kIdentity44f (sampleLights ℝ), sampleLights ℝ)
        [Op.toggle_play, Op.update 8, Op.update 1] =
        ((update realLibm (update realLibm (sampleStart ℝ).1 8 (sampleStart ℝ).2).anim 1
            (update realLibm (sampleStart ℝ).1 8 (sampleStart ℝ).2).lights).anim,
          (update realLibm (update realLibm (sampleStart ℝ).1 8 (sampleStart ℝ).2).anim 1
            (update realLibm (sampleStart ℝ).1 8 (sampleStart ℝ).2).lights).lights) := rfl
    rw [hrun]
    have hdone := (sampleStart_update_eight realLibm).1
    rw [update_frozen realLibm _ 1 _ (Or.inl hdone)]
    exact hdone
  have hpos : ∀ dt ∈ ([4, 4] : List ℝ), 0 < dt := by
    intro dt h
    simp at h
    rw [h]
    norm_num
  exact ⟨⟨_, rfl⟩, hi, hpos,
    replay_after_completion realLibm kIdentity44f (sampleLights ℝ) _ ⟨_, rfl⟩ hi [4, 4] hpos⟩

end ReplayAfterCompletion

end task7

section CursorClaims

variable {F : Type} [LinearOrderedField F] [FloorRing F]

/-- On an empty pool an emit of at least one particle is undefined, while
`update_particles` returns at once. -/
theorem emit_empty_pool (m : Libm F) (system0 : ParticleSystem F) (vao vbo : Nat)
    (emitterPos emitterDir : Vec3f F) (rand : Nat → F) :
    emit_particles m (init_particle_system system0 0 vao vbo) emitterPos emitterDir 1 1 rand =
      none ∧
    update_particles (init_particle_system system0 0 vao vbo) 1 =
      init_particle_system system0 0 vao vbo := by
  constructor
  · have hc : toEmit (init_particle_system system0 0 vao vbo) 1 1 = ((1 : Nat) : Int) := by
      simp only [toEmit, init_particle_system]
      rw [Int.floor_eq_iff]
      constructor <;> norm_num
    rw [emit_particles_loop m _ emitterPos emitterDir 1 1 rand 1 (le_refl 1) hc]
    simp [emit_loop, emit_one, init_particle_system]
  · simp [update_particles, init_particle_system]

/-- Claim C30: for a particle system initialised with capacity `N > 0`, after any sequence
of calls the cursor satisfies `head < N` with the pool still of size `N`, every
`emit_particles` call (any rate and dt) is then defined, i.e. each of its writes uses an
index inside the pool and a non-zero modulus, and it leaves `head < N` again; with an
empty pool an emit of one particle is undefined, whereas `update_particles` is guarded. -/
theorem emit_cursor_in_bounds (m : Libm F) (system0 : ParticleSystem F)
    (capacity vao vbo : Nat) (hN : 0 < capacity) (ops : List (ParticleOp F))
    (emitterPos emitterDir : Vec3f F) (rate dt : F) (rand : Nat → F) :
    (∃ s1, particle_run m (init_particle_system system0 capacity vao vbo) ops = some s1 ∧
      s1.head < capacity ∧ s1.pool.length = capacity ∧
      ∃ s2, emit_particles m s1 emitterPos emitterDir rate dt rand = some s2 ∧
        s2.head < capacity ∧ s2.pool.length = capacity) ∧
    emit_particles m (init_particle_system system0 0 vao vbo) emitterPos emitterDir 1 1 rand =
      none ∧
    update_particles (init_particle_system system0 0 vao vbo) 1 =
      init_particle_system system0 0 vao vbo := by
  refine ⟨?_, emit_empty_pool m system0 vao vbo emitterPos emitterDir rand⟩
  obtain ⟨hl, -, -, hh, -⟩ := init_particle_system_spec system0 capacity vao vbo
  obtain ⟨s1, h0, h1, h2, -, -⟩ := particle_run_keeps m ops
    (init_particle_system system0 capacity vao vbo) (by rw [hl, hh]; exact hN)
  have hlen : s1.pool.length = capacity := h1.trans hl
  obtain ⟨s2, e0, e1, e2, -, -, -, -⟩ :=
    emit_particles_defined m s1 emitterPos emitterDir rate dt rand h2
  refine ⟨s1, h0, by rw [← hlen]; exact h2, hlen, s2, e0, ?_, e1.trans hlen⟩
  rw [← hlen, ← e1]
  exact e2

/-- Witness for C30: the pool of `kMaxParticles` slots after the sample frame of particle
calls, then an emit of 5000 particles. -/
theorem emit_cursor_in_bounds_witness :
    0 < kMaxParticles ∧
    ((∃ s1, particle_run realLibm (init_particle_system ParticleSystem.fresh kMaxParticles 1 1)
        (sampleParticleOps ℝ) = some s1 ∧
      s1.head < kMaxParticles ∧ s1.pool.length = kMaxParticles ∧
      ∃ s2, emit_particles realLibm s1 ⟨0, 0, 0⟩ ⟨0, -1, 0⟩ 10000 (1 / 2) (fun _ => 1 / 2) =
          some s2 ∧
        s2.head < kMaxParticles ∧ s2.pool.length = kMaxParticles) ∧
    emit_particles realLibm (init_particle_system ParticleSystem.fresh 0 1 1) ⟨0, 0, 0⟩
      ⟨0, -1, 0⟩ 1 1 (fun _ => 1 / 2) = none ∧
    update_particles (init_particle_system (ParticleSystem.fresh : ParticleSystem ℝ) 0 1 1) 1 =
      init_particle_system ParticleSystem.fresh 0 1 1) :=
  ⟨by decide,
    emit_cursor_in_bounds realLibm ParticleSystem.fresh kMaxParticles 1 1 (by decide)
      (sampleParticleOps ℝ) ⟨0, 0, 0⟩ ⟨0, -1, 0⟩ 10000 (1 / 2) (fun _ => 1 / 2)⟩

end CursorClaims

section ListIndexLemmas

/-- An element of `l` that satisfies `p` appears in `l.filter p` at the position given by
the number of elements satisfying `p` before it. -/
theorem filter_index_countP {α : Type} (p : α → Bool) :
    ∀ (l : List α) (j : Nat) (x : α), l[j]? = some x → p x = true →
      (l.filter p)[(l.take j).countP p]? = some x := by
  intro l
  induction l with
  | nil => intro j x h; simp at h
  | cons a t ih =>
    intro j x h hx
    cases j with
    | zero =>
      simp only [List.getElem?_cons_zero, Option.some.injEq] at h
      subst h
      simp [List.filter_cons, hx]
    | succ j =>
      simp only [List.getElem?_cons_succ] at h
      have hi := ih j x h hx
      cases ha : p a
      · simp [List.filter_cons, ha, List.take_succ_cons, hi]
      · simp [List.filter_cons, ha, List.take_succ_cons, hi]

/-- A list whose elements satisfy `p` exactly at the positions below `k` has `k` elements
satisfying `p`. -/
theorem countP_of_prefix {α : Type} (p : α → Bool) :
    ∀ (l : List α) (k : Nat), k ≤ l.length →
      (∀ j x, l[j]? = some x → (p x = true ↔ j < k)) → l.countP p = k := by
  intro l
  induction l with
  | nil =>
    intro k hk _
    simp only [List.length_nil, Nat.le_zero] at hk
    simp [hk]
  | cons a t ih =>
    intro k hk h
    cases k with
    | zero =>
      have ha : ¬ (p a = true) := fun hp => by
        have := (h 0 a (by simp)).mp hp
        omega
      have ht := ih 0 (Nat.zero_le _) (fun j x hj => by
        have := h (j + 1) x (by simpa using hj)
        constructor
        · intro hp; have := this.mp hp; omega
        · intro hlt; omega)
      rw [List.countP_cons_of_neg _ _ ha, ht]
    | succ k =>
      have ha : p a = true := (h 0 a (by simp)).mpr (by omega)
      have ht := ih k (by simpa using hk) (fun j x hj => by
        have := h (j + 1) x (by simpa using hj)
        constructor
        · intro hp; have := this.mp hp; omega
        · intro hlt; exact this.mpr (by omega))
      rw [List.countP_cons_of_pos _ _ ha, ht]

theorem ring_slots_add (N h a b j : Nat) :
    ring_slots N h (a + b) j ↔ (ring_slots N h a j ∨ ring_slots N ((h + a) % N) b j) := by
  unfold ring_slots
  constructor
  · rintro ⟨i, hi, hj⟩
    by_cases hia : i < a
    · exact Or.inl ⟨i, hia, hj⟩
    · right
      refine ⟨i - a, by omega, ?_⟩
      rw [Nat.mod_add_mod, ← hj]
      congr 1
      omega
  · rintro (⟨i, hi, hj⟩ | ⟨i, hi, hj⟩)
    · exact ⟨i, by omega, hj⟩
    · refine ⟨a + i, by omega, ?_⟩
      rw [← hj, Nat.mod_add_mod]
      congr 1
      omega

theorem ring_slots_zero (N k j : Nat) (hj : j < N) :
    ring_slots N 0 k j ↔ j < min k N := by
  unfold ring_slots
  constructor
  · rintro ⟨i, hi, e⟩
    rw [Nat.zero_add] at e
    have : i % N ≤ i := Nat.mod_le i N
    exact lt_min (by omega) hj
  · intro h
    have hk : j < k := lt_of_lt_of_le h (min_le_left _ _)
    exact ⟨j, hk, by rw [Nat.zero_add, Nat.mod_eq_of_lt hj]⟩

end ListIndexLemmas

section EmitWriteLemmas

variable {F : Type} [LinearOrderedField F] [FloorRing F]

/-- One call of `emit_particles` with the cursor inside the pool: the cursor advances by
the number of loop iterations modulo the capacity, every slot visited by the loop holds the
particle built by one of the iterations, and every other slot is as before. -/
theorem emit_particles_writes (m : Libm F) (system : ParticleSystem F)
    (emitterPos emitterDir : Vec3f F) (rate dt : F) (rand : Nat → F)
    (hh : system.head < system.pool.length) :
    ∃ s1, emit_particles m system emitterPos emitterDir rate dt rand = some s1 ∧
      s1.pool.length = system.pool.length ∧ s1.head < s1.pool.length ∧
      s1.head = (system.head + emitted_count system rate dt) % system.pool.length ∧
      ∀ j,
        (ring_slots system.pool.length system.head (emitted_count system rate dt) j →
          ∃ i, i < emitted_count system rate dt ∧
            s1.pool[j]? = some (emitted_particle m emitterPos
              (safe_normalize m emitterDir ⟨0, 0, -1⟩)
              (rand (5 * i)) (rand (5 * i + 1)) (rand (5 * i + 2)) (rand (5 * i + 3))
              (rand (5 * i + 4)))) ∧
        (¬ ring_slots system.pool.length system.head (emitted_count system rate dt) j →
          s1.pool[j]? = system.pool[j]?) := by
  rw [emit_particles_eq_loop]
  obtain ⟨s1, h0, h1, h2⟩ := emit_loop_writes m emitterPos
    (safe_normalize m emitterDir ⟨0, 0, -1⟩) (emitted_count system rate dt)
    { system with emitAccumulator :=
        system.emitAccumulator + rate * dt - ((toEmit system rate dt : Int) : F) }
    rand hh
  obtain ⟨s2, g0, g1, g2, -⟩ := emit_loop_defined m emitterPos
    (safe_normalize m emitterDir ⟨0, 0, -1⟩) (emitted_count system rate dt)
    { system with emitAccumulator :=
        system.emitAccumulator + rate * dt - ((toEmit system rate dt : Int) : F) }
    rand hh
  have hs : s2 = s1 := Option.some.inj (g0.symm.trans h0)
  subst hs
  exact ⟨s2, h0, g1, g2, h1, h2⟩

theorem emitted_count_eq_max (system : ParticleSystem F) (rate dt : F) :
    emitted_count system rate dt = (max 0 ⌊system.emitAccumulator + rate * dt⌋).toNat := by
  unfold emitted_count toEmit
  by_cases hc : ⌊system.emitAccumulator + rate * dt⌋ ≤ 0
  · rw [if_pos hc, max_eq_left hc]
    rfl
  · rw [if_neg hc, max_eq_right (le_of_lt (not_le.mp hc))]

/-- Claim C14: one call `emit_particles(rate, dt)` with accumulator `a` (cursor `h` inside a
pool of capacity `N`) computes `a' = a + rate * dt` and emits exactly
`k = max(0, floor(a'))` particles: the emission loop runs `k` times, the cursor ends at
`(h + k) mod N`, each of the slots `h, ..., h+k-1 (mod N)` holds the alive, age-0 particle
built by one of the `k` iterations, and every other slot is unchanged (so with `k = 0` the
pool and the cursor are unchanged).  The accumulator is left equal to `a' - floor(a')`,
which lies in `[0, 1)`. -/
theorem emit_particles_accumulates (m : Libm F) (system : ParticleSystem F)
    (emitterPos emitterDir : Vec3f F) (rate dt : F) (rand : Nat → F)
    (hh : system.head < system.pool.length) :
    emit_particles m system emitterPos emitterDir rate dt rand =
      emit_loop m emitterPos (safe_normalize m emitterDir ⟨0, 0, -1⟩)
        (max 0 ⌊system.emitAccumulator + rate * dt⌋).toNat
        { system with emitAccumulator :=
            system.emitAccumulator + rate * dt - (⌊system.emitAccumulator + rate * dt⌋ : F) }
        rand ∧
    emitted_count system rate dt = (max 0 ⌊system.emitAccumulator + rate * dt⌋).toNat ∧
    ∃ s1, emit_particles m system emitterPos emitterDir rate dt rand = some s1 ∧
      s1.emitAccumulator =
        system.emitAccumulator + rate * dt - (⌊system.emitAccumulator + rate * dt⌋ : F) ∧
      0 ≤ s1.emitAccumulator ∧ s1.emitAccumulator < 1 ∧
      s1.pool.length = system.pool.length ∧
      s1.head = (system.head + (max 0 ⌊system.emitAccumulator + rate * dt⌋).toNat) %
        system.pool.length ∧
      ∀ j,
        (ring_slots system.pool.length system.head
            (max 0 ⌊system.emitAccumulator + rate * dt⌋).toNat j →
          ∃ i p, i < (max 0 ⌊system.emitAccumulator + rate * dt⌋).toNat ∧
            s1.pool[j]? = some p ∧
            p = emitted_particle m emitterPos (safe_normalize m emitterDir ⟨0, 0, -1⟩)
              (rand (5 * i)) (rand (5 * i + 1)) (rand (5 * i + 2)) (rand (5 * i + 3))
              (rand (5 * i + 4)) ∧
            p.alive = true ∧ p.age = 0) ∧
        (¬ ring_slots system.pool.length system.head
            (max 0 ⌊system.emitAccumulator + rate * dt⌋).toNat j →
          s1.pool[j]? = system.pool[j]?) := by
  have hk := emitted_count_eq_max system rate dt
  refine ⟨?_, hk, ?_⟩
  · rw [emit_particles_eq_loop, hk]
    rfl
  · obtain ⟨s1, h0, -, -, -, -, h5, -⟩ :=
      emit_particles_defined m system emitterPos emitterDir rate dt rand hh
    obtain ⟨s2, g0, g1, -, g3, g4⟩ :=
      emit_particles_writes m system emitterPos emitterDir rate dt rand hh
    have hs : s2 = s1 := Option.some.inj (g0.symm.trans h0)
    subst hs
    have hfl := Int.floor_le (system.emitAccumulator + rate * dt)
    have hfu := Int.lt_floor_add_one (system.emitAccumulator + rate * dt)
    rw [hk] at g3 g4
    refine ⟨s2, h0, h5, by rw [h5]; linarith, by rw [h5]; linarith, g1, g3, ?_⟩
    intro j
    refine ⟨fun hr => ?_, (g4 j).2⟩
    obtain ⟨i, hi, hp⟩ := (g4 j).1 hr
    exact ⟨i, _, hi, hp, rfl, rfl, rfl⟩

/-- Witness for C14: the first frame of emission (rate 280, `dt = 1/60`) on the freshly
initialised pool of `kMaxParticles` slots. -/
theorem emit_particles_accumulates_witness :
    (sampleSystem ℝ).head < (sampleSystem ℝ).pool.length ∧
    (emit_particles realLibm (sampleSystem ℝ) ⟨0, 0, 0⟩ ⟨0, -1, 0⟩ 280 (1 / 60)
        (fun _ => 1 / 2) =
      emit_loop realLibm ⟨0, 0, 0⟩ (safe_normalize realLibm ⟨0, -1, 0⟩ ⟨0, 0, -1⟩)
        (max 0 ⌊(sampleSystem ℝ).emitAccumulator + 280 * (1 / 60)⌋).toNat
        { sampleSystem ℝ with
          emitAccumulator :=
            (sampleSystem ℝ).emitAccumulator + 280 * (1 / 60) -
              (⌊(sampleSystem ℝ).emitAccumulator + 280 * (1 / 60)⌋ : ℝ) }
        (fun _ => 1 / 2) ∧
    emitted_count (sampleSystem ℝ) 280 (1 / 60) =
      (max 0 ⌊(sampleSystem ℝ).emitAccumulator + 280 * (1 / 60)⌋).toNat ∧
    ∃ s1, emit_particles realLibm (sampleSystem ℝ) ⟨0, 0, 0⟩ ⟨0, -1, 0⟩ 280 (1 / 60)
        (fun _ => 1 / 2) = some s1 ∧
      s1.emitAccumulator =
        (sampleSystem ℝ).emitAccumulator + 280 * (1 / 60) -
          (⌊(sampleSystem ℝ).emitAccumulator + 280 * (1 / 60)⌋ : ℝ) ∧
      0 ≤ s1.emitAccumulator ∧ s1.emitAccumulator < 1 ∧
      s1.pool.length = (sampleSystem ℝ).pool.length ∧
      s1.head = ((sampleSystem ℝ).head +
          (max 0 ⌊(sampleSystem ℝ).emitAccumulator + 280 * (1 / 60)⌋).toNat) %
        (sampleSystem ℝ).pool.length ∧
      ∀ j,
        (ring_slots (sampleSystem ℝ).pool.length (sampleSystem ℝ).head
            (max 0 ⌊(sampleSystem ℝ).emitAccumulator + 280 * (1 / 60)⌋).toNat j →
          ∃ i p, i < (max 0 ⌊(sampleSystem ℝ).emitAccumulator + 280 * (1 / 60)⌋).toNat ∧
            s1.pool[j]? = some p ∧
            p = emitted_particle realLibm ⟨0, 0, 0⟩
              (safe_normalize realLibm ⟨0, -1, 0⟩ ⟨0, 0, -1⟩)
              ((fun _ => 1 / 2) (5 * i)) ((fun _ => 1 / 2) (5 * i + 1))
              ((fun _ => 1 / 2) (5 * i + 2)) ((fun _ => 1 / 2) (5 * i + 3))
              ((fun _ => 1 / 2) (5 * i + 4)) ∧
            p.alive = true ∧ p.age = 0) ∧
        (¬ ring_slots (sampleSystem ℝ).pool.length (sampleSystem ℝ).head
            (max 0 ⌊(sampleSystem ℝ).emitAccumulator + 280 * (1 / 60)⌋).toNat j →
          s1.pool[j]? = (sampleSystem ℝ).pool[j]?)) :=
  ⟨sampleSystem_ready.1,
    emit_particles_accumulates realLibm (sampleSystem ℝ) ⟨0, 0, 0⟩ ⟨0, -1, 0⟩ 280 (1 / 60)
      (fun _ => 1 / 2) sampleSystem_ready.1⟩

end EmitWriteLemmas

section EmitRateClaims

variable {F : Type} [LinearOrderedField F] [FloorRing F]

/-- The `n` calls of `emit_repeat` from a cursor inside the pool: the cursor ends at
`(head + total) mod N` for the returned `total`, every slot among the `total` slots visited
from `head` on holds an alive particle of age 0, and every other slot is as before. -/
theorem emit_repeat_writes (m : Libm F) (emitterPos emitterDir : Vec3f F) (rate dt : F)
    (n : Nat) :
    ∀ (rand : Nat → Nat → F) (system : ParticleSystem F),
      system.head < system.pool.length →
      ∃ s1 total, emit_repeat m emitterPos emitterDir rate dt rand n system = some (s1, total) ∧
        s1.pool.length = system.pool.length ∧
        s1.head = (system.head + total) % system.pool.length ∧
        ∀ j,
          (ring_slots system.pool.length system.head total j →
            ∃ p, s1.pool[j]? = some p ∧ p.alive = true ∧ p.age = 0) ∧
          (¬ ring_slots system.pool.length system.head total j →
            s1.pool[j]? = system.pool[j]?) := by
  induction n with
  | zero =>
    intro rand system hh
    refine ⟨system, 0, rfl, rfl, by rw [Nat.add_zero, Nat.mod_eq_of_lt hh], ?_⟩
    intro j
    constructor
    · rintro ⟨i, hi, -⟩
      omega
    · intro _; rfl
  | succ n ih =>
    intro rand system hh
    obtain ⟨s1, e0, e1, eh, e2, e3⟩ :=
      emit_particles_writes m system emitterPos emitterDir rate dt (rand 0) hh
    obtain ⟨s2, total, g0, g1, g2, g3⟩ := ih (fun i => rand (i + 1)) s1 eh
    rw [e1] at g2 g3
    rw [e2] at g2 g3
    refine ⟨s2, emitted_count system rate dt + total, ?_, g1.trans e1, ?_, ?_⟩
    · simp only [emit_repeat, e0, g0]
    · rw [g2, Nat.mod_add_mod, Nat.add_assoc]
    · intro j
      by_cases hr : ring_slots system.pool.length
          ((system.head + emitted_count system rate dt) % system.pool.length) total j
      · constructor
        · intro _
          exact (g3 j).1 hr
        · intro hn
          exact absurd ((ring_slots_add _ _ _ _ _).mpr (Or.inr hr)) hn
      · have hp := (g3 j).2 hr
        constructor
        · intro hs
          rcases (ring_slots_add _ _ _ _ _).mp hs with hj | hj
          · obtain ⟨i, -, hq⟩ := (e3 j).1 hj
            exact ⟨_, hp.trans hq, rfl, rfl⟩
          · exact absurd hj hr
        · intro hn
          have hj : ¬ ring_slots system.pool.length system.head
              (emitted_count system rate dt) j :=
            fun h => hn ((ring_slots_add _ _ _ _ _).mpr (Or.inl h))
          rw [hp, (e3 j).2 hj]

/-- Claim C8: starting from an initialised system (accumulator 0, cursor 0, capacity
`N > 0`, every slot fresh), `n` calls of `emit_particles` with constant rate `R >= 0` and
constant `dt > 0` are defined, and the cumulative number `total` of particles emitted
differs from `floor(R * T)`, `T = n * dt`, by at most 1.  The count is the one seen on the
pool: the cursor ends at `total mod N`, exactly the first `min(total, N)` slots hold an alive
particle of age 0 and every later slot is still fresh, so `min(total, N)` slots are
alive. -/
theorem emit_rate_accuracy (m : Libm F) (system0 : ParticleSystem F)
    (capacity vao vbo : Nat) (hN : 0 < capacity) (emitterPos emitterDir : Vec3f F)
    (R dt : F) (hR : 0 ≤ R) (hdt : 0 < dt) (rand : Nat → Nat → F) (n : Nat) :
    ∃ s1 total,
      emit_repeat m emitterPos emitterDir R dt rand n
        (init_particle_system system0 capacity vao vbo) = some (s1, total) ∧
      |(total : Int) - ⌊R * ((n : F) * dt)⌋| ≤ 1 ∧
      s1.pool.length = capacity ∧
      s1.head = total % capacity ∧
      alive_slots s1 = min total capacity ∧
      ∀ j, j < capacity →
        (j < min total capacity → ∃ p, s1.pool[j]? = some p ∧ p.alive = true ∧ p.age = 0) ∧
        (min total capacity ≤ j → s1.pool[j]? = some Particle.fresh) := by
  obtain ⟨hl, -, ha, hh, -⟩ := init_particle_system_spec system0 capacity vao vbo
  have hcur : (init_particle_system system0 capacity vao vbo).head <
      (init_particle_system system0 capacity vao vbo).pool.length := by
    rw [hl, hh]; exact hN
  obtain ⟨s1, total, h0, -, h2, h3, h4⟩ :=
    emit_repeat_exact m emitterPos emitterDir R dt (mul_nonneg hR hdt.le) n rand
      (init_particle_system system0 capacity vao vbo) hcur
      (by rw [ha]) (by rw [ha]; exact zero_lt_one)
  obtain ⟨s2, total2, g0, g1, g2, g3⟩ :=
    emit_repeat_writes m emitterPos emitterDir R dt n rand
      (init_particle_system system0 capacity vao vbo) hcur
  have hs : (s2, total2) = (s1, total) := Option.some.inj (g0.symm.trans h0)
  obtain ⟨hs1, hs2⟩ := Prod.mk.inj hs
  subst hs1
  subst hs2
  rw [hl, hh, Nat.zero_add] at g2
  rw [hl, hh] at g3
  rw [hl] at g1
  have hfresh : ∀ j, j < capacity →
      (init_particle_system system0 capacity vao vbo).pool[j]? = some Particle.fresh := by
    intro j hj
    simp [init_particle_system, hj]
  have hslots : ∀ j, j < capacity →
      (j < min total2 capacity →
        ∃ p, s2.pool[j]? = some p ∧ p.alive = true ∧ p.age = 0) ∧
      (min total2 capacity ≤ j → s2.pool[j]? = some Particle.fresh) := by
    intro j hj
    constructor
    · intro hlt
      exact (g3 j).1 ((ring_slots_zero capacity total2 j hj).mpr hlt)
    · intro hge
      have hn : ¬ ring_slots capacity 0 total2 j := fun hr =>
        absurd ((ring_slots_zero capacity total2 j hj).mp hr) (not_lt.mpr hge)
      rw [(g3 j).2 hn]
      exact hfresh j hj
  refine ⟨s2, total2, h0, ?_, g1, g2, ?_, hslots⟩
  · rw [ha, zero_add] at h4
    have hfloor : ⌊R * ((n : F) * dt)⌋ = (total2 : Int) := by
      rw [Int.floor_eq_iff]
      push_cast
      constructor <;> nlinarith
    rw [hfloor]
    simp
  · unfold alive_slots
    apply countP_of_prefix
    · rw [g1]
      exact min_le_right _ _
    · intro j x hjx
      have hj : j < capacity := by
        rw [← g1]
        exact (List.getElem?_eq_some_iff.mp hjx).1
      constructor
      · intro hx
        by_contra hlt
        have := (hslots j hj).2 (not_lt.mp hlt)
        rw [hjx] at this
        have hxe : x = Particle.fresh := Option.some.inj this
        rw [hxe] at hx
        simp [Particle.fresh] at hx
      · intro hlt
        obtain ⟨p, hp, hpa, -⟩ := (hslots j hj).1 hlt
        rw [hjx] at hp
        rw [Option.some.inj hp]
        exact hpa

/-- Witness for C8: the program's emission rate 280 for 600 frames of `dt = 1/60` on the
pool of `kMaxParticles` slots. -/
theorem emit_rate_accuracy_witness :
    0 < kMaxParticles ∧ (0 : ℝ) ≤ 280 ∧ (0 : ℝ) < 1 / 60 ∧
    ∃ s1 total,
      emit_repeat realLibm ⟨0, 0, 0⟩ ⟨0, 0, -1⟩ 280 (1 / 60) (fun _ _ => 0) 600
        (init_particle_system ParticleSystem.fresh kMaxParticles 1 1) = some (s1, total) ∧
      |(total : Int) - ⌊(280 : ℝ) * (((600 : Nat) : ℝ) * (1 / 60))⌋| ≤ 1 ∧
      s1.pool.length = kMaxParticles ∧
      s1.head = total % kMaxParticles ∧
      alive_slots s1 = min total kMaxParticles ∧
      ∀ j, j < kMaxParticles →
        (j < min total kMaxParticles →
          ∃ p, s1.pool[j]? = some p ∧ p.alive = true ∧ p.age = 0) ∧
        (min total kMaxParticles ≤ j → s1.pool[j]? = some Particle.fresh) :=
  ⟨by decide, by norm_num, by norm_num,
    emit_rate_accuracy realLibm ParticleSystem.fresh kMaxParticles 1 1 (by decide)
      ⟨0, 0, 0⟩ ⟨0, 0, -1⟩ 280 (1 / 60) (by norm_num) (by norm_num) (fun _ _ => 0) 600⟩

end EmitRateClaims

section UploadEntryLemmas

variable {F : Type} [LinearOrderedField F]

theorem update_particles_vbo (system : ParticleSystem F) (dt : F) :
    (update_particles system dt).vbo = system.vbo := by
  unfold update_particles
  split <;> rfl

theorem upload_particles_vbo (system : ParticleSystem F) :
    (upload_particles system).1.vbo = system.vbo := by
  unfold upload_particles
  split <;> rfl

/-- With a buffer, the entry uploaded for an alive slot carries that slot's position and
size and `alpha = 1 - age / lifetime`. -/
theorem uploaded_entry_alive (system : ParticleSystem F) (hv : system.vbo ≠ 0) (j : Nat)
    (p : Particle F) (hj : system.pool[j]? = some p) (ha : p.alive = true) :
    uploaded_entry system j = some ⟨p.position, p.size, 1 - p.age / p.lifetime⟩ := by
  have hup : (upload_particles system).2 = some (gpu_snapshot system.pool) := by
    unfold upload_particles
    rw [if_neg hv]
  unfold uploaded_entry
  simp only [hj, ha, if_true, hup]
  rw [gpu_snapshot_eq, List.getElem?_map,
    filter_index_countP (fun q : Particle F => q.alive) system.pool j p hj ha]
  rfl

/-- A slot alive after `update_particles(dt)`, `dt > 0`, was alive before, younger by `dt`
and with the same lifetime. -/
theorem update_particles_survivor (system : ParticleSystem F) (dt : F) (hdt : 0 < dt)
    (j : Nat) (q : Particle F) (hq : (update_particles system dt).pool[j]? = some q)
    (hqa : q.alive = true) :
    ∃ p, system.pool[j]? = some p ∧ p.alive = true ∧ q.age = p.age + dt ∧
      q.lifetime = p.lifetime := by
  have hpool : (update_particles system dt).pool = system.pool.map (spec_update_slot dt) := by
    unfold update_particles
    cases hp : system.pool with
    | nil => simp [hp]
    | cons a t =>
      simp only [not_le.mpr hdt, decide_False, List.isEmpty_cons, Bool.or_self,
        Bool.false_eq_true, if_false]
      exact update_loop_eq_map dt (a :: t)
  rw [hpool, List.getElem?_map] at hq
  cases hp : system.pool[j]? with
  | none => rw [hp] at hq; simp at hq
  | some p =>
    rw [hp] at hq
    have hqe : q = spec_update_slot dt p := by
      simpa using hq.symm
    subst hqe
    cases ha : p.alive
    · simp [spec_update_slot, ha] at hqa
    · by_cases hk : p.age + dt ≥ p.lifetime
      · simp [spec_update_slot, ha, hk] at hqa
      · refine ⟨p, rfl, ha, ?_, ?_⟩
        · simp [spec_update_slot, ha, hk]
        · simp [spec_update_slot, ha, hk]

end UploadEntryLemmas

section AlphaClaims

variable {F : Type} [LinearOrderedField F] [FloorRing F]

/-- A run of particle-system calls from a cursor inside the pool keeps the buffer name. -/
theorem particle_run_vbo (m : Libm F) (ops : List (ParticleOp F)) :
    ∀ system : ParticleSystem F, system.head < system.pool.length →
      ∃ s1, particle_run m system ops = some s1 ∧ s1.vbo = system.vbo := by
  induction ops with
  | nil => intro system _; exact ⟨system, rfl, rfl⟩
  | cons op ops ih =>
    intro system hN
    obtain ⟨s1, h0, -, hh, -, -⟩ := particle_step_keeps m system op hN
    have hv : s1.vbo = system.vbo := by
      cases op with
      | emit emitterPos emitterDir rate dt rand =>
        obtain ⟨s2, e0, -, -, -, e4, -, -⟩ :=
          emit_particles_defined m system emitterPos emitterDir rate dt rand hN
        have hs : s2 = s1 := Option.some.inj (e0.symm.trans h0)
        rw [← hs]
        exact e4
      | update dt =>
        have hs : update_particles system dt = s1 := Option.some.inj h0
        rw [← hs]
        exact update_particles_vbo system dt
      | upload =>
        have hs : (upload_particles system).1 = s1 := Option.some.inj h0
        rw [← hs]
        exact upload_particles_vbo system
    obtain ⟨s2, g0, g1⟩ := ih s1 hh
    refine ⟨s2, ?_, g1.trans hv⟩
    simp only [particle_run, h0]
    exact g0

/-- Claim C18: in every state reached from `init_particle_system` (capacity `N > 0`, a
buffer name other than 0) by emit / update / upload calls with draws in `[0,1]`,
`upload_particles` passes a vector to the GPU in which every entry has `alpha` in `(0, 1]`;
the entry uploaded for an alive slot carries that slot's position and size and an `alpha`
that is 1 exactly when the slot's age is 0; and after an `update_particles(dt)` with
`dt > 0` that the slot survives, the entry uploaded for the slot has a strictly smaller
`alpha` than the one uploaded before. -/
theorem alpha_fades (m : Libm F) (system0 : ParticleSystem F) (capacity vao vbo : Nat)
    (hN : 0 < capacity) (hv : vbo ≠ 0) (ops : List (ParticleOp F))
    (hd : ∀ op ∈ ops, op.drawsInUnit) :
    ∃ s1, particle_run m (init_particle_system system0 capacity vao vbo) ops = some s1 ∧
      (∃ gpuData, (upload_particles s1).2 = some gpuData ∧
        gpuData.length = alive_slots s1 ∧
        ∀ g ∈ gpuData, 0 < g.alpha ∧ g.alpha ≤ 1) ∧
      ∀ (j : Nat) (p : Particle F), s1.pool[j]? = some p → p.alive = true →
        ∃ g, uploaded_entry s1 j = some g ∧
          g.position = p.position ∧ g.size = p.size ∧
          0 < g.alpha ∧ g.alpha ≤ 1 ∧ (g.alpha = 1 ↔ p.age = 0) ∧
          ∀ (dt : F) (q : Particle F), 0 < dt →
            (update_particles s1 dt).pool[j]? = some q → q.alive = true →
            ∃ g1, uploaded_entry (update_particles s1 dt) j = some g1 ∧
              g1.alpha < g.alpha := by
  obtain ⟨hl, -, -, hh, hw⟩ := init_particle_system_spec system0 capacity vao vbo
  have hcur : (init_particle_system system0 capacity vao vbo).head <
      (init_particle_system system0 capacity vao vbo).pool.length := by
    rw [hl, hh]; exact hN
  obtain ⟨s1, h0, -, -, -, h3⟩ := particle_run_keeps m ops
    (init_particle_system system0 capacity vao vbo) hcur
  obtain ⟨s2, g0, g1⟩ := particle_run_vbo m ops
    (init_particle_system system0 capacity vao vbo) hcur
  have hs : s2 = s1 := Option.some.inj (g0.symm.trans h0)
  subst hs
  have hvb : s2.vbo ≠ 0 := by
    rw [g1]
    exact hv
  have hwf := h3 hd hw
  refine ⟨s2, h0, ?_, ?_⟩
  · refine ⟨gpu_snapshot s2.pool, ?_, ?_, ?_⟩
    · unfold upload_particles
      rw [if_neg hvb]
    · rw [gpu_snapshot_length]
      rfl
    · intro g hg
      rw [gpu_snapshot_eq] at hg
      obtain ⟨p, hp, hpg⟩ := List.mem_map.mp hg
      obtain ⟨hmem, ha⟩ := List.mem_filter.mp hp
      obtain ⟨a0, a1⟩ := (hwf p hmem).mp ha
      obtain ⟨b1, b2, -, -⟩ := alpha_of_wellFormed p a0 a1
      rw [← hpg]
      exact ⟨b1, b2⟩
  · intro j p hj ha
    have hmem : p ∈ s2.pool := List.getElem?_mem hj
    obtain ⟨a0, a1⟩ := (hwf p hmem).mp ha
    obtain ⟨b1, b2, b3, b4⟩ := alpha_of_wellFormed p a0 a1
    refine ⟨_, uploaded_entry_alive s2 hvb j p hj ha, rfl, rfl, b1, b2, b3, ?_⟩
    intro dt q hdt hq hqa
    obtain ⟨p1, hp1, -, hage, hlife⟩ := update_particles_survivor s2 dt hdt j q hq hqa
    have hpe : p1 = p := Option.some.inj (hp1.symm.trans hj)
    subst hpe
    have hvu : (update_particles s2 dt).vbo ≠ 0 := by
      rw [update_particles_vbo]
      exact hvb
    refine ⟨_, uploaded_entry_alive (update_particles s2 dt) hvu j q hq hqa, ?_⟩
    show 1 - q.age / q.lifetime < 1 - p1.age / p1.lifetime
    rw [hage, hlife]
    exact b4 dt hdt

/-- Witness for C18: the pool of `kMaxParticles` slots with buffer name 1 after the sample
frame of particle calls. -/
theorem alpha_fades_witness :
    0 < kMaxParticles ∧ (1 : Nat) ≠ 0 ∧ (∀ op ∈ sampleParticleOps ℝ, op.drawsInUnit) ∧
    ∃ s1, particle_run realLibm (init_particle_system ParticleSystem.fresh kMaxParticles 1 1)
        (sampleParticleOps ℝ) = some s1 ∧
      (∃ gpuData, (upload_particles s1).2 = some gpuData ∧
        gpuData.length = alive_slots s1 ∧
        ∀ g ∈ gpuData, 0 < g.alpha ∧ g.alpha ≤ 1) ∧
      ∀ (j : Nat) (p : Particle ℝ), s1.pool[j]? = some p → p.alive = true →
        ∃ g, uploaded_entry s1 j = some g ∧
          g.position = p.position ∧ g.size = p.size ∧
          0 < g.alpha ∧ g.alpha ≤ 1 ∧ (g.alpha = 1 ↔ p.age = 0) ∧
          ∀ (dt : ℝ) (q : Particle ℝ), 0 < dt →
            (update_particles s1 dt).pool[j]? = some q → q.alive = true →
            ∃ g1, uploaded_entry (update_particles s1 dt) j = some g1 ∧
              g1.alpha < g.alpha :=
  ⟨by decide, by decide, sampleParticleOps_draws,
    alpha_fades realLibm ParticleSystem.fresh kMaxParticles 1 1 (by decide) (by decide)
      (sampleParticleOps ℝ) sampleParticleOps_draws⟩

end AlphaClaims

end CW2
